import Mathlib

/-!
Filer: the trash engine (`src/TrashHandler.cpp`).

A shallow embedding of `TrashHandler::moveToTrash` and `TrashHandler::emptyTrash`
over an explicit model of the disk, the mount table, the user's answers and the
external commands, followed by theorems about them.

Strings are Lean `String`s; the Qt string helpers are defined on the character
list of the string so that they evaluate by plain reduction.
-/

namespace Filer

/-! ## Qt string helpers used by the trash engine -/

/-- The part of `l` after the last occurrence of `c` (all of `l` when `c` does not occur). -/
def afterLast (c : Char) (l : List Char) : List Char :=
  (l.reverse.takeWhile (fun x => x != c)).reverse

/-- `QFileInfo::fileName()`: the name of the file, excluding the path
(what follows the last `/`). -/
def fileName (path : String) : String :=
  ⟨afterLast '/' path.data⟩

/-- `QFileInfo::baseName()`: the file name up to (not including) the first `.`. -/
def baseName (path : String) : String :=
  ⟨(fileName path).data.takeWhile (fun x => x != '.')⟩

/-- `QFileInfo::suffix()`: what follows the last `.` of the file name, empty
when the file name has no `.`. -/
def suffix (path : String) : String :=
  if (fileName path).data.contains '.' then ⟨afterLast '.' (fileName path).data⟩ else ""

/-- The digits `QString("_%1").arg(i)` puts in place of `%1` for a non-negative
`int`: the decimal digits of `i`. -/
def argInt (i : Nat) : String :=
  ⟨Nat.toDigits 10 i⟩

/-- `QFileInfo::isRelative()` on Unix: the path does not start with `/`. -/
def isRelative (path : String) : Bool :=
  path.data.head? != some '/'

/-- The `newFileName` of line 199:
`fileInfo.baseName() + QString("_%1").arg(i) + "." + fileInfo.suffix()`. -/
def candidateName (path : String) (i : Nat) : String :=
  baseName path ++ ("_" ++ argInt i) ++ "." ++ suffix path

/-! ## The world the trash engine runs in -/

/-- What an absolute path names on disk. A symbolic link stores the absolute
path of its target (what `QFileInfo::symLinkTarget()` returns). -/
inductive Node where
  | file : Node
  | dir : Node
  | symlink (target : String) : Node
  deriving DecidableEq, Repr

/-- What an external command does when it is started and waited for: the value
`QProcess::exitCode()` returns afterwards, the volume roots it takes out of the
mount table and the paths it removes from the disk. -/
structure ProcOutcome where
  exitCode : Int
  unmounted : List String
  removed : List String
  deriving DecidableEq, Repr

/-- The environment of the trash engine: the disk as a flat map from absolute
paths to nodes, the root paths of the mounted volumes
(`QStorageInfo::mountedVolumes()`), the paths the operating system refuses to
rename or remove, the answers the user will give to the Yes/No dialogs still to
come and the outcomes of the external commands still to be started. -/
structure World where
  cwd : String
  nodes : List (String × Node)
  mounts : List String
  locked : List String
  answers : List Bool
  procs : List ProcOutcome
  deriving DecidableEq, Repr

/-- The three `QMessageBox` flavours with a single OK button. -/
inductive MsgKind where
  | information : MsgKind
  | warning : MsgKind
  | critical : MsgKind
  deriving DecidableEq, Repr

/-- The observable actions of the trash engine, in the order they happen. -/
inductive Event where
  | message (kind : MsgKind) (title text : String) : Event
  | confirm (text : String) (answer : Bool) : Event
  | start (program : String) (arguments : List String) : Event
  | mkpath (path : String) (ok : Bool) : Event
  | rename (src dst : String) (ok : Bool) : Event
  | remove (path : String) (ok : Bool) : Event
  | removeRecursively (path : String) (ok : Bool) : Event
  | rmdir (path : String) (ok : Bool) : Event
  | playSound (file : String) : Event
  deriving DecidableEq, Repr

/-- A world together with the actions performed on it so far. -/
structure Run where
  world : World
  log : List Event
  deriving DecidableEq, Repr

/-- `p` lies strictly inside the directory `d`: it starts with `d` followed by `/`. -/
def isUnder (d p : String) : Bool :=
  (d.data ++ ['/']).isPrefixOf p.data

/-- `QFileInfo::absoluteFilePath()`: the path itself unless it is relative, in
which case it is taken from the current directory (the root directory already
ends in the separator). -/
def absoluteFilePath (w : World) (path : String) : String :=
  if isRelative path then
    (if w.cwd = "/" then "/" ++ path else w.cwd ++ "/" ++ path)
  else path

/-- The node stored at exactly this absolute path. -/
def World.node (w : World) (p : String) : Option Node :=
  w.nodes.lookup p

/-- Follow symbolic links from `p` for at most `fuel` steps; the result is the
path and node finally reached, `none` for a missing path, a dangling link or a
link loop. -/
def World.followFuel (w : World) : Nat → String → Option (String × Node)
  | 0, _ => none
  | fuel + 1, p =>
    match w.node p with
    | none => none
    | some (Node.symlink t) => w.followFuel fuel t
    | some n => some (p, n)

/-- Resolve `p` through its chain of symbolic links (a chain without a loop
visits each node of the disk at most once). -/
def World.follow (w : World) (p : String) : Option (String × Node) :=
  w.followFuel w.nodes.length (absoluteFilePath w p)

/-- `QFile::exists` / `QFileInfo::exists()`: follows symbolic links, so a
dangling link does not exist. -/
def World.exists (w : World) (p : String) : Bool :=
  (w.follow p).isSome

/-- `QFileInfo::isDir()` / `QDir::exists()`: a directory or a link to one. -/
def World.isDir (w : World) (p : String) : Bool :=
  match w.follow p with
  | some (_, Node.dir) => true
  | _ => false

/-- `QFileInfo::isSymLink()`. -/
def World.isSymLink (w : World) (p : String) : Bool :=
  match w.node (absoluteFilePath w p) with
  | some (Node.symlink _) => true
  | _ => false

/-- `QFileInfo::symLinkTarget()`: the absolute path the link points to, empty
when the path is not a link. -/
def World.symLinkTarget (w : World) (p : String) : String :=
  match w.node (absoluteFilePath w p) with
  | some (Node.symlink t) => t
  | _ => ""

/-- The path `m` is the root of a volume that contains `p`. -/
def onVolume (m p : String) : Bool :=
  p == m || isUnder m p || (m == "/" && !isRelative p)

/-- `QStorageInfo(path).rootPath()`: the longest mounted root containing the
path, empty when there is none. -/
def World.rootPath (w : World) (path : String) : String :=
  (w.mounts.filter (fun m => onVolume m (absoluteFilePath w path))).foldl
    (fun best m => if best.length < m.length then m else best) ""

/-! ## Operations on the world -/

/-- Record one action. -/
def Run.emit (r : Run) (e : Event) : Run :=
  { r with log := r.log ++ [e] }

/-- A `QMessageBox` with the buttons Yes and No: the user's next answer
(`true` for Yes); the default button No is taken when no answer is left. -/
def Run.ask (r : Run) (text : String) : Bool × Run :=
  (r.world.answers.headD false,
   { world := { r.world with answers := r.world.answers.tail },
     log := r.log ++ [Event.confirm text (r.world.answers.headD false)] })

/-- Take the given paths, and all that lies inside them, off the disk. -/
def World.erase (w : World) (paths : List String) : World :=
  { w with nodes := w.nodes.filter (fun e => !(paths.any (fun p => e.1 == p || isUnder p e.1))) }

/-- `QProcess::start` followed by `waitForFinished` and `exitCode`: the next
scripted outcome happens; a command beyond the script changes nothing and
exits with code 1. -/
def Run.startProcess (r : Run) (program : String) (arguments : List String) : Int × Run :=
  match r.world.procs with
  | [] => (1, r.emit (Event.start program arguments))
  | o :: rest =>
    (o.exitCode,
     { world := { r.world.erase o.removed with
                  mounts := r.world.mounts.filter (fun m => !o.unmounted.contains m),
                  procs := rest },
       log := r.log ++ [Event.start program arguments] })

/-- The path `p` after `src` has been renamed to `dst`. -/
def rekey (src dst p : String) : String :=
  if p = src then dst
  else if isUnder src p then dst ++ ⟨p.data.drop src.length⟩
  else p

/-- `QFile::rename(src, dst)`: fails when the source is missing or locked, when
something is already stored at the destination (it never overwrites) or when
the destination lies inside the source; otherwise the node and all below it
move. -/
def Run.rename (r : Run) (src dst : String) : Bool × Run :=
  let a := absoluteFilePath r.world src
  let b := absoluteFilePath r.world dst
  let ok := (r.world.node a).isSome && (r.world.node b).isNone
    && !r.world.locked.contains a && !isUnder a b
  (ok,
   { world := if ok then { r.world with nodes := r.world.nodes.map (fun e => (rekey a b e.1, e.2)) }
              else r.world,
     log := r.log ++ [Event.rename src dst ok] })

/-- `QFile::remove(p)`: unlinks a file or a symbolic link (the link itself);
fails on a directory, a missing path or a locked one. -/
def Run.remove (r : Run) (p : String) : Bool × Run :=
  let a := absoluteFilePath r.world p
  let ok := (match r.world.node a with
    | some Node.file => true
    | some (Node.symlink _) => true
    | _ => false) && !r.world.locked.contains a
  (ok,
   { world := if ok then { r.world with nodes := r.world.nodes.filter (fun e => e.1 != a) }
              else r.world,
     log := r.log ++ [Event.remove p ok] })

/-- The world-level part of `QDir::rmdir`: a real, empty, unlocked directory. -/
def World.canRmdir (w : World) (a : String) : Bool :=
  (w.node a == some Node.dir) && !w.locked.contains a && !w.nodes.any (fun e => isUnder a e.1)

/-- `QDir(p).rmdir(".")`: removes a real, empty, unlocked directory. -/
def Run.rmdir (r : Run) (p : String) : Bool × Run :=
  let a := absoluteFilePath r.world p
  let ok := r.world.canRmdir a
  (ok,
   { world := if ok then { r.world with nodes := r.world.nodes.filter (fun e => e.1 != a) }
              else r.world,
     log := r.log ++ [Event.rmdir p ok] })

/-- Inside the directory `d`, the entries `QDir::removeRecursively` cannot
remove: the locked ones and the directories that still hold one. -/
def World.stuck (w : World) (d q : String) : Bool :=
  isUnder d q && (w.locked.contains q || w.nodes.any (fun e => isUnder q e.1 && w.locked.contains e.1))

/-- `QDir(p).removeRecursively()`: true at once when `p` is not an existing
directory; otherwise it lists the directory `p` resolves to (through symbolic
links), removes every entry below it that can be removed, and, if all could,
removes `p` itself with `rmdir`, which fails when `p` is a symbolic link. -/
def Run.removeRecursively (r : Run) (p : String) : Bool × Run :=
  let a := absoluteFilePath r.world p
  match r.world.follow p with
  | some (d, Node.dir) =>
    let emptied : World :=
      { r.world with nodes := r.world.nodes.filter (fun e => !isUnder d e.1 || r.world.stuck d e.1) }
    let ok := !r.world.nodes.any (fun e => r.world.stuck d e.1) && emptied.canRmdir a
    (ok,
     { world := if ok then { emptied with nodes := emptied.nodes.filter (fun e => e.1 != a) }
                else emptied,
       log := r.log ++ [Event.removeRecursively p ok] })
  | _ => (true, { r with log := r.log ++ [Event.removeRecursively p true] })

/-- `QDir(p).mkpath(".")`: true when the directory is there already; creates
it when nothing is stored at the path and the path is not locked; fails
otherwise. -/
def Run.mkpath (r : Run) (p : String) : Bool × Run :=
  let a := absoluteFilePath r.world p
  let ok := (match r.world.node a with
    | none => !r.world.locked.contains a
    | some Node.dir => true
    | some _ => false)
  (ok,
   { world := if ok && (r.world.node a).isNone
              then { r.world with nodes := r.world.nodes ++ [(a, Node.dir)] }
              else r.world,
     log := r.log ++ [Event.mkpath p ok] })

/-- `QDir(dir).entryList(QDir::NoDotAndDotDot | QDir::AllEntries)`: the names
directly inside `dir`, in the order the disk stores them (Qt returns them
sorted by name, so a disk is to store the entries of a directory in that
order). Without `QDir::Hidden`
the names that start with a dot are left out, and without `QDir::System` so are
the symbolic links whose target does not exist. -/
def World.entryList (w : World) (dir : String) : List String :=
  (w.nodes.filterMap (fun e =>
      if isUnder (absoluteFilePath w dir) e.1
      then some (String.mk (e.1.data.drop ((absoluteFilePath w dir).length + 1)))
      else none)).filter
    (fun n => !n.data.contains '/' && n.data.head? != some '.' && w.exists (dir ++ "/" ++ n))

/-! ## `TrashHandler` -/

/-- The members of `TrashHandler` that the engine reads and writes. -/
structure TrashHandler where
  m_trashPath : String
  m_dialogShown : Bool
  deriving DecidableEq, Repr

/-- The constructor `TrashHandler::TrashHandler` (lines 40-44), `home` being
`QDir::homePath()`. -/
def TrashHandler.new (home : String) : TrashHandler :=
  { m_trashPath := home ++ "/.local/share/Trash/files", m_dialogShown := false }

/-- `TrashHandler::getTrashPath` (lines 328-330). -/
def TrashHandler.getTrashPath (h : TrashHandler) : String :=
  h.m_trashPath

/-- The two local flags of `moveToTrash` (lines 49-50). -/
structure Locals where
  unmounted : Bool
  filesMoved : Bool
  deriving DecidableEq, Repr

/-- How one pass through the loop body ends: with the next path (`continue`
or the end of the body) or with the `return` of line 211. -/
inductive Flow where
  | next : Flow
  | stop : Flow
  deriving DecidableEq, Repr

/-- The list of lines 144-188. -/
def criticalSystemPaths : List String :=
  ["/", "/Applications", "/COPYRIGHT", "/System", "/Users", "/bin", "/boot", "/compat",
   "/dev", "/entropy", "/etc", "/home", "/lib", "/libexec", "/media", "/mnt", "/net",
   "/proc", "/rescue", "/root", "/sbin", "/sys", "/tmp", "/usr", "/usr/bin", "/usr/home",
   "/usr/lib", "/usr/libexec", "/usr/local", "/usr/local/bin", "/usr/local/etc",
   "/usr/local/games", "/usr/local/include", "/usr/local/lib", "/usr/local/libexec",
   "/usr/local/sbin", "/usr/local/share", "/usr/local/src", "/usr/obj", "/usr/ports",
   "/usr/sbin", "/usr/share", "/usr/src", "/var", "/zroot"]

/-- The text of the Protected error (line 192). -/
def protectedText : String :=
  "This is critical for the system and cannot be moved to the trash."

/-- The question of the confirmation gate (line 207). -/
def confirmText : String :=
  "Do you want to move the selected items to the Trash?"

/-- The question asked for a path on another volume (lines 243-244). -/
def deleteText : String :=
  "The selected items are on a different mount point than the Trash directory. "
    ++ "Do you want to delete the selected items permanently right away?"

/-- Lines 62-65: `absoluteFilePathWithSymlinksResolved`. -/
def resolvedPath (w : World) (path : String) : String :=
  if w.isSymLink path then w.symLinkTarget path else absoluteFilePath w path

/-- Lines 91-120, the mount-point branch: start `eject-and-clean` when a file of
that name exists, else `umount`; on exit code 0 set `unmounted` and, when the
test of line 107 (`!mountPointDir.exists()`) holds, start the elevated remove
command. The closing of an open window (lines 68-89) belongs to the window
collaborator and is left out. -/
def unmountPath (h : TrashHandler) (l : Locals) (r : Run) (resolved : String) :
    Flow × TrashHandler × Locals × Run :=
  let u := if r.world.exists "eject-and-clean"
    then r.startProcess "eject-and-clean" [resolved]
    else r.startProcess "umount" [resolved]
  if u.1 = 0 then
    if !u.2.world.isDir resolved then
      let s := u.2.startProcess "sudo"
        ["-A", "-E", "rm", "-r", absoluteFilePath u.2.world resolved]
      if s.1 ≠ 0 then
        (Flow.next, h, { l with unmounted := true },
          s.2.emit (Event.message MsgKind.critical "Error"
            ("Failed to remove the mount point directory: " ++ absoluteFilePath u.2.world resolved)))
      else (Flow.next, h, { l with unmounted := true }, s.2)
    else (Flow.next, h, { l with unmounted := true }, u.2)
  else
    (Flow.next, h, l,
      u.2.emit (Event.message MsgKind.critical "Error"
        ("Failed to unmount the mount point: " ++ resolved)))

/-- Lines 196-201, the destination-name loop: while the candidate exists, build
the next one from the counter `i`. The result is the final `newFilePath` with
the final value of `i`; `none` only when the fuel runs out. -/
def destLoop (w : World) (trash path : String) : Nat → Nat → String → Option (String × Nat)
  | 0, _, _ => none
  | fuel + 1, i, newFilePath =>
    if w.exists newFilePath then
      destLoop w trash path fuel (i + 1) (trash ++ "/" ++ candidateName path i)
    else some (newFilePath, i)

/-- Lines 140-141 and 196-201: the loop started at `i = 1` with
`m_trashPath + QDir::separator() + fileName`, with more fuel than there are
nodes on the disk. -/
def destinationPath (w : World) (trash path : String) : Option (String × Nat) :=
  destLoop w trash path (w.nodes.length + 2) 1 (trash ++ "/" ++ fileName path)

/-- Lines 215-267: rename into the trash when the path is on the volume of the
trash (with the rename back and the error on failure), else offer to delete
permanently. `isDir` is `fileInfo.isDir()`. -/
def trashOrDelete (h : TrashHandler) (l : Locals) (r : Run) (path newFilePath : String)
    (isDir : Bool) : Flow × TrashHandler × Locals × Run :=
  if r.world.isDir h.m_trashPath then
    if r.world.rootPath h.m_trashPath = r.world.rootPath path then
      let mv := r.rename path newFilePath
      if !mv.1 then
        (Flow.next, h, l,
          (mv.2.rename newFilePath path).2.emit (Event.message MsgKind.critical "Error"
            "Failed to move to Trash. Please check file permissions."))
      else (Flow.next, h, { l with filesMoved := true }, mv.2)
    else
      let q := r.ask deleteText
      if q.1 then
        if isDir then
          let d := q.2.removeRecursively path
          if !d.1 then
            (Flow.next, h, l,
              d.2.emit (Event.message MsgKind.critical "Error"
                "Failed to delete the directory permanently. Please check file permissions."))
          else (Flow.next, h, l, d.2)
        else
          let d := q.2.remove path
          if !d.1 then
            (Flow.next, h, l,
              d.2.emit (Event.message MsgKind.critical "Error"
                "Failed to delete the file permanently. Please check file permissions."))
          else (Flow.next, h, l, d.2)
      else (Flow.next, h, l, q.2)
  else (Flow.next, h, l, r)

/-- Lines 190-213 followed by `trashOrDelete`: the protected-path test, the
destination-name loop and the confirmation gate. `isDir` is `fileInfo.isDir()`. -/
def gateAndMove (h : TrashHandler) (l : Locals) (r : Run) (path resolved : String)
    (isDir : Bool) : Flow × TrashHandler × Locals × Run :=
  if criticalSystemPaths.contains resolved then
    (Flow.next, h, l, r.emit (Event.message MsgKind.critical "Error" protectedText))
  else
    match destinationPath r.world h.m_trashPath path with
    | none => (Flow.stop, h, l, r)
    | some (newFilePath, _) =>
      if !h.m_dialogShown then
        let g := r.ask confirmText
        if !g.1 then (Flow.stop, { h with m_dialogShown := true }, l, g.2)
        else trashOrDelete { h with m_dialogShown := true } l g.2 path newFilePath isDir
      else trashOrDelete h l r path newFilePath isDir

/-- Lines 123-138 followed by `gateAndMove`: the body of the loop for a path
that is not a mount point. -/
def trashPath (h : TrashHandler) (l : Locals) (r : Run) (path resolved : String) :
    Flow × TrashHandler × Locals × Run :=
  if !r.world.exists path then
    (Flow.next, h, l,
      r.emit (Event.message MsgKind.warning "File not found"
        "The file or directory does not exist."))
  else
    let m := if !r.world.isDir h.m_trashPath then r.mkpath h.m_trashPath else (true, r)
    if !m.1 then
      (Flow.next, h, l,
        m.2.emit (Event.message MsgKind.critical "Error" "Failed to create the Trash directory."))
    else gateAndMove h l m.2 path resolved (r.world.isDir path)

/-- The body of the `foreach` loop (lines 52-268) for one path. -/
def processPath (h : TrashHandler) (l : Locals) (r : Run) (path : String) :
    Flow × TrashHandler × Locals × Run :=
  if r.world.mounts.contains (resolvedPath r.world path) then
    unmountPath h l r (resolvedPath r.world path)
  else trashPath h l r path (resolvedPath r.world path)

/-- The `foreach` loop: the paths in order, until one pass ends with `return`. -/
def moveLoop (h : TrashHandler) (l : Locals) (r : Run) :
    List String → Flow × TrashHandler × Locals × Run
  | [] => (Flow.next, h, l, r)
  | path :: rest =>
    match processPath h l r path with
    | (Flow.stop, h1, l1, r1) => (Flow.stop, h1, l1, r1)
    | (Flow.next, h1, l1, r1) => moveLoop h1 l1 r1 rest

/-- Lines 270-279: the sound chosen from the two flags. -/
def playOutcomeSound (l : Locals) (r : Run) : Run :=
  if l.unmounted && l.filesMoved then r.emit (Event.playSound "ffft.wav")
  else if l.unmounted then r.emit (Event.playSound "pschiuu.wav")
  else if l.filesMoved then r.emit (Event.playSound "ffft.wav")
  else r

/-- What one call leaves behind: the handler, the world and the actions of
this call. -/
structure Outcome where
  handler : TrashHandler
  world : World
  events : List Event
  deriving DecidableEq, Repr

/-- `TrashHandler::moveToTrash` (lines 46-280). -/
def moveToTrash (h : TrashHandler) (w : World) (paths : List String) : Outcome :=
  match moveLoop h { unmounted := false, filesMoved := false } { world := w, log := [] } paths with
  | (Flow.stop, h1, _, r1) => { handler := h1, world := r1.world, events := r1.log }
  | (Flow.next, h1, l1, r1) =>
    { handler := h1, world := (playOutcomeSound l1 r1).world,
      events := (playOutcomeSound l1 r1).log }

/-- The loop of lines 293-312 over the listed items; `false` is the `return
false` after a failed removal. -/
def emptyLoop (m_trashPath : String) (r : Run) : List String → Bool × Run
  | [] => (true, r)
  | trashItem :: rest =>
    if r.world.isDir (m_trashPath ++ "/" ++ trashItem) then
      let d := r.removeRecursively (m_trashPath ++ "/" ++ trashItem)
      if !d.1 then
        (false, d.2.emit (Event.message MsgKind.critical "Error"
          ("Failed to remove directory from Trash: " ++ trashItem)))
      else emptyLoop m_trashPath d.2 rest
    else
      let d := r.remove (m_trashPath ++ "/" ++ trashItem)
      if !d.1 then
        (false, d.2.emit (Event.message MsgKind.critical "Error"
          ("Failed to remove file from Trash: " ++ trashItem)))
      else emptyLoop m_trashPath d.2 rest

/-- `TrashHandler::emptyTrash` (lines 282-326) on a run. `trashDir.exists()` of
line 285 is taken as `isDir`, which is the same for every trash path but the
empty one. -/
def emptyTrashRun (m_trashPath : String) (r : Run) : Bool × Run :=
  if !r.world.isDir m_trashPath then
    (true, r.emit (Event.message MsgKind.information "Empty Trash" "Trash is already empty."))
  else
    let e := emptyLoop m_trashPath r (r.world.entryList m_trashPath)
    if !e.1 then (false, e.2)
    else
      let d := e.2.rmdir m_trashPath
      if !d.1 then
        (false, d.2.emit (Event.message MsgKind.critical "Error"
          "Failed to remove the Trash directory."))
      else
        (true, ((d.2.emit (Event.playSound "rustle.wav")).emit
          (Event.message MsgKind.information "Empty Trash"
            "Trash has been emptied successfully.")))

/-- `TrashHandler::emptyTrash`: the returned value, the world afterwards and the
actions of this call. -/
def emptyTrash (m_trashPath : String) (w : World) : Bool × World × List Event :=
  let e := emptyTrashRun m_trashPath { world := w, log := [] }
  (e.1, e.2.world, e.2.log)

/-! ## Helper definitions for the proofs -/

/-- The number a list of decimal digit characters stands for. -/
def digitsValue (l : List Char) : Nat :=
  l.foldl (fun acc c => 10 * acc + (c.toNat - 48)) 0

/-- The action is a rename, a removal of a file or a recursive removal of a
directory. -/
def Event.movesOrDeletes : Event → Bool
  | Event.rename _ _ _ => true
  | Event.remove _ _ => true
  | Event.removeRecursively _ _ => true
  | _ => false

/-- The action starts one of the two unmount commands. -/
def Event.isUnmountCommand : Event → Bool
  | Event.start program _ => program == "eject-and-clean" || program == "umount"
  | _ => false

/-- The action starts an external command or shows an error other than the
Protected error. -/
def Event.isCommandOrFailure : Event → Bool
  | Event.start _ _ => true
  | Event.message MsgKind.critical _ text => text != protectedText
  | _ => false

/-- The Protected error of line 191-192. -/
def protectedError : Event :=
  Event.message MsgKind.critical "Error" protectedText

/-- A handler for the user whose home is `/home/u`, as the constructor makes it. -/
def userHandler : TrashHandler :=
  TrashHandler.new "/home/u"

/-- A small FreeBSD-like disk: one volume mounted at `/`, `/compat` a symbolic
link to `/usr/compat`, a user with two files, no trash directory yet; the user
will answer Yes once, and the first external command exits with code 1. -/
def smallDisk : World :=
  { cwd := "/",
    nodes := [("/", Node.dir), ("/usr", Node.dir), ("/usr/compat", Node.dir),
      ("/compat", Node.symlink "/usr/compat"), ("/home/u", Node.dir),
      ("/home/u/f1", Node.file), ("/home/u/f2", Node.file)],
    mounts := ["/"], locked := [], answers := [true],
    procs := [{ exitCode := 1, unmounted := [], removed := [] }] }

/-- The action is the confirmation gate of lines 206-209, whatever the answer. -/
def Event.isGate : Event → Bool
  | Event.confirm text _ => text == confirmText
  | _ => false

/-- The action plays a sound. -/
def Event.isSound : Event → Bool
  | Event.playSound _ => true
  | _ => false

/-- The action changes nothing the user was to be asked about: it is no rename,
no removal, no confirmation gate and no sound. -/
def Event.isCalm (e : Event) : Bool :=
  !e.movesOrDeletes && !e.isGate && !e.isSound

/-- The small disk with a user who will answer No. -/
def smallDiskNo : World :=
  { smallDisk with answers := [false] }

/-- The removal the loop of `emptyTrash` makes for one item (lines 296-311
without the messages): recursive for a directory, `QFile::remove` otherwise. -/
def removeItem (m_trashPath : String) (r : Run) (trashItem : String) : Bool × Run :=
  if r.world.isDir (m_trashPath ++ "/" ++ trashItem) then
    r.removeRecursively (m_trashPath ++ "/" ++ trashItem)
  else r.remove (m_trashPath ++ "/" ++ trashItem)

/-- The action is a removal, tried on the path `p`. -/
def Event.isRemovalOf (p : String) : Event → Bool
  | Event.remove q _ => q == p
  | Event.removeRecursively q _ => q == p
  | _ => false

/-- A trash directory that holds the visible file `a.txt`, the directory `d`
with a file in it, and the hidden file `.bashrc`. -/
def hiddenInTrash : World :=
  { cwd := "/",
    nodes := [("/", Node.dir), ("/home/u", Node.dir),
      ("/home/u/.local/share/Trash/files", Node.dir),
      ("/home/u/.local/share/Trash/files/a.txt", Node.file),
      ("/home/u/.local/share/Trash/files/d", Node.dir),
      ("/home/u/.local/share/Trash/files/d/x", Node.file),
      ("/home/u/.local/share/Trash/files/.bashrc", Node.file)],
    mounts := ["/"], locked := [], answers := [], procs := [] }

/-- A trash directory with three files, the second of which is locked. -/
def lockedInTrash : World :=
  { cwd := "/",
    nodes := [("/", Node.dir), ("/home/u", Node.dir),
      ("/home/u/.local/share/Trash/files", Node.dir),
      ("/home/u/.local/share/Trash/files/a", Node.file),
      ("/home/u/.local/share/Trash/files/b", Node.file),
      ("/home/u/.local/share/Trash/files/c", Node.file)],
    mounts := ["/"], locked := ["/home/u/.local/share/Trash/files/b"], answers := [],
    procs := [] }

/-- The small disk with a USB volume mounted at `/media/usb`; the user will
answer No, and the first external command exits with code 0 and takes the
volume out of the mount table. -/
def usbDisk : World :=
  { cwd := "/",
    nodes := [("/", Node.dir), ("/media/usb", Node.dir), ("/home/u", Node.dir),
      ("/home/u/f1", Node.file), ("/home/u/f2", Node.file)],
    mounts := ["/", "/media/usb"], locked := [], answers := [false],
    procs := [{ exitCode := 0, unmounted := ["/media/usb"], removed := [] }] }

/-- A trash directory that already holds `a.tar.gz` and `README`. -/
def archiveInTrash : World :=
  { cwd := "/",
    nodes := [("/", Node.dir), ("/home/u", Node.dir), ("/home/u/a.tar.gz", Node.file),
      ("/home/u/README", Node.file),
      ("/home/u/.local/share/Trash/files", Node.dir),
      ("/home/u/.local/share/Trash/files/a.tar.gz", Node.file),
      ("/home/u/.local/share/Trash/files/README", Node.file)],
    mounts := ["/"], locked := [], answers := [true], procs := [] }

/-- A disk with a file deep inside a protected directory and, in the user's
home, a symbolic link to the protected directory `/usr`; the trash directory
exists and the user will answer Yes. -/
def deepDisk : World :=
  { cwd := "/",
    nodes := [("/", Node.dir), ("/usr", Node.dir), ("/usr/local/lib", Node.dir),
      ("/usr/local/lib/whatever", Node.file), ("/home/u", Node.dir),
      ("/home/u/link", Node.symlink "/usr"),
      ("/home/u/.local/share/Trash/files", Node.dir)],
    mounts := ["/"], locked := [], answers := [true], procs := [] }

/-- The disk with the USB volume where the unmount command also removes the
mount-point directory (as `eject-and-clean` does) and the next command fails. -/
def usbDiskCleaned : World :=
  { usbDisk with
    procs := [{ exitCode := 0, unmounted := ["/media/usb"], removed := ["/media/usb"] },
              { exitCode := 1, unmounted := [], removed := [] }] }

/-- The elevated remove command of line 109 for a mount point. -/
def sudoRemove (mountPoint : String) : Event :=
  Event.start "sudo" ["-A", "-E", "rm", "-r", mountPoint]

/-- Lines 249-261 without the messages: the permanent removal, recursive for a
directory and `QFile::remove` otherwise. -/
def deletePermanently (r : Run) (path : String) (isDir : Bool) : Bool × Run :=
  if isDir then r.removeRecursively path else r.remove path

/-- A disk with a file and a directory on the USB volume, the trash directory
on the root volume; the user will answer Yes. -/
def usbFileDisk : World :=
  { cwd := "/",
    nodes := [("/", Node.dir), ("/media/usb", Node.dir), ("/media/usb/x.txt", Node.file),
      ("/media/usb/d", Node.dir), ("/media/usb/d/y", Node.file), ("/home/u", Node.dir),
      ("/home/u/.local/share/Trash/files", Node.dir)],
    mounts := ["/", "/media/usb"], locked := [], answers := [true], procs := [] }

/-- The action is a rename that succeeded. -/
def Event.isTrashMove : Event → Bool
  | Event.rename _ _ ok => ok
  | _ => false

/-- The action starts an external command. -/
def Event.isStart : Event → Bool
  | Event.start _ _ => true
  | _ => false

/-- The exit code the next external command will have. -/
def nextExitCode (procs : List ProcOutcome) : Int :=
  match procs with
  | [] => 1
  | o :: _ => o.exitCode

/-- Among the actions, read against the outcomes of the external commands in
the order they are started, an unmount command has exited with code 0. -/
def unmountSucceeded : List ProcOutcome → List Event → Bool
  | _, [] => false
  | procs, e :: rest =>
    if e.isStart then
      (e.isUnmountCommand && decide (nextExitCode procs = 0)) || unmountSucceeded procs.tail rest
    else unmountSucceeded procs rest

/-- What a stretch of the loop has done, read from its actions `evs`: the log
grew by `evs`, `filesMoved` was set exactly if a rename succeeded, `unmounted`
exactly if an unmount command exited with code 0, one command outcome was used
per started command, and no sound was played. -/
def Effects (l l1 : Locals) (r r1 : Run) (evs : List Event) : Prop :=
  r1.log = r.log ++ evs ∧
  l1.filesMoved = (l.filesMoved || evs.any Event.isTrashMove) ∧
  l1.unmounted = (l.unmounted || unmountSucceeded r.world.procs evs) ∧
  r1.world.procs = r.world.procs.drop (evs.countP Event.isStart) ∧
  ∀ e ∈ evs, e.isSound = false

/-- Lines 102-119: the mount-point branch after the unmount command `u` has
been waited for. -/
def unmountTail (h : TrashHandler) (l : Locals) (u : Int × Run) (resolved : String) :
    Flow × TrashHandler × Locals × Run :=
  if u.1 = 0 then
    if !u.2.world.isDir resolved then
      let s := u.2.startProcess "sudo"
        ["-A", "-E", "rm", "-r", absoluteFilePath u.2.world resolved]
      if s.1 ≠ 0 then
        (Flow.next, h, { l with unmounted := true },
          s.2.emit (Event.message MsgKind.critical "Error"
            ("Failed to remove the mount point directory: " ++ absoluteFilePath u.2.world resolved)))
      else (Flow.next, h, { l with unmounted := true }, s.2)
    else (Flow.next, h, { l with unmounted := true }, u.2)
  else
    (Flow.next, h, l,
      u.2.emit (Event.message MsgKind.critical "Error"
        ("Failed to unmount the mount point: " ++ resolved)))

/-- The path lies outside the directory `a`: it is neither `a` nor inside it. -/
def outsideOf (a p : String) : Bool :=
  !(p == a || isUnder a p)

/-- The disk `w2` is `w1` with nodes taken away, none of them outside the
directory `a`. -/
def Pruned (a : String) (w1 w2 : World) : Prop :=
  ∃ f : String → Bool, w2.nodes = w1.nodes.filter (fun e => f e.1) ∧
    ∀ k, outsideOf a k = true → f k = true

/-- A disk where the user keeps, next to the directory `/home/u/docs`, a
symbolic link `/home/u/shortcut` to it; the trash directory exists and the
user will answer Yes. -/
def shortcutDisk : World :=
  { cwd := "/",
    nodes := [("/", Node.dir), ("/home/u", Node.dir), ("/home/u/docs", Node.dir),
      ("/home/u/docs/report.txt", Node.file), ("/home/u/docs/old", Node.dir),
      ("/home/u/docs/old/notes", Node.file),
      ("/home/u/shortcut", Node.symlink "/home/u/docs"),
      ("/home/u/.local/share/Trash/files", Node.dir)],
    mounts := ["/"], locked := [], answers := [true], procs := [] }

/-- A trash directory in which the name `f1` is held by a symbolic link whose
target is gone, and a file `/home/u/f1` the user is about to move there; the
user will answer Yes. -/
def danglingInTrash : World :=
  { cwd := "/",
    nodes := [("/", Node.dir), ("/home/u", Node.dir), ("/home/u/f1", Node.file),
      ("/home/u/.local/share/Trash/files", Node.dir),
      ("/home/u/.local/share/Trash/files/f1", Node.symlink "/home/u/gone")],
    mounts := ["/"], locked := [], answers := [true], procs := [] }

/-- A trash directory whose first entry `a` is a symbolic link to its second
entry, the directory `z`. -/
def selfLinkInTrash : World :=
  { cwd := "/",
    nodes := [("/", Node.dir), ("/home/u", Node.dir),
      ("/home/u/.local/share/Trash/files", Node.dir),
      ("/home/u/.local/share/Trash/files/a", Node.symlink "/home/u/.local/share/Trash/files/z"),
      ("/home/u/.local/share/Trash/files/z", Node.dir),
      ("/home/u/.local/share/Trash/files/z/x", Node.file)],
    mounts := ["/"], locked := [], answers := [], procs := [] }

/-- A trash directory whose first entry `a` is a symbolic link to the parent of
the trash directory, followed by the file `b`. -/
def parentLinkInTrash : World :=
  { cwd := "/",
    nodes := [("/", Node.dir), ("/home/u", Node.dir),
      ("/home/u/.local/share/Trash", Node.dir),
      ("/home/u/.local/share/Trash/files", Node.dir),
      ("/home/u/.local/share/Trash/files/a", Node.symlink "/home/u/.local/share/Trash"),
      ("/home/u/.local/share/Trash/files/b", Node.file)],
    mounts := ["/"], locked := [], answers := [], procs := [] }

/-! ## The volume watcher: definitions -/

/-- `QDir().mkdir(dirName)`: false for an empty name; else creates the
directory when nothing is stored at the path and the path is not locked. -/
def World.mkdir (w : World) (dirName : String) : Bool × World :=
  if dirName = "" then (false, w)
  else
    let a := absoluteFilePath w dirName
    let ok := (w.node a).isNone && !w.locked.contains a
    (ok, if ok then { w with nodes := w.nodes ++ [(a, Node.dir)] } else w)

/-- `QDir(path).exists()`: for an empty path `QDir` stands for the current
directory. -/
def World.dirExists (w : World) (path : String) : Bool :=
  w.isDir (if path = "" then w.cwd else path)

/-- `VolumeWatcher::getMediaPath` (lines 152-176), `user` being
`qgetenv("USER")`. The directory is made and tested through `mediaPath`, which
is still empty at lines 163-164, not through `candidate`. -/
def getMediaPath (user : String) (r : Run) : String × Run :=
  let pidof := r.startProcess "pidof" ["udisksd"]
  if pidof.1 = 0 then
    let candidate := "/media/" ++ user
    let mediaPath := ""
    let made := pidof.2.world.mkdir mediaPath
    if made.2.dirExists mediaPath then (candidate, { pidof.2 with world := made.2 })
    else ("/media", { pidof.2 with world := made.2 })
  else ("/media", pidof.2)

/-- A disk on which `udisksd` is running (the first command exits with code 0),
`/media/u` does not exist and cannot be created. -/
def noUserMedia : World :=
  { cwd := "/",
    nodes := [("/", Node.dir), ("/media", Node.dir), ("/home/u", Node.dir)],
    mounts := ["/"], locked := ["/media/u"], answers := [],
    procs := [{ exitCode := 0, unmounted := [], removed := [] }] }

/-- `QString::split(sep)` with the default `KeepEmptyParts`, on the characters
of the string: a string without the separator gives one part. -/
def splitChars (sep : Char) : List Char → List (List Char)
  | [] => [[]]
  | c :: cs =>
    if c = sep then [] :: splitChars sep cs
    else
      match splitChars sep cs with
      | [] => [[c]]
      | part :: parts => (c :: part) :: parts

/-- `QChar::isSpace`, which is what `\s` stands for in a `QRegExp`: the
characters U+0009..U+000D, U+0085 and the separators of the categories Zs, Zl
and Zp. -/
def isSpace (c : Char) : Bool :=
  (9 ≤ c.toNat && c.toNat ≤ 13) || c.toNat == 0x85 ||
  c.toNat == 0x20 || c.toNat == 0xA0 || c.toNat == 0x1680 ||
  (0x2000 ≤ c.toNat && c.toNat ≤ 0x200A) || c.toNat == 0x2028 || c.toNat == 0x2029 ||
  c.toNat == 0x202F || c.toNat == 0x205F || c.toNat == 0x3000

/-- The characters the class of `QRegExp("[^a-zA-Z0-9_\\-\\s\\u00C0-\\u00FF]")`
(line 200) lets through, item by item. `QRegExp` has no escape `\u`: a
backslash before `u` gives the letter `u`, so the class ends with the
characters `u`, `0`, `0`, `C`, the range from `0` to `u`, and `0`, `0`, `F`,
`F`. -/
def inLabelClass (c : Char) : Bool :=
  ('a' ≤ c && c ≤ 'z') || ('A' ≤ c && c ≤ 'Z') || ('0' ≤ c && c ≤ '9') ||
  c == '_' || c == '-' || isSpace c ||
  c == 'u' || c == '0' || c == '0' || c == 'C' ||
  ('0' ≤ c && c ≤ 'u') ||
  c == '0' || c == '0' || c == 'F' || c == 'F'

/-- `diskLabel.replace(QRegExp("[^...]"), "")`: every character outside the
class is removed. -/
def stripLabel (diskLabel : String) : String :=
  ⟨diskLabel.data.filter inLabelClass⟩

/-- `VolumeWatcher::getRootDiskName` (lines 178-205). `displayName` is
`QStorageInfo("/").displayName()`, `hardDiskName` the constant
`AppGlobals::hardDiskName`, `zfsName` the standard output of
`zfs list -o name -H /`. `none` stands for `.at(1)` on a list without a second
part. -/
def getRootDiskName (displayName hardDiskName zfsName : String) : Option String :=
  let diskLabel := if displayName.isEmpty then hardDiskName else displayName
  if !zfsName.isEmpty then
    match (splitChars '/' zfsName.data).get? 1 with
    | none => none
    | some part => some (stripLabel ⟨part⟩)
  else some diskLabel

/-- The characters C20 allows in a label: ASCII letters, digits, the space,
hyphen, underscore and U+00C0..U+00FF. -/
def allowedInLabel (c : Char) : Bool :=
  ('a' ≤ c && c ≤ 'z') || ('A' ≤ c && c ≤ 'Z') || ('0' ≤ c && c ≤ '9') ||
  c == ' ' || c == '-' || c == '_' || (0xC0 ≤ c.toNat && c.toNat ≤ 0xFF)

/-- The actions of a reconciliation pass that take time or change the desktop
directory, in the order they happen. -/
inductive WatchEvent where
  | msleep (ms : Nat) : WatchEvent
  | link (target linkName : String) (ok : Bool) : WatchEvent
  | remove (path : String) (ok : Bool) : WatchEvent
  deriving DecidableEq, Repr

/-- The member of `VolumeWatcher` that the pass reads. -/
structure VolumeWatcher where
  m_mediaPath : String
  deriving DecidableEq, Repr

/-- The environment of the volume watcher. `home` is `QDir::homePath()`.
The directory `<home>/Desktop`, the only place a pass writes to, is kept by
itself: `desktop` maps the paths relative to it to what is stored there. `disk`
holds all the rest, with the mount table the polls settle at (links stored on
`disk` are taken not to lead into the desktop directory); `created` gives
`QFileInfo::created()` of the files that have one; `pending` is what the next
calls of `QStorageInfo::mountedVolumes()` return before the mount table
settles; `log` are the actions so far. -/
structure Desk where
  home : String
  disk : World
  created : List (String × Nat)
  desktop : List (String × Node)
  pending : List (List String)
  log : List WatchEvent
  deriving DecidableEq, Repr

/-- Record one action. -/
def Desk.emit (s : Desk) (e : WatchEvent) : Desk :=
  { s with log := s.log ++ [e] }

/-- The path relative to `<home>/Desktop` of a path inside that directory. -/
def Desk.desktopKey (s : Desk) (p : String) : Option String :=
  if (s.home ++ "/Desktop/").data.isPrefixOf p.data
  then some ⟨p.data.drop (s.home ++ "/Desktop/").data.length⟩
  else none

/-- Does the path exist, following symbolic links for at most `fuel` steps
through the desktop directory. -/
def Desk.existsFuel (s : Desk) : Nat → String → Bool
  | 0, _ => false
  | fuel + 1, p =>
    match s.desktopKey p with
    | none => s.disk.exists p
    | some n =>
      match s.desktop.lookup n with
      | none => false
      | some (Node.symlink t) => s.existsFuel fuel t
      | some _ => true

/-- `QFile::exists` / `QFileInfo::exists()`: follows symbolic links, so a
dangling link does not exist (a chain without a loop visits each entry of the
desktop directory at most once before it leaves it). -/
def Desk.exists (s : Desk) (p : String) : Bool :=
  s.existsFuel (s.desktop.length + 1) p

/-- `QFileInfo::isSymLink()` of the desktop entry `n`. -/
def Desk.isSymLink (s : Desk) (n : String) : Bool :=
  match s.desktop.lookup n with
  | some (Node.symlink _) => true
  | _ => false

/-- `QFileInfo::symLinkTarget()` of the desktop entry `n`. -/
def Desk.symLinkTarget (s : Desk) (n : String) : String :=
  match s.desktop.lookup n with
  | some (Node.symlink t) => t
  | _ => ""

/-- `QDir(dir).entryList(QDir::Dirs | QDir::NoDotAndDotDot)` (line 72): the
names directly inside `dir` that are directories or links to one, in the order
the disk stores them (Qt returns them sorted by name); without `QDir::Hidden` the names that start with a dot
are left out. -/
def World.dirList (w : World) (dir : String) : List String :=
  (w.nodes.filterMap (fun e =>
      if isUnder (absoluteFilePath w dir) e.1
      then some (String.mk (e.1.data.drop ((absoluteFilePath w dir).length + 1)))
      else none)).filter
    (fun n => !n.data.contains '/' && n.data.head? != some '.' && w.isDir (dir ++ "/" ++ n))

/-- The file names of
`QDir(<home>/Desktop).entryInfoList(NoDotAndDotDot | Files | Dirs | System | Hidden | NoSymLinks, DirsFirst)`
(line 78). With `QDir::NoSymLinks` a symbolic link is listed only when it is
broken (which `QDir::System` asks for); everything else directly inside the
directory is listed. -/
def Desk.entryInfoList (s : Desk) : List String :=
  (s.desktop.map Prod.fst).filter
    (fun n => !n.data.contains '/' &&
      (!s.isSymLink n || !s.exists (s.home ++ "/Desktop/" ++ n)))

/-- The list `symlinkPaths` of lines 80-89. -/
def symlinkPaths (v : VolumeWatcher) (s : Desk) : List String :=
  s.entryInfoList.filter
    (fun n => s.isSymLink n && (v.m_mediaPath ++ "/").data.isPrefixOf (s.symLinkTarget n).data)

/-- One call of `QStorageInfo::mountedVolumes()`: the root paths of the
mounted volumes at this moment. -/
def Desk.mountedVolumes (s : Desk) : List String × Desk :=
  match s.pending with
  | [] => (s.disk.mounts, s)
  | m :: rest => (m, { s with pending := rest })

/-- The wait loop of lines 113-129, from the given values of `counter` and
`mountPoints`; `fuel` bounds the number of passes. -/
def waitForMount (fullPath : String) : Nat → Nat → List String → Desk → List String × Desk
  | 0, _, mountPoints, s => (mountPoints, s)
  | fuel + 1, counter, mountPoints, s =>
    let polled := s.mountedVolumes
    let mountPoints := mountPoints ++ polled.1
    if mountPoints.contains fullPath then (mountPoints, polled.2)
    else
      let s := polled.2.emit (WatchEvent.msleep 100)
      let counter := counter + 1
      if counter > 20 then (mountPoints, s)
      else waitForMount fullPath fuel counter mountPoints s

/-- `QFile::link(target, linkName)` for a link in the desktop directory: fails
when something is stored under the name already, or the path is locked. -/
def Desk.link (s : Desk) (target linkName : String) : Bool × Desk :=
  match s.desktopKey linkName with
  | none => (false, s.emit (WatchEvent.link target linkName false))
  | some n =>
    let ok := (s.desktop.lookup n).isNone && !s.disk.locked.contains linkName
    (ok,
     { s with desktop := if ok then s.desktop ++ [(n, Node.symlink target)] else s.desktop,
              log := s.log ++ [WatchEvent.link target linkName ok] })

/-- `QFile::remove(p)` for a path in the desktop directory: unlinks a file or a
symbolic link (the link itself); fails on a directory, a missing path or a
locked one. -/
def Desk.remove (s : Desk) (p : String) : Bool × Desk :=
  match s.desktopKey p with
  | none => (false, s.emit (WatchEvent.remove p false))
  | some n =>
    let ok := (match s.desktop.lookup n with
      | some Node.file => true
      | some (Node.symlink _) => true
      | _ => false) && !s.disk.locked.contains p
    (ok,
     { s with desktop := if ok then s.desktop.filter (fun e => e.1 != n) else s.desktop,
              log := s.log ++ [WatchEvent.remove p ok] })

/-- The test of lines 98-106: `/media/LIVE` is skipped when the creation times
of `/COPYRIGHT` and `/media/LIVE/COPYRIGHT` are equal (two files without one
compare equal). -/
def skipsLive (s : Desk) (fullPath : String) : Bool :=
  fullPath == "/media/LIVE" &&
    s.created.lookup "/COPYRIGHT" == s.created.lookup "/media/LIVE/COPYRIGHT"

/-- One pass of the loop of lines 93-140, for the directory name `dirName`. -/
def linkStep (s : Desk) (path dirName : String) : Desk :=
  let fullPath := absoluteFilePath s.disk path ++ "/" ++ dirName
  let symlinkPath := s.home ++ "/Desktop/" ++ dirName
  if skipsLive s fullPath then s
  else if s.exists fullPath then
    if !s.exists symlinkPath then
      let waited := waitForMount fullPath 21 0 [] s
      if waited.1.contains fullPath then (waited.2.link fullPath symlinkPath).2
      else waited.2
    else s
  else s

/-- One pass of the loop of lines 143-149, for the name `symlinkPath`. -/
def cleanStep (v : VolumeWatcher) (s : Desk) (symlinkPath : String) : Desk :=
  let fullPath := v.m_mediaPath ++ "/" ++ symlinkPath
  if !s.exists fullPath then (s.remove (s.home ++ "/Desktop/" ++ symlinkPath)).2
  else s

/-- `VolumeWatcher::handleDirectoryChange` (lines 68-150): both lists are made
first, then the links are created, then the stale ones are removed. -/
def handleDirectoryChange (v : VolumeWatcher) (s : Desk) (path : String) : Desk :=
  let mediaDirectories := s.disk.dirList path
  let symlinkPaths := symlinkPaths v s
  let linked := mediaDirectories.foldl (fun st dirName => linkStep st path dirName) s
  symlinkPaths.foldl (fun st symlinkPath => cleanStep v st symlinkPath) linked

/-- The watcher of the examples: the media root is `/media`. -/
def mediaWatcher : VolumeWatcher := { m_mediaPath := "/media" }

/-- A desktop with a link `foo` to `/media/bar`, which is gone, while a volume
is mounted at `/media/foo`. -/
def renamedLinkDesk : Desk :=
  { home := "/home/u",
    disk := { cwd := "/", nodes := [("/", Node.dir), ("/media", Node.dir), ("/media/foo", Node.dir)],
              mounts := ["/", "/media/foo"], locked := [], answers := [], procs := [] },
    created := [("/COPYRIGHT", 1)],
    desktop := [("foo", Node.symlink "/media/bar")],
    pending := [], log := [] }

/-- A desktop with the link of a volume that is gone, and a new volume at
`/media/usb` that enters the mount table at the third poll. -/
def plugDesk : Desk :=
  { home := "/home/u",
    disk := { cwd := "/", nodes := [("/", Node.dir), ("/media", Node.dir), ("/media/usb", Node.dir),
                                   ("/media/.hidden", Node.dir), ("/media/note", Node.file)],
              mounts := ["/", "/media/usb"], locked := [], answers := [], procs := [] },
    created := [("/COPYRIGHT", 1)],
    desktop := [("old", Node.symlink "/media/old"), ("notes.txt", Node.file),
                ("Trash", Node.symlink "/home/u/.local/share/Trash/files")],
    pending := [["/"], ["/"]], log := [] }

/-- What the next polls of the mount table return: first the tables still
pending, then the settled one. -/
def upcomingPolls (pending : List (List String)) (settled : List String) : Nat → List (List String)
  | 0 => []
  | n + 1 =>
    match pending with
    | [] => settled :: upcomingPolls [] settled n
    | m :: rest => m :: upcomingPolls rest settled n

/-- The action is the creation of a link, failed or not. -/
def WatchEvent.isLink : WatchEvent → Bool
  | WatchEvent.link _ _ _ => true
  | _ => false

/-- The action changed the desktop directory: a link was created or an entry
removed. -/
def WatchEvent.changes : WatchEvent → Bool
  | WatchEvent.link _ _ ok => ok
  | WatchEvent.remove _ ok => ok
  | WatchEvent.msleep _ => false

/-- The media root is an absolute path, and neither the media root nor the
desktop directory lies inside the other. -/
def mediaApart (v : VolumeWatcher) (s : Desk) : Bool :=
  !isRelative v.m_mediaPath &&
  !(v.m_mediaPath ++ "/").data.isPrefixOf (s.home ++ "/Desktop/").data &&
  !(s.home ++ "/Desktop/").data.isPrefixOf (v.m_mediaPath ++ "/").data

/-- In the state `s`, one pass of the loop of lines 93-140 creates a link for
the name `d`: the directory is not the skipped one, it exists, it is a mounted
root in one of the 21 polls the wait can make, nothing is stored under the
name on the desktop and the path is not locked. -/
def wouldLink (v : VolumeWatcher) (s : Desk) (d : String) : Bool :=
  !skipsLive s (v.m_mediaPath ++ "/" ++ d) && s.disk.exists (v.m_mediaPath ++ "/" ++ d) &&
  (upcomingPolls s.pending s.disk.mounts 21).any
    (fun m => m.contains (v.m_mediaPath ++ "/" ++ d)) &&
  (s.desktop.lookup d).isNone && !s.disk.locked.contains (s.home ++ "/Desktop/" ++ d)

/-- The loop of lines 143-149 removes the desktop entry `n`. -/
def wouldRemove (v : VolumeWatcher) (s : Desk) (n : String) : Bool :=
  !s.disk.exists (v.m_mediaPath ++ "/" ++ n) &&
  ((match s.desktop.lookup n with
    | some Node.file => true
    | some (Node.symlink _) => true
    | _ => false) && !s.disk.locked.contains (s.home ++ "/Desktop/" ++ n))

/-- The state `f` is `s` after polls of the mount table have been made and
links to existing directories of the media root have been added to the
desktop, each under the name of its directory. -/
def Grows (v : VolumeWatcher) (s f : Desk) : Prop :=
  f.home = s.home ∧ f.disk = s.disk ∧ f.created = s.created ∧
  (∃ k, f.pending = s.pending.drop k) ∧
  ∀ x, f.desktop.lookup x = s.desktop.lookup x ∨
    (s.desktop.lookup x = none ∧
      f.desktop.lookup x = some (Node.symlink (v.m_mediaPath ++ "/" ++ x)) ∧
      s.disk.exists (v.m_mediaPath ++ "/" ++ x) = true)

/-- The state `f` is `s` after desktop entries have been removed whose names do
not exist under the media root. -/
def Shrinks (v : VolumeWatcher) (s f : Desk) : Prop :=
  f.home = s.home ∧ f.disk = s.disk ∧ f.created = s.created ∧ f.pending = s.pending ∧
  ∀ x, f.desktop.lookup x = s.desktop.lookup x ∨
    (f.desktop.lookup x = none ∧ s.disk.exists (v.m_mediaPath ++ "/" ++ x) = false)

/-- A desk on which the directory `/media/a` has appeared; the mount table
lists it only after 21 polls have been made. -/
def raceDesk : Desk :=
  { home := "/home/u",
    disk := { cwd := "/", nodes := [("/", Node.dir), ("/media", Node.dir), ("/media/a", Node.dir)],
              mounts := ["/", "/media/a"], locked := [], answers := [], procs := [] },
    created := [("/COPYRIGHT", 1)],
    desktop := [],
    pending := List.replicate 21 ["/"], log := [] }

/-- A desk with the directories `a`, `b`, `c` and `.vol` under `/media`. The
first poll of the mount table lists all four as mounted roots; from the second
poll on only `c` and `.vol` are listed. The desktop path of `c` is locked. -/
def transientDesk : Desk :=
  { home := "/home/u",
    disk := { cwd := "/",
              nodes := [("/", Node.dir), ("/media", Node.dir), ("/media/a", Node.dir),
                        ("/media/b", Node.dir), ("/media/c", Node.dir), ("/media/.vol", Node.dir)],
              mounts := ["/", "/media/c", "/media/.vol"], locked := ["/home/u/Desktop/c"],
              answers := [], procs := [] },
    created := [("/COPYRIGHT", 1)],
    desktop := [],
    pending := [["/", "/media/a", "/media/b", "/media/c", "/media/.vol"]], log := [] }

/-- A desk with the directories `a` and `b` under `/media`, both mounted; the
mount table lists `b` from the second poll on and `a` from the third. -/
def twoVolumesDesk : Desk :=
  { home := "/home/u",
    disk := { cwd := "/",
              nodes := [("/", Node.dir), ("/media", Node.dir), ("/media/a", Node.dir),
                        ("/media/b", Node.dir)],
              mounts := ["/", "/media/a", "/media/b"], locked := [], answers := [], procs := [] },
    created := [("/COPYRIGHT", 1)],
    desktop := [("notes.txt", Node.file)],
    pending := [["/"], ["/", "/media/b"]], log := [] }

/-- The state of a pass when the loop of lines 93-140 has gone through the
directory names `names`. -/
def linkLoopState (s : Desk) (path : String) (names : List String) : Desk :=
  names.foldl (fun st dirName => linkStep st path dirName) s

/-- The time an action spends asleep, in milliseconds. -/
def WatchEvent.sleptMs : WatchEvent → Nat
  | WatchEvent.msleep ms => ms
  | _ => 0

/-- A desk on which the directory `/media/usb` has appeared but is never
entered in the mount table. -/
def unmountedDesk : Desk :=
  { home := "/home/u",
    disk := { cwd := "/", nodes := [("/", Node.dir), ("/media", Node.dir), ("/media/usb", Node.dir)],
              mounts := ["/"], locked := [], answers := [], procs := [] },
    created := [("/COPYRIGHT", 1)],
    desktop := [],
    pending := [], log := [] }

/-! ## Desktop files: definitions -/

/-- The lines `QTextStream::readLine()` returns until `atEnd()`: a line ends at
a line feed, which is not part of it, nor is a carriage return right before the
line feed; what follows the last line feed is a line when it is not empty. -/
def readLines : List Char → List (List Char)
  | [] => []
  | [c] => if c = '\n' then [[]] else [[c]]
  | c :: d :: cs =>
    if c = '\n' then [] :: readLines (d :: cs)
    else if c = '\r' ∧ d = '\n' then [] :: readLines cs
    else
      match readLines (d :: cs) with
      | [] => [[c]]
      | line :: lines => (c :: line) :: lines

/-- `QString::trimmed()`: without the whitespace at both ends. -/
def trimmed (s : List Char) : List Char :=
  ((s.dropWhile isSpace).reverse.dropWhile isSpace).reverse

/-- The loop of lines 46-53 over the lines still to be read; `none` stands for
`.at(1)` on a list without a second part. -/
def iconLoop : List (List Char) → Option String
  | [] => some ""
  | line :: rest =>
    if "Icon".data.isPrefixOf line then
      match (splitChars '=' line).get? 1 with
      | none => none
      | some part => some ⟨trimmed part⟩
    else iconLoop rest

/-- `DesktopFile::getIcon` (lines 38-63). `content` is the text of the file
`m_filename`, `none` when the file cannot be opened. -/
def getIcon (content : Option String) : Option String :=
  match content with
  | none => some ""
  | some text => iconLoop (readLines text.data)

/-! ## Decimal rendering and candidate names -/

theorem digitChar_value (k : Nat) (h : k < 10) : (Nat.digitChar k).toNat - 48 = k := by
  interval_cases k <;> rfl

theorem toDigitsCore_value (fuel : Nat) : ∀ (n : Nat) (ds : List Char), n < fuel →
    (Nat.toDigitsCore 10 fuel n ds).foldl (fun acc c => 10 * acc + (c.toNat - 48)) 0
      = ds.foldl (fun acc c => 10 * acc + (c.toNat - 48)) n := by
  induction fuel with
  | zero => intro n ds h; omega
  | succ fuel ih =>
    intro n ds h
    have hd : (Nat.digitChar (n % 10)).toNat - 48 = n % 10 :=
      digitChar_value (n % 10) (Nat.mod_lt n (by decide))
    by_cases h0 : n / 10 = 0
    · have hn : n % 10 = n := by omega
      rw [hn] at hd
      simp [Nat.toDigitsCore, h0, hd, hn]
    · have hlt : n / 10 < fuel := by omega
      have hn : 10 * (n / 10) + n % 10 = n := Nat.div_add_mod n 10
      simp [Nat.toDigitsCore, h0, ih (n / 10) _ hlt, hd, hn]

theorem digitsValue_argInt (i : Nat) : digitsValue (argInt i).data = i := by
  simp [digitsValue, argInt, Nat.toDigits, toDigitsCore_value (i + 1) i [] (Nat.lt_succ_self i)]

theorem argInt_injective {i j : Nat} (h : argInt i = argInt j) : i = j := by
  have := congrArg (fun s => digitsValue s.data) h
  simpa [digitsValue_argInt] using this

theorem candidateName_injective (path : String) {i j : Nat}
    (h : candidateName path i = candidateName path j) : i = j := by
  apply argInt_injective
  have h1 := congrArg String.data h
  simp [candidateName, String.data_append] at h1
  exact String.ext h1

/-! ## File names of the form `base.ext` -/

theorem isRelative_append_slash (trash x y : String) :
    isRelative (trash ++ "/" ++ x) = isRelative (trash ++ "/" ++ y) := by
  cases h : trash.data with
  | nil => simp [isRelative, String.data_append, h]
  | cons c cs => simp [isRelative, String.data_append, h]

theorem absolute_candidate_injective (w : World) (trash path : String) {i j : Nat}
    (h : absoluteFilePath w (trash ++ "/" ++ candidateName path i)
      = absoluteFilePath w (trash ++ "/" ++ candidateName path j)) : i = j := by
  apply candidateName_injective path
  have hr := isRelative_append_slash trash (candidateName path i) (candidateName path j)
  unfold absoluteFilePath at h
  rw [hr] at h
  have h1 := congrArg String.data h
  apply String.ext
  split at h1
  · split at h1 <;> simpa [String.data_append] using h1
  · simpa [String.data_append] using h1

theorem node_isSome_mem (w : World) (p : String) (h : (w.node p).isSome = true) :
    p ∈ w.nodes.map Prod.fst := by
  unfold World.node at h
  rw [List.lookup_isSome_iff] at h
  obtain ⟨e, he, hk⟩ := h
  have : p = e.1 := by simpa using hk
  exact List.mem_map.mpr ⟨e, he, this.symm⟩

theorem exists_mem_nodes (w : World) (p : String) (h : w.exists p = true) :
    absoluteFilePath w p ∈ w.nodes.map Prod.fst := by
  unfold World.exists World.follow at h
  cases hl : w.nodes.length with
  | zero => rw [hl] at h; simp [World.followFuel] at h
  | succ fuel =>
    rw [hl] at h
    apply node_isSome_mem
    cases hn : w.node (absoluteFilePath w p) with
    | none => simp [World.followFuel, hn] at h
    | some n => rfl

/-- Candidates that all exist are distinct nodes of the disk, so there are at
most as many of them as the disk has nodes. -/
theorem existing_candidates_le (w : World) (trash path : String) (i n : Nat)
    (h : ∀ j, j < n → w.exists (trash ++ "/" ++ candidateName path (i + j)) = true) :
    n ≤ w.nodes.length := by
  have hnodup : ((List.range n).map
      (fun j => absoluteFilePath w (trash ++ "/" ++ candidateName path (i + j)))).Nodup := by
    apply List.Nodup.map_on _ (List.nodup_range n)
    intro a _ b _ hab
    have := absolute_candidate_injective w trash path hab
    omega
  have hsub : ((List.range n).map
      (fun j => absoluteFilePath w (trash ++ "/" ++ candidateName path (i + j))))
      ⊆ w.nodes.map Prod.fst := by
    intro x hx
    obtain ⟨j, hj, rfl⟩ := List.mem_map.mp hx
    exact exists_mem_nodes w _ (h j (List.mem_range.mp hj))
  have := (List.subperm_of_subset hnodup hsub).length_le
  simpa using this

/-- The loop entered with the `i`-th candidate: when the next `n` candidates
exist and the one after them does not, the loop ends on that one. -/
theorem destLoop_first_free (w : World) (trash path : String) : ∀ (n fuel i : Nat),
    n + 1 ≤ fuel →
    (∀ j, j < n → w.exists (trash ++ "/" ++ candidateName path (i + j)) = true) →
    w.exists (trash ++ "/" ++ candidateName path (i + n)) = false →
    destLoop w trash path fuel (i + 1) (trash ++ "/" ++ candidateName path i)
      = some (trash ++ "/" ++ candidateName path (i + n), i + n + 1) := by
  intro n
  induction n with
  | zero =>
    intro fuel i hf _ hfree
    obtain ⟨f, rfl⟩ : ∃ f, fuel = f + 1 := ⟨fuel - 1, by omega⟩
    simp only [Nat.add_zero] at hfree
    simp [destLoop, hfree]
  | succ n ih =>
    intro fuel i hf hex hfree
    obtain ⟨f, rfl⟩ : ∃ f, fuel = f + 1 := ⟨fuel - 1, by omega⟩
    have h0 : w.exists (trash ++ "/" ++ candidateName path i) = true := by
      simpa using hex 0 (Nat.succ_pos n)
    have hstep := ih f (i + 1) (by omega)
      (fun j hj => by simpa [Nat.add_assoc, Nat.add_comm 1 j] using hex (j + 1) (by omega))
      (by simpa [Nat.add_assoc, Nat.add_comm 1 n] using hfree)
    simp only [destLoop, h0, if_true]
    rw [hstep]
    simp [Nat.add_assoc, Nat.add_comm 1 n]

/-- Some candidate among the first `nodes.length + 1` does not exist. -/
theorem free_candidate (w : World) (trash path : String) (i : Nat) :
    ∃ n, n ≤ w.nodes.length ∧
      (∀ j, j < n → w.exists (trash ++ "/" ++ candidateName path (i + j)) = true) ∧
      w.exists (trash ++ "/" ++ candidateName path (i + n)) = false := by
  have hex : ∃ n, w.exists (trash ++ "/" ++ candidateName path (i + n)) = false := by
    by_contra hno
    have hall : ∀ j, j < w.nodes.length + 1 →
        w.exists (trash ++ "/" ++ candidateName path (i + j)) = true := by
      intro j _
      by_contra hj
      exact hno ⟨j, by simpa using hj⟩
    have := existing_candidates_le w trash path i (w.nodes.length + 1) hall
    omega
  have hmin : ∀ j, j < Nat.find hex →
      w.exists (trash ++ "/" ++ candidateName path (i + j)) = true := by
    intro j hj
    simpa using Nat.find_min hex hj
  exact ⟨Nat.find hex, existing_candidates_le w trash path i _ hmin, hmin, Nat.find_spec hex⟩

/-- The loop always ends within its fuel. -/
theorem destinationPath_some (w : World) (trash path : String) :
    ∃ dest i, destinationPath w trash path = some (dest, i) := by
  unfold destinationPath
  by_cases h0 : w.exists (trash ++ "/" ++ fileName path) = true
  · obtain ⟨n, hn, hex, hfree⟩ := free_candidate w trash path 1
    refine ⟨trash ++ "/" ++ candidateName path (1 + n), 1 + n + 1, ?_⟩
    simp only [destLoop, h0, if_true]
    exact destLoop_first_free w trash path n (w.nodes.length + 1) 1 (by omega) hex hfree
  · exact ⟨trash ++ "/" ++ fileName path, 1, by simp [destLoop, h0]⟩

/-- The destination-name loop of `moveToTrash` (lines 196-201) terminates on
every disk and for every source path, which is the first half of C3: with the fuel `destinationPath` gives it,
it returns a destination path; that path does not exist (`QFile::exists` is
false for it), the counter `i` has not passed the number of nodes on the disk
plus two, and the path is the trash path followed by the file name or by one
of the numbered candidates. -/
theorem destinationPath_terminates (w : World) (trash path : String) :
    ∃ dest i, destinationPath w trash path = some (dest, i) ∧ w.exists dest = false
      ∧ i ≤ w.nodes.length + 2
      ∧ (dest = trash ++ "/" ++ fileName path
          ∨ ∃ n, 1 ≤ n ∧ dest = trash ++ "/" ++ candidateName path n) := by
  unfold destinationPath
  by_cases h0 : w.exists (trash ++ "/" ++ fileName path) = true
  · obtain ⟨n, hn, hex, hfree⟩ := free_candidate w trash path 1
    refine ⟨trash ++ "/" ++ candidateName path (1 + n), 1 + n + 1, ?_, hfree, by omega,
      Or.inr ⟨1 + n, by omega, rfl⟩⟩
    simp only [destLoop, h0, if_true]
    exact destLoop_first_free w trash path n (w.nodes.length + 1) 1 (by omega) hex hfree
  · refine ⟨trash ++ "/" ++ fileName path, 1, ?_, by simpa using h0, by omega, Or.inl rfl⟩
    simp [destLoop, h0]

/-- C5 fails for names with several dots and for names without a dot. The first
collision candidate for `a.tar.gz` is `a_1.gz` (`baseName()` stops at the first
dot, `suffix()` starts after the last, so `.tar` is lost), and for `README` it
is `README_1.` (a dot is appended); these are the destinations `moveToTrash`
renames to when the trash already holds the two names. -/
theorem candidate_changes_the_name :
    candidateName "/home/u/a.tar.gz" 1 = "a_1.gz" ∧
    candidateName "/home/u/README" 1 = "README_1." ∧
    destinationPath archiveInTrash "/home/u/.local/share/Trash/files" "/home/u/a.tar.gz"
      = some ("/home/u/.local/share/Trash/files/a_1.gz", 2) ∧
    (moveToTrash userHandler archiveInTrash ["/home/u/README"]).events
      = [Event.confirm confirmText true,
         Event.rename "/home/u/README" "/home/u/.local/share/Trash/files/README_1." true,
         Event.playSound "ffft.wav"] := by
  decide

/-! ## Protected paths and the mount-point branch -/

theorem critical_absolute : ∀ p ∈ criticalSystemPaths, isRelative p = false := by
  decide

theorem resolvedPath_critical (w : World) (p : String) (hp : p ∈ criticalSystemPaths)
    (hlink : w.isSymLink p = true → w.symLinkTarget p ∈ criticalSystemPaths) :
    resolvedPath w p ∈ criticalSystemPaths := by
  unfold resolvedPath
  by_cases hs : w.isSymLink p = true
  · simp [hs, hlink hs]
  · simp [hs, absoluteFilePath, critical_absolute p hp, hp]

theorem startProcess_log (r : Run) (prog : String) (args : List String) :
    (r.startProcess prog args).2.log = r.log ++ [Event.start prog args] := by
  unfold Run.startProcess
  cases r.world.procs <;> simp [Run.emit]

theorem failed_ne_protected (a x : String) (h : a.data.head? = some 'F') :
    (a ++ x != protectedText) = true := by
  have hne : a ++ x ≠ protectedText := by
    intro heq
    have h1 := congrArg (fun s => s.data.head?) heq
    cases ha : a.data with
    | nil => simp [ha] at h
    | cons c cs =>
      simp [ha] at h
      simp [String.data_append, ha, h, protectedText] at h1
  simpa using hne

/-- The mount-point branch: it ends with `continue`, leaves the handler alone,
and its actions are one unmount command followed only by the elevated remove
command and failure messages. -/
theorem unmountPath_log (h : TrashHandler) (l : Locals) (r : Run) (resolved : String) :
    ∃ prog tail, (unmountPath h l r resolved).2.2.2.log
        = r.log ++ Event.start prog [resolved] :: tail ∧
      (prog = "eject-and-clean" ∨ prog = "umount") ∧
      (unmountPath h l r resolved).1 = Flow.next ∧
      (unmountPath h l r resolved).2.1 = h ∧
      (unmountPath h l r resolved).2.2.1.filesMoved = l.filesMoved ∧
      (∀ e ∈ tail, e.isCommandOrFailure = true ∧ e.isUnmountCommand = false) := by
  unfold unmountPath
  by_cases hx : r.world.exists "eject-and-clean" = true
  · refine ⟨"eject-and-clean", ?_⟩
    simp only [hx, if_true]
    split_ifs <;>
      simp [startProcess_log, Run.emit, Event.isCommandOrFailure, Event.isUnmountCommand,
        failed_ne_protected]
  · refine ⟨"umount", ?_⟩
    have hx' : r.world.exists "eject-and-clean" = false := by simpa using hx
    simp only [hx', Bool.false_eq_true, if_false]
    split_ifs <;>
      simp [startProcess_log, Run.emit, Event.isCommandOrFailure, Event.isUnmountCommand,
        failed_ne_protected]

theorem mkpath_log (r : Run) (p : String) :
    (r.mkpath p).2.log = r.log ++ [Event.mkpath p (r.mkpath p).1] := by
  simp [Run.mkpath]

/-- The trash branch for a path whose resolved path is protected: it ends with
`continue`, changes neither the handler nor the flags, performs no rename and
no removal, and shows the Protected error exactly when the path exists and the
trash directory exists or could be created. -/
theorem trashPath_protected (h : TrashHandler) (l : Locals) (r : Run) (path resolved : String)
    (hc : resolved ∈ criticalSystemPaths) :
    ∃ evs, (trashPath h l r path resolved).2.2.2.log = r.log ++ evs ∧
      (trashPath h l r path resolved).1 = Flow.next ∧
      (trashPath h l r path resolved).2.1 = h ∧
      (trashPath h l r path resolved).2.2.1 = l ∧
      (∀ e ∈ evs, e.movesOrDeletes = false ∧ e.isUnmountCommand = false) ∧
      (protectedError ∈ evs ↔
        (r.world.exists path = true ∧
          (r.world.isDir h.m_trashPath = true ∨ (r.mkpath h.m_trashPath).1 = true))) := by
  unfold trashPath gateAndMove
  by_cases hex : r.world.exists path = true
  · by_cases hd : r.world.isDir h.m_trashPath = true
    · refine ⟨[protectedError], ?_⟩
      simp [hex, hd, hc, Run.emit, protectedError, Event.movesOrDeletes, Event.isUnmountCommand]
    · by_cases hm : (r.mkpath h.m_trashPath).1 = true
      · refine ⟨[Event.mkpath h.m_trashPath true, protectedError], ?_⟩
        simp [hex, hd, hm, hc, Run.emit, mkpath_log, protectedError, Event.movesOrDeletes,
          Event.isUnmountCommand]
      · refine ⟨[Event.mkpath h.m_trashPath false,
          Event.message MsgKind.critical "Error" "Failed to create the Trash directory."], ?_⟩
        simp [hex, hd, hm, Run.emit, mkpath_log, protectedError, Event.movesOrDeletes,
          Event.isUnmountCommand, protectedText]
  · refine ⟨[Event.message MsgKind.warning "File not found"
      "The file or directory does not exist."], ?_⟩
    simp [hex, Run.emit, protectedError, Event.movesOrDeletes, Event.isUnmountCommand]

theorem playOutcomeSound_log (l : Locals) (r : Run) :
    ∃ s, (playOutcomeSound l r).log = r.log ++ s ∧ ∀ e ∈ s, ∃ f, e = Event.playSound f := by
  unfold playOutcomeSound
  split_ifs
  · exact ⟨[Event.playSound "ffft.wav"], rfl, by simp⟩
  · exact ⟨[Event.playSound "pschiuu.wav"], rfl, by simp⟩
  · exact ⟨[Event.playSound "ffft.wav"], rfl, by simp⟩
  · exact ⟨[], by simp, by simp⟩

/-- A batch of one path whose pass ends with `continue`: the actions are those
of the pass followed by at most one sound. -/
theorem moveToTrash_single (h : TrashHandler) (w : World) (p : String)
    (hn : (processPath h { unmounted := false, filesMoved := false }
      { world := w, log := [] } p).1 = Flow.next) :
    ∃ s, (moveToTrash h w [p]).events
        = (processPath h { unmounted := false, filesMoved := false }
            { world := w, log := [] } p).2.2.2.log ++ s ∧
      ∀ e ∈ s, ∃ f, e = Event.playSound f := by
  unfold moveToTrash moveLoop
  rcases hx : processPath h { unmounted := false, filesMoved := false }
    { world := w, log := [] } p with ⟨f, h1, l1, r1⟩
  rw [hx] at hn
  simp only at hn
  subst hn
  simp only [moveLoop]
  exact playOutcomeSound_log l1 r1

/-- C1 (amended). For every protected path `p` that is not a symbolic link to a
path outside the list: `moveToTrash([p])` performs no rename and no removal; it
shows the Protected error exactly when the resolved path is not the root of a
mounted volume, `p` exists and the trash directory exists or could be created;
and when the resolved path is a mounted root it starts an unmount command for
it instead. -/
theorem moveToTrash_protected (h : TrashHandler) (w : World) (p : String)
    (hp : p ∈ criticalSystemPaths)
    (hlink : w.isSymLink p = true → w.symLinkTarget p ∈ criticalSystemPaths) :
    (∀ e ∈ (moveToTrash h w [p]).events, e.movesOrDeletes = false) ∧
    (protectedError ∈ (moveToTrash h w [p]).events ↔
      (resolvedPath w p ∉ w.mounts ∧ w.exists p = true ∧
        (w.isDir h.m_trashPath = true
          ∨ (Run.mkpath { world := w, log := [] } h.m_trashPath).1 = true))) ∧
    (resolvedPath w p ∈ w.mounts →
      ∃ prog, (prog = "eject-and-clean" ∨ prog = "umount") ∧
        Event.start prog [resolvedPath w p] ∈ (moveToTrash h w [p]).events) := by
  have hc := resolvedPath_critical w p hp hlink
  by_cases hm : resolvedPath w p ∈ w.mounts
  · obtain ⟨prog, tail, hlog, hprog, hflow, -, -, htail⟩ :=
      unmountPath_log h { unmounted := false, filesMoved := false } { world := w, log := [] }
        (resolvedPath w p)
    have hpp : processPath h { unmounted := false, filesMoved := false }
        { world := w, log := [] } p
        = unmountPath h { unmounted := false, filesMoved := false } { world := w, log := [] }
          (resolvedPath w p) := by
      simp [processPath, hm]
    obtain ⟨s, hev, hs⟩ := moveToTrash_single h w p (by rw [hpp]; exact hflow)
    rw [hpp, hlog] at hev
    rw [hev]
    refine ⟨?_, ?_, ?_⟩
    · intro e he
      simp only [List.nil_append, List.mem_append, List.mem_cons] at he
      rcases he with (rfl | he) | he
      · rfl
      · have := (htail e he).1
        cases e <;> simp_all [Event.isCommandOrFailure, Event.movesOrDeletes]
      · obtain ⟨f, rfl⟩ := hs e he
        rfl
    · constructor
      · intro he
        simp only [List.nil_append, List.mem_append, List.mem_cons] at he
        rcases he with (he | he) | he
        · simp [protectedError] at he
        · have := (htail _ he).1
          simp [protectedError, Event.isCommandOrFailure] at this
        · obtain ⟨f, hf⟩ := hs _ he
          simp [protectedError] at hf
      · intro hcon
        exact absurd hm hcon.1
    · intro _
      exact ⟨prog, hprog, by simp⟩
  · obtain ⟨evs, hlog, hflow, -, -, hevs, hiff⟩ :=
      trashPath_protected h { unmounted := false, filesMoved := false } { world := w, log := [] }
        p (resolvedPath w p) hc
    have hpp : processPath h { unmounted := false, filesMoved := false }
        { world := w, log := [] } p
        = trashPath h { unmounted := false, filesMoved := false } { world := w, log := [] }
          p (resolvedPath w p) := by
      simp [processPath, hm]
    obtain ⟨s, hev, hs⟩ := moveToTrash_single h w p (by rw [hpp]; exact hflow)
    rw [hpp, hlog] at hev
    rw [hev]
    refine ⟨?_, ?_, ?_⟩
    · intro e he
      simp only [List.nil_append, List.mem_append] at he
      rcases he with he | he
      · exact (hevs e he).1
      · obtain ⟨f, rfl⟩ := hs e he
        rfl
    · constructor
      · intro he
        simp only [List.nil_append, List.mem_append] at he
        rcases he with he | he
        · exact ⟨hm, hiff.mp he⟩
        · obtain ⟨f, hf⟩ := hs _ he
          simp [protectedError] at hf
      · intro hcon
        simp only [List.nil_append, List.mem_append]
        exact Or.inl (hiff.mpr hcon.2)
    · intro hcon
      exact absurd hcon hm

theorem moveToTrash_protected_witness :
    (∀ e ∈ (moveToTrash userHandler smallDisk ["/usr"]).events, e.movesOrDeletes = false) ∧
    (protectedError ∈ (moveToTrash userHandler smallDisk ["/usr"]).events ↔
      (resolvedPath smallDisk "/usr" ∉ smallDisk.mounts ∧ smallDisk.exists "/usr" = true ∧
        (smallDisk.isDir userHandler.m_trashPath = true
          ∨ (Run.mkpath { world := smallDisk, log := [] } userHandler.m_trashPath).1 = true))) ∧
    (resolvedPath smallDisk "/usr" ∈ smallDisk.mounts →
      ∃ prog, (prog = "eject-and-clean" ∨ prog = "umount") ∧
        Event.start prog [resolvedPath smallDisk "/usr"]
          ∈ (moveToTrash userHandler smallDisk ["/usr"]).events) :=
  moveToTrash_protected userHandler smallDisk "/usr" (by decide)
    (fun hl => absurd hl (by decide))

/-- C1 as stated fails: for the protected path `/`, a mounted root, an unmount
command is started and no Protected error is shown; the protected path
`/compat`, a symbolic link to `/usr/compat`, is renamed into the trash; for the
protected path `/Applications`, which does not exist, "File not found" is shown
instead of the Protected error; and when the trash directory cannot be created,
the protected path `/usr` gets that error instead. -/
theorem protected_not_always_refused :
    ("/" ∈ criticalSystemPaths ∧
      (moveToTrash userHandler smallDisk ["/"]).events
        = [Event.start "umount" ["/"],
           Event.message MsgKind.critical "Error" "Failed to unmount the mount point: /"]) ∧
    ("/compat" ∈ criticalSystemPaths ∧
      (moveToTrash userHandler smallDisk ["/compat"]).events
        = [Event.mkpath "/home/u/.local/share/Trash/files" true,
           Event.confirm confirmText true,
           Event.rename "/compat" "/home/u/.local/share/Trash/files/compat" true,
           Event.playSound "ffft.wav"]) ∧
    ("/Applications" ∈ criticalSystemPaths ∧
      (moveToTrash userHandler smallDisk ["/Applications"]).events
        = [Event.message MsgKind.warning "File not found"
            "The file or directory does not exist."]) ∧
    ("/usr" ∈ criticalSystemPaths ∧
      (moveToTrash userHandler
          { smallDisk with locked := ["/home/u/.local/share/Trash/files"] } ["/usr"]).events
        = [Event.mkpath "/home/u/.local/share/Trash/files" false,
           Event.message MsgKind.critical "Error" "Failed to create the Trash directory."]) := by
  decide

/-! ## The confirmation gate -/

theorem removeRecursively_log (r : Run) (p : String) :
    (r.removeRecursively p).2.log
      = r.log ++ [Event.removeRecursively p (r.removeRecursively p).1] := by
  unfold Run.removeRecursively
  split <;> simp

theorem rename_log (r : Run) (a b : String) :
    (r.rename a b).2.log = r.log ++ [Event.rename a b (r.rename a b).1] := by
  simp [Run.rename]

theorem remove_log (r : Run) (p : String) :
    (r.remove p).2.log = r.log ++ [Event.remove p (r.remove p).1] := by
  simp [Run.remove]

theorem rmdir_log (r : Run) (p : String) :
    (r.rmdir p).2.log = r.log ++ [Event.rmdir p (r.rmdir p).1] := by
  simp [Run.rmdir]

theorem ask_log (r : Run) (text : String) :
    (r.ask text).2.log = r.log ++ [Event.confirm text (r.ask text).1] := by
  simp [Run.ask]

theorem emit_log (r : Run) (e : Event) : (r.emit e).log = r.log ++ [e] := rfl

theorem deleteText_ne_confirmText : (deleteText == confirmText) = false := by
  decide

/-- What follows the gate performs no further gate and plays no sound. -/
theorem trashOrDelete_log (h : TrashHandler) (l : Locals) (r : Run) (path dest : String)
    (isDir : Bool) :
    ∃ evs, (trashOrDelete h l r path dest isDir).2.2.2.log = r.log ++ evs ∧
      (trashOrDelete h l r path dest isDir).1 = Flow.next ∧
      (trashOrDelete h l r path dest isDir).2.1 = h ∧
      (∀ e ∈ evs, e.isGate = false ∧ e.isSound = false) := by
  simp only [trashOrDelete]
  split_ifs <;>
    simp [rename_log, ask_log, remove_log, removeRecursively_log, emit_log, Event.isGate,
      Event.isSound, deleteText_ne_confirmText]

/-- The pass from the protected-path test on: either it ends before the gate
with one calm action, or the gate is reached; then a handler that has shown its
dialog goes on without asking, and a fresh one asks and stops on No or goes on
after Yes. -/
theorem gateAndMove_shape (h : TrashHandler) (l : Locals) (r : Run) (path resolved : String)
    (d : Bool) :
    (resolved ∈ criticalSystemPaths ∧ gateAndMove h l r path resolved d
        = (Flow.next, h, l, r.emit protectedError)) ∨
    (resolved ∉ criticalSystemPaths ∧ ∃ dest,
      ((h.m_dialogShown = true ∧
          gateAndMove h l r path resolved d = trashOrDelete h l r path dest d) ∨
       (h.m_dialogShown = false ∧ (r.ask confirmText).1 = false ∧
          gateAndMove h l r path resolved d
            = (Flow.stop, { h with m_dialogShown := true }, l, (r.ask confirmText).2)) ∨
       (h.m_dialogShown = false ∧ (r.ask confirmText).1 = true ∧
          gateAndMove h l r path resolved d
            = trashOrDelete { h with m_dialogShown := true } l (r.ask confirmText).2
                path dest d))) := by
  by_cases hc : resolved ∈ criticalSystemPaths
  · left
    simp [gateAndMove, hc, protectedError]
  · right
    obtain ⟨dest, i, hd⟩ := destinationPath_some r.world h.m_trashPath path
    refine ⟨hc, dest, ?_⟩
    have hc' : criticalSystemPaths.contains resolved = false := by simpa using hc
    simp only [gateAndMove, hc', Bool.false_eq_true, if_false, hd]
    cases hs : h.m_dialogShown with
    | true => left; simp
    | false =>
      right
      cases ha : (r.ask confirmText).1 with
      | true => right; simp
      | false => left; simp

/-- The trash branch before the protected-path test: either the pass ends
there with calm actions only, or it goes on with `gateAndMove` after calm
actions. -/
theorem trashPath_shape (h : TrashHandler) (l : Locals) (r : Run) (path resolved : String) :
    (∃ pre, (trashPath h l r path resolved).2.2.2.log = r.log ++ pre ∧
      (trashPath h l r path resolved).1 = Flow.next ∧
      (trashPath h l r path resolved).2.1 = h ∧
      (trashPath h l r path resolved).2.2.1 = l ∧
      (∀ e ∈ pre, e.isCalm = true)) ∨
    (∃ pre r1 d, (∀ e ∈ pre, e.isCalm = true) ∧ r1.log = r.log ++ pre ∧
      trashPath h l r path resolved = gateAndMove h l r1 path resolved d) := by
  by_cases hex : r.world.exists path = true
  swap
  · left
    refine ⟨[Event.message MsgKind.warning "File not found"
      "The file or directory does not exist."], ?_⟩
    simp [trashPath, hex, emit_log, Event.isCalm, Event.movesOrDeletes, Event.isGate, Event.isSound]
  by_cases hd : r.world.isDir h.m_trashPath = true
  · right
    exact ⟨[], r, r.world.isDir path, by simp, by simp, by simp [trashPath, hex, hd]⟩
  · by_cases hm : (r.mkpath h.m_trashPath).1 = true
    · right
      refine ⟨[Event.mkpath h.m_trashPath true], (r.mkpath h.m_trashPath).2, r.world.isDir path,
        by simp [Event.isCalm, Event.movesOrDeletes, Event.isGate, Event.isSound], by rw [mkpath_log, hm],
        by simp [trashPath, hex, hd, hm]⟩
    · left
      refine ⟨[Event.mkpath h.m_trashPath false,
        Event.message MsgKind.critical "Error" "Failed to create the Trash directory."], ?_⟩
      simp [trashPath, hex, hd, hm, emit_log, mkpath_log, Event.isCalm, Event.movesOrDeletes,
        Event.isGate, Event.isSound]

theorem calm_of_commandOrFailure (e : Event) (h : e.isCommandOrFailure = true) :
    e.isCalm = true := by
  cases e <;> simp_all [Event.isCommandOrFailure, Event.isCalm, Event.movesOrDeletes,
    Event.isGate, Event.isSound]

theorem calm_not_gate (e : Event) (h : e.isCalm = true) :
    e.isGate = false ∧ e.isSound = false ∧ e.movesOrDeletes = false := by
  simp [Event.isCalm] at h
  simp [h]

/-- One pass for a handler that has shown its dialog: no gate, no sound, and
the pass ends with `continue`. -/
theorem processPath_shown (h : TrashHandler) (l : Locals) (r : Run) (path : String)
    (hs : h.m_dialogShown = true) :
    ∃ evs, (processPath h l r path).2.2.2.log = r.log ++ evs ∧
      (processPath h l r path).1 = Flow.next ∧
      (processPath h l r path).2.1 = h ∧
      (∀ e ∈ evs, e.isGate = false ∧ e.isSound = false) := by
  unfold processPath
  split_ifs with hm
  · obtain ⟨prog, tail, hlog, -, hflow, hh, -, htail⟩ :=
      unmountPath_log h l r (resolvedPath r.world path)
    refine ⟨_, hlog, hflow, hh, ?_⟩
    intro e he
    rcases List.mem_cons.mp he with rfl | he
    · exact ⟨rfl, rfl⟩
    · have := calm_not_gate e (calm_of_commandOrFailure e (htail e he).1)
      exact ⟨this.1, this.2.1⟩
  · rcases trashPath_shape h l r path (resolvedPath r.world path) with
      ⟨pre, hlog, hflow, hh, -, hpre⟩ | ⟨pre, r1, d, hpre, hlog1, heq⟩
    · exact ⟨pre, hlog, hflow, hh, fun e he =>
        ⟨(calm_not_gate e (hpre e he)).1, (calm_not_gate e (hpre e he)).2.1⟩⟩
    · rw [heq]
      rcases gateAndMove_shape h l r1 path (resolvedPath r.world path) d with
        ⟨-, hg⟩ | ⟨-, dest, ⟨-, hg⟩ | ⟨hf, -⟩ | ⟨hf, -⟩⟩
      · rw [hg]
        refine ⟨pre ++ [protectedError], by simp [emit_log, hlog1], rfl, rfl, ?_⟩
        intro e he
        rcases List.mem_append.mp he with he | he
        · exact ⟨(calm_not_gate e (hpre e he)).1, (calm_not_gate e (hpre e he)).2.1⟩
        · simp at he
          subst he
          exact ⟨rfl, rfl⟩
      · rw [hg]
        obtain ⟨evs, hlog, hflow, hh, hevs⟩ := trashOrDelete_log h l r1 path dest d
        refine ⟨pre ++ evs, by rw [hlog, hlog1, List.append_assoc], hflow, hh, ?_⟩
        intro e he
        rcases List.mem_append.mp he with he | he
        · exact ⟨(calm_not_gate e (hpre e he)).1, (calm_not_gate e (hpre e he)).2.1⟩
        · exact hevs e he
      · rw [hs] at hf; cases hf
      · rw [hs] at hf; cases hf

/-- One pass for a fresh handler: either it stays fresh after calm actions, or
it asks the gate after calm actions and stops on No, or it asks, gets Yes and
goes on without a further gate or sound. -/
theorem processPath_fresh (h : TrashHandler) (l : Locals) (r : Run) (path : String)
    (hs : h.m_dialogShown = false) :
    (∃ evs, (processPath h l r path).2.2.2.log = r.log ++ evs ∧
      (processPath h l r path).1 = Flow.next ∧
      (processPath h l r path).2.1 = h ∧
      (processPath h l r path).2.2.1.filesMoved = l.filesMoved ∧
      (∀ e ∈ evs, e.isCalm = true)) ∨
    (∃ pre, (processPath h l r path).2.2.2.log
        = r.log ++ pre ++ [Event.confirm confirmText false] ∧
      (processPath h l r path).1 = Flow.stop ∧
      (∀ e ∈ pre, e.isCalm = true)) ∨
    (∃ pre post, (processPath h l r path).2.2.2.log
        = r.log ++ pre ++ Event.confirm confirmText true :: post ∧
      (processPath h l r path).1 = Flow.next ∧
      (processPath h l r path).2.1.m_dialogShown = true ∧
      (∀ e ∈ pre, e.isCalm = true) ∧
      (∀ e ∈ post, e.isGate = false ∧ e.isSound = false)) := by
  unfold processPath
  split_ifs with hm
  · left
    obtain ⟨prog, tail, hlog, -, hflow, hh, hfm, htail⟩ :=
      unmountPath_log h l r (resolvedPath r.world path)
    refine ⟨_, hlog, hflow, hh, hfm, ?_⟩
    intro e he
    rcases List.mem_cons.mp he with rfl | he
    · rfl
    · exact calm_of_commandOrFailure e (htail e he).1
  · rcases trashPath_shape h l r path (resolvedPath r.world path) with
      ⟨pre, hlog, hflow, hh, hl, hpre⟩ | ⟨pre, r1, d, hpre, hlog1, heq⟩
    · left
      exact ⟨pre, hlog, hflow, hh, by rw [hl], hpre⟩
    · rw [heq]
      rcases gateAndMove_shape h l r1 path (resolvedPath r.world path) d with
        ⟨-, hg⟩ | ⟨-, dest, ⟨hf, -⟩ | ⟨-, ha, hg⟩ | ⟨-, ha, hg⟩⟩
      · left
        rw [hg]
        refine ⟨pre ++ [protectedError], by simp [emit_log, hlog1], rfl, rfl, rfl, ?_⟩
        intro e he
        rcases List.mem_append.mp he with he | he
        · exact hpre e he
        · simp at he
          subst he
          rfl
      · rw [hs] at hf; cases hf
      · right; left
        rw [hg]
        exact ⟨pre, by simp [ask_log, hlog1, ha], rfl, hpre⟩
      · right; right
        rw [hg]
        obtain ⟨evs, hlog, hflow, hh, hevs⟩ :=
          trashOrDelete_log { h with m_dialogShown := true } l (r1.ask confirmText).2 path dest d
        refine ⟨pre, evs, ?_, hflow, by rw [hh], hpre, hevs⟩
        rw [hlog, ask_log, hlog1, ha]
        simp

/-! ## The gate along the loop -/

theorem moveLoop_cons_next (h : TrashHandler) (l : Locals) (r : Run) (p : String)
    (rest : List String) (hn : (processPath h l r p).1 = Flow.next) :
    moveLoop h l r (p :: rest)
      = moveLoop (processPath h l r p).2.1 (processPath h l r p).2.2.1
          (processPath h l r p).2.2.2 rest := by
  rcases hx : processPath h l r p with ⟨f, h1, l1, r1⟩
  rw [hx] at hn
  simp only at hn
  subst hn
  simp [moveLoop, hx]

theorem moveLoop_cons_stop (h : TrashHandler) (l : Locals) (r : Run) (p : String)
    (rest : List String) (hn : (processPath h l r p).1 = Flow.stop) :
    moveLoop h l r (p :: rest) = processPath h l r p := by
  rcases hx : processPath h l r p with ⟨f, h1, l1, r1⟩
  rw [hx] at hn
  simp only at hn
  subst hn
  simp [moveLoop, hx]

/-- After a `return` the rest of the batch is not looked at. -/
theorem moveLoop_append_stop (paths later : List String) : ∀ (h : TrashHandler) (l : Locals)
    (r : Run), (moveLoop h l r paths).1 = Flow.stop →
    moveLoop h l r (paths ++ later) = moveLoop h l r paths := by
  induction paths with
  | nil => intro h l r hs; simp [moveLoop] at hs
  | cons p ps ih =>
    intro h l r hs
    cases hf : (processPath h l r p).1 with
    | next =>
      rw [List.cons_append, moveLoop_cons_next h l r p _ hf, moveLoop_cons_next h l r p _ hf]
      rw [moveLoop_cons_next h l r p _ hf] at hs
      exact ih _ _ _ hs
    | stop =>
      rw [List.cons_append, moveLoop_cons_stop h l r p _ hf, moveLoop_cons_stop h l r p _ hf]

/-- The loop for a handler that has shown its dialog: no gate and no sound. -/
theorem moveLoop_shown (paths : List String) : ∀ (h : TrashHandler) (l : Locals) (r : Run),
    h.m_dialogShown = true →
    ∃ evs, (moveLoop h l r paths).2.2.2.log = r.log ++ evs ∧
      (moveLoop h l r paths).1 = Flow.next ∧
      (moveLoop h l r paths).2.1 = h ∧
      (∀ e ∈ evs, e.isGate = false ∧ e.isSound = false) := by
  induction paths with
  | nil => intro h l r _; exact ⟨[], by simp [moveLoop], rfl, rfl, by simp⟩
  | cons p ps ih =>
    intro h l r hs
    obtain ⟨evs, hlog, hflow, hh, hevs⟩ := processPath_shown h l r p hs
    rw [moveLoop_cons_next h l r p ps hflow]
    obtain ⟨evs2, hlog2, hflow2, hh2, hevs2⟩ :=
      ih (processPath h l r p).2.1 (processPath h l r p).2.2.1 (processPath h l r p).2.2.2
        (by rw [hh]; exact hs)
    refine ⟨evs ++ evs2, by rw [hlog2, hlog, List.append_assoc], hflow2, by rw [hh2, hh], ?_⟩
    intro e he
    rcases List.mem_append.mp he with he | he
    · exact hevs e he
    · exact hevs2 e he

/-- The loop for a fresh handler: either no path reaches the gate and all
actions are calm, or the gate is answered No after calm actions and the loop
returns at once, or the gate is answered Yes after calm actions and no further
gate follows. -/
theorem moveLoop_fresh (paths : List String) : ∀ (h : TrashHandler) (l : Locals) (r : Run),
    h.m_dialogShown = false →
    (∃ evs, (moveLoop h l r paths).2.2.2.log = r.log ++ evs ∧
      (moveLoop h l r paths).1 = Flow.next ∧
      (moveLoop h l r paths).2.1 = h ∧
      (moveLoop h l r paths).2.2.1.filesMoved = l.filesMoved ∧
      (∀ e ∈ evs, e.isCalm = true)) ∨
    (∃ pre, (moveLoop h l r paths).2.2.2.log
        = r.log ++ pre ++ [Event.confirm confirmText false] ∧
      (moveLoop h l r paths).1 = Flow.stop ∧
      (∀ e ∈ pre, e.isCalm = true)) ∨
    (∃ pre post, (moveLoop h l r paths).2.2.2.log
        = r.log ++ pre ++ Event.confirm confirmText true :: post ∧
      (moveLoop h l r paths).1 = Flow.next ∧
      (moveLoop h l r paths).2.1.m_dialogShown = true ∧
      (∀ e ∈ pre, e.isCalm = true) ∧
      (∀ e ∈ post, e.isGate = false ∧ e.isSound = false)) := by
  induction paths with
  | nil => intro h l r _; left; exact ⟨[], by simp [moveLoop], rfl, rfl, rfl, by simp⟩
  | cons p ps ih =>
    intro h l r hs
    rcases processPath_fresh h l r p hs with
      ⟨evs, hlog, hflow, hh, hfm, hevs⟩ | ⟨pre, hlog, hflow, hpre⟩ |
      ⟨pre, post, hlog, hflow, hsh, hpre, hpost⟩
    · rw [moveLoop_cons_next h l r p ps hflow]
      rcases ih (processPath h l r p).2.1 (processPath h l r p).2.2.1
          (processPath h l r p).2.2.2 (by rw [hh]; exact hs) with
        ⟨evs2, hlog2, hflow2, hh2, hfm2, hevs2⟩ | ⟨pre2, hlog2, hflow2, hpre2⟩ |
        ⟨pre2, post2, hlog2, hflow2, hsh2, hpre2, hpost2⟩
      · left
        refine ⟨evs ++ evs2, by rw [hlog2, hlog, List.append_assoc], hflow2, by rw [hh2, hh],
          by rw [hfm2, hfm], ?_⟩
        intro e he
        rcases List.mem_append.mp he with he | he
        · exact hevs e he
        · exact hevs2 e he
      · right; left
        refine ⟨evs ++ pre2, by rw [hlog2, hlog]; simp, hflow2, ?_⟩
        intro e he
        rcases List.mem_append.mp he with he | he
        · exact hevs e he
        · exact hpre2 e he
      · right; right
        refine ⟨evs ++ pre2, post2, by rw [hlog2, hlog]; simp, hflow2, hsh2, ?_, hpost2⟩
        intro e he
        rcases List.mem_append.mp he with he | he
        · exact hevs e he
        · exact hpre2 e he
    · right; left
      rw [moveLoop_cons_stop h l r p ps hflow]
      exact ⟨pre, hlog, hflow, hpre⟩
    · right; right
      rw [moveLoop_cons_next h l r p ps hflow]
      obtain ⟨evs2, hlog2, hflow2, hh2, hevs2⟩ :=
        moveLoop_shown ps (processPath h l r p).2.1 (processPath h l r p).2.2.1
          (processPath h l r p).2.2.2 hsh
      refine ⟨pre, post ++ evs2, by rw [hlog2, hlog]; simp, hflow2, by rw [hh2]; exact hsh,
        hpre, ?_⟩
      intro e he
      rcases List.mem_append.mp he with he | he
      · exact hpost e he
      · exact hevs2 e he

/-! ## Declined confirmation, and a handler used twice -/

theorem moveToTrash_stop (h : TrashHandler) (w : World) (paths : List String)
    (hs : (moveLoop h { unmounted := false, filesMoved := false }
      { world := w, log := [] } paths).1 = Flow.stop) :
    moveToTrash h w paths =
      { handler := (moveLoop h { unmounted := false, filesMoved := false }
          { world := w, log := [] } paths).2.1,
        world := (moveLoop h { unmounted := false, filesMoved := false }
          { world := w, log := [] } paths).2.2.2.world,
        events := (moveLoop h { unmounted := false, filesMoved := false }
          { world := w, log := [] } paths).2.2.2.log } := by
  unfold moveToTrash
  rcases hx : moveLoop h { unmounted := false, filesMoved := false }
    { world := w, log := [] } paths with ⟨f, h1, l1, r1⟩
  rw [hx] at hs
  simp only at hs
  subst hs
  rfl

theorem playOutcomeSound_sounds (l : Locals) (r : Run) :
    ∃ s, (playOutcomeSound l r).log = r.log ++ s ∧ ∀ e ∈ s, e.isSound = true := by
  obtain ⟨s, hs, hall⟩ := playOutcomeSound_log l r
  refine ⟨s, hs, ?_⟩
  intro e he
  obtain ⟨f, rfl⟩ := hall e he
  rfl

theorem moveToTrash_next (h : TrashHandler) (w : World) (paths : List String)
    (hs : (moveLoop h { unmounted := false, filesMoved := false }
      { world := w, log := [] } paths).1 = Flow.next) :
    ∃ s, (moveToTrash h w paths).events
        = (moveLoop h { unmounted := false, filesMoved := false }
            { world := w, log := [] } paths).2.2.2.log ++ s ∧
      ∀ e ∈ s, e.isSound = true := by
  unfold moveToTrash
  rcases hx : moveLoop h { unmounted := false, filesMoved := false }
    { world := w, log := [] } paths with ⟨f, h1, l1, r1⟩
  rw [hx] at hs
  simp only at hs
  subst hs
  exact playOutcomeSound_sounds l1 r1

/-- C10. On a fresh handler, whatever the batch: when the one-time confirmation
is answered No, `moveToTrash` returns at that point. The confirmation is the
last action of the call, all actions before it are calm (no rename, no removal,
no sound), so no path is renamed or deleted and no sound is played, and the
paths that follow in the batch are not processed: the outcome is the same
whatever follows. -/
theorem declined_confirmation (h : TrashHandler) (w : World) (paths : List String)
    (hfresh : h.m_dialogShown = false)
    (hno : Event.confirm confirmText false ∈ (moveToTrash h w paths).events) :
    (∃ pre, (moveToTrash h w paths).events = pre ++ [Event.confirm confirmText false] ∧
      ∀ e ∈ pre, e.isCalm = true) ∧
    (∀ e ∈ (moveToTrash h w paths).events, e.movesOrDeletes = false ∧ e.isSound = false) ∧
    (∀ later, moveToTrash h w (paths ++ later) = moveToTrash h w paths) := by
  have gate_no : (Event.confirm confirmText false).isGate = true := by
    simp [Event.isGate]
  rcases moveLoop_fresh paths h { unmounted := false, filesMoved := false }
      { world := w, log := [] } hfresh with
    ⟨evs, hlog, hflow, -, -, hevs⟩ | ⟨pre, hlog, hflow, hpre⟩ |
    ⟨pre, post, hlog, hflow, -, hpre, hpost⟩
  · exfalso
    obtain ⟨s, hev, hs⟩ := moveToTrash_next h w paths hflow
    rw [hev, hlog] at hno
    simp only [List.nil_append, List.mem_append] at hno
    rcases hno with hno | hno
    · have := (calm_not_gate _ (hevs _ hno)).1
      rw [gate_no] at this
      cases this
    · have := hs _ hno
      simp [Event.isSound] at this
  · have hev := moveToTrash_stop h w paths hflow
    have hevents : (moveToTrash h w paths).events = pre ++ [Event.confirm confirmText false] := by
      rw [hev]
      simpa using hlog
    refine ⟨⟨pre, hevents, hpre⟩, ?_, ?_⟩
    · intro e he
      rw [hevents] at he
      rcases List.mem_append.mp he with he | he
      · exact ⟨(calm_not_gate e (hpre e he)).2.2, (calm_not_gate e (hpre e he)).2.1⟩
      · simp at he
        subst he
        exact ⟨rfl, rfl⟩
    · intro later
      have happ := moveLoop_append_stop paths later h { unmounted := false, filesMoved := false }
        { world := w, log := [] } hflow
      rw [moveToTrash_stop h w (paths ++ later) (by rw [happ]; exact hflow), happ, ← hev]
  · exfalso
    obtain ⟨s, hev, hs⟩ := moveToTrash_next h w paths hflow
    rw [hev, hlog] at hno
    simp only [List.nil_append, List.mem_append, List.mem_cons] at hno
    rcases hno with (hno | hno | hno) | hno
    · have := (calm_not_gate _ (hpre _ hno)).1
      rw [gate_no] at this
      cases this
    · simp at hno
    · have := (hpost _ hno).1
      rw [gate_no] at this
      cases this
    · have := hs _ hno
      simp [Event.isSound] at this

theorem declined_confirmation_witness :
    (∃ pre, (moveToTrash userHandler smallDiskNo ["/home/u/f1", "/home/u/f2"]).events
        = pre ++ [Event.confirm confirmText false] ∧
      ∀ e ∈ pre, e.isCalm = true) ∧
    (∀ e ∈ (moveToTrash userHandler smallDiskNo ["/home/u/f1", "/home/u/f2"]).events,
      e.movesOrDeletes = false ∧ e.isSound = false) ∧
    (∀ later, moveToTrash userHandler smallDiskNo (["/home/u/f1", "/home/u/f2"] ++ later)
      = moveToTrash userHandler smallDiskNo ["/home/u/f1", "/home/u/f2"]) :=
  declined_confirmation userHandler smallDiskNo ["/home/u/f1", "/home/u/f2"] (by decide)
    (by decide)

/-- C2 fails on a handler that is used twice. The first call, for `/home/u/f1`,
shows the confirmation and the user answers No: nothing is moved. The second
call on the same handler, for `/home/u/f2`, shows no confirmation at all and
renames `/home/u/f2` into the trash. -/
theorem second_call_skips_confirmation :
    (moveToTrash userHandler smallDiskNo ["/home/u/f1"]).events
      = [Event.mkpath "/home/u/.local/share/Trash/files" true,
         Event.confirm confirmText false] ∧
    (moveToTrash userHandler smallDiskNo ["/home/u/f1"]).handler.m_dialogShown = true ∧
    (moveToTrash (moveToTrash userHandler smallDiskNo ["/home/u/f1"]).handler
        (moveToTrash userHandler smallDiskNo ["/home/u/f1"]).world ["/home/u/f2"]).events
      = [Event.rename "/home/u/f2" "/home/u/.local/share/Trash/files/f2" true,
         Event.playSound "ffft.wav"] := by
  decide

/-- On a fresh handler the confirmation does guard every move: when some action
of the call is a rename or a removal, the confirmation was answered Yes in that
call. -/
theorem fresh_moves_after_yes (h : TrashHandler) (w : World) (paths : List String)
    (hfresh : h.m_dialogShown = false) (e : Event) (he : e ∈ (moveToTrash h w paths).events)
    (hmove : e.movesOrDeletes = true) :
    Event.confirm confirmText true ∈ (moveToTrash h w paths).events := by
  rcases moveLoop_fresh paths h { unmounted := false, filesMoved := false }
      { world := w, log := [] } hfresh with
    ⟨evs, hlog, hflow, -, -, hevs⟩ | ⟨pre, hlog, hflow, hpre⟩ |
    ⟨pre, post, hlog, hflow, -, hpre, hpost⟩
  · exfalso
    obtain ⟨s, hev, hs⟩ := moveToTrash_next h w paths hflow
    rw [hev, hlog] at he
    simp only [List.nil_append, List.mem_append] at he
    rcases he with he | he
    · have := (calm_not_gate _ (hevs _ he)).2.2
      rw [hmove] at this
      cases this
    · have := hs _ he
      cases e <;> simp_all [Event.isSound, Event.movesOrDeletes]
  · exfalso
    rw [moveToTrash_stop h w paths hflow] at he
    simp only [hlog, List.nil_append, List.mem_append, List.mem_singleton] at he
    rcases he with he | he
    · have := (calm_not_gate _ (hpre _ he)).2.2
      rw [hmove] at this
      cases this
    · subst he
      simp [Event.movesOrDeletes] at hmove
  · obtain ⟨s, hev, hs⟩ := moveToTrash_next h w paths hflow
    rw [hev, hlog]
    simp

/-! ## The gate is reached -/

theorem mkpath_answers (r : Run) (p : String) :
    (r.mkpath p).2.world.answers = r.world.answers := by
  unfold Run.mkpath
  simp only
  split_ifs <;> rfl

/-- A batch of ordinary paths does reach the gate: on a fresh handler, when the
first path exists, is neither a mounted root nor protected, the trash directory
exists or can be created and the user's next answer is No, the call shows the
confirmation and gets No. -/
theorem gate_reached_and_declined (h : TrashHandler) (w : World) (p : String)
    (rest : List String) (hfresh : h.m_dialogShown = false)
    (hmount : resolvedPath w p ∉ w.mounts) (hex : w.exists p = true)
    (hfree : resolvedPath w p ∉ criticalSystemPaths)
    (htrash : w.isDir h.m_trashPath = true
      ∨ (Run.mkpath { world := w, log := [] } h.m_trashPath).1 = true)
    (hno : w.answers.headD false = false) :
    Event.confirm confirmText false ∈ (moveToTrash h w (p :: rest)).events := by
  have hgate : ∀ (r1 : Run) (d : Bool), r1.world.answers = w.answers →
      (gateAndMove h { unmounted := false, filesMoved := false } r1 p (resolvedPath w p) d).1
        = Flow.stop ∧
      (gateAndMove h { unmounted := false, filesMoved := false } r1 p (resolvedPath w p) d).2.2.2.log
        = r1.log ++ [Event.confirm confirmText false] := by
    intro r1 d hans
    have hask : (r1.ask confirmText).1 = false := by
      show r1.world.answers.headD false = false
      rw [hans]
      exact hno
    rcases gateAndMove_shape h { unmounted := false, filesMoved := false } r1 p
        (resolvedPath w p) d with
      ⟨hc, -⟩ | ⟨-, dest, ⟨hs, -⟩ | ⟨-, -, hg⟩ | ⟨-, ha, -⟩⟩
    · exact absurd hc hfree
    · rw [hfresh] at hs; cases hs
    · rw [hg]
      exact ⟨rfl, by simp [ask_log, hask]⟩
    · rw [hask] at ha; cases ha
  have hpass : (processPath h { unmounted := false, filesMoved := false }
        { world := w, log := [] } p).1 = Flow.stop ∧
      Event.confirm confirmText false ∈ (processPath h { unmounted := false, filesMoved := false }
        { world := w, log := [] } p).2.2.2.log := by
    have hm' : w.mounts.contains (resolvedPath w p) = false := by simpa using hmount
    simp only [processPath, hm', Bool.false_eq_true, if_false, trashPath, hex, Bool.not_true]
    by_cases hd : w.isDir h.m_trashPath = true
    · simp only [hd, Bool.not_true, Bool.false_eq_true, if_false]
      obtain ⟨h1, h2⟩ := hgate { world := w, log := [] } (w.isDir p) rfl
      exact ⟨h1, by rw [h2]; simp⟩
    · have hmk := htrash.resolve_left hd
      have hd' : w.isDir h.m_trashPath = false := by simpa using hd
      simp only [hd', Bool.not_false, if_true, hmk, Bool.not_true, Bool.false_eq_true, if_false]
      obtain ⟨h1, h2⟩ := hgate (Run.mkpath { world := w, log := [] } h.m_trashPath).2 (w.isDir p)
        (mkpath_answers _ _)
      exact ⟨h1, by rw [h2]; simp⟩
  have hloop := moveLoop_cons_stop h { unmounted := false, filesMoved := false }
    { world := w, log := [] } p rest hpass.1
  rw [moveToTrash_stop h w (p :: rest) (by rw [hloop]; exact hpass.1), hloop]
  exact hpass.2

/-! ## Emptying the trash -/

theorem emit_world (r : Run) (e : Event) : (r.emit e).world = r.world := rfl

theorem removeItem_log (trash : String) (r : Run) (item : String) :
    ∃ e, (removeItem trash r item).2.log = r.log ++ [e] ∧
      e.isRemovalOf (trash ++ "/" ++ item) = true := by
  unfold removeItem
  split_ifs
  · exact ⟨_, removeRecursively_log r _, by simp [Event.isRemovalOf]⟩
  · exact ⟨_, remove_log r _, by simp [Event.isRemovalOf]⟩

/-- One turn of the loop of `emptyTrash`. -/
theorem emptyLoop_cons (trash : String) (r : Run) (item : String) (rest : List String) :
    emptyLoop trash r (item :: rest) =
      if (removeItem trash r item).1 = true then emptyLoop trash (removeItem trash r item).2 rest
      else (false, (removeItem trash r item).2.emit (Event.message MsgKind.critical "Error"
        ((if r.world.isDir (trash ++ "/" ++ item) then "Failed to remove directory from Trash: "
          else "Failed to remove file from Trash: ") ++ item))) := by
  unfold removeItem
  rw [emptyLoop]
  by_cases hd : r.world.isDir (trash ++ "/" ++ item) = true
  · simp only [hd, if_true]
    by_cases hr : (r.removeRecursively (trash ++ "/" ++ item)).1 = true <;> simp [hr]
  · simp only [hd, if_false]
    by_cases hr : (r.remove (trash ++ "/" ++ item)).1 = true <;> simp [hr]

/-- A loop that removes all its items performs exactly one removal per item and
nothing else. -/
theorem emptyLoop_success (trash : String) (items : List String) : ∀ (r : Run),
    (emptyLoop trash r items).1 = true →
    ∃ evs, (emptyLoop trash r items).2.log = r.log ++ evs ∧
      ∀ e ∈ evs, ∃ y ∈ items, e.isRemovalOf (trash ++ "/" ++ y) = true := by
  induction items with
  | nil => intro r _; exact ⟨[], by simp [emptyLoop], by simp⟩
  | cons item rest ih =>
    intro r hok
    rw [emptyLoop_cons] at hok ⊢
    by_cases h1 : (removeItem trash r item).1 = true
    · simp only [h1, if_true] at hok ⊢
      obtain ⟨evs, hlog, hevs⟩ := ih _ hok
      obtain ⟨e, helog, he⟩ := removeItem_log trash r item
      refine ⟨e :: evs, by rw [hlog, helog]; simp, ?_⟩
      intro e' he'
      rcases List.mem_cons.mp he' with rfl | he'
      · exact ⟨item, List.mem_cons_self _ _, he⟩
      · obtain ⟨y, hy, hrem⟩ := hevs e' he'
        exact ⟨y, List.mem_cons_of_mem _ hy, hrem⟩
    · simp [h1] at hok

theorem emptyLoop_append (trash : String) (pre rest : List String) : ∀ (r : Run),
    (emptyLoop trash r pre).1 = true →
    emptyLoop trash r (pre ++ rest) = emptyLoop trash (emptyLoop trash r pre).2 rest := by
  induction pre with
  | nil => intro r _; simp [emptyLoop]
  | cons item pre ih =>
    intro r hok
    rw [List.cons_append, emptyLoop_cons]
    rw [emptyLoop_cons] at hok ⊢
    by_cases h1 : (removeItem trash r item).1 = true
    · simp only [h1, if_true] at hok ⊢
      exact ih _ hok
    · simp [h1] at hok

/-- What `emptyTrash` does after a failed removal, as far as its own actions
go: it returns false at that entry. With the enumeration `pre ++ x :: post`, the
entries of `pre` removed and the removal of `x` failing: the result is false,
the world is as the failed removal left it, and the actions are one removal for
each entry of `pre`, the failed removal of `x` and the error message; no
removal is tried on an entry of `post`, no `rmdir` of the trash root is tried,
no sound is played and no success notification is shown. -/
theorem emptyTrash_stops_at_failure (trash : String) (w : World) (pre : List String)
    (x : String) (post : List String)
    (hdir : w.isDir trash = true)
    (hlist : w.entryList trash = pre ++ x :: post)
    (hpre : (emptyLoop trash { world := w, log := [] } pre).1 = true)
    (hfail : (removeItem trash (emptyLoop trash { world := w, log := [] } pre).2 x).1 = false) :
    (emptyTrash trash w).1 = false ∧
    (emptyTrash trash w).2.1
      = (removeItem trash (emptyLoop trash { world := w, log := [] } pre).2 x).2.world ∧
    (∃ evs msg, (emptyTrash trash w).2.2 = evs ++ [Event.message MsgKind.critical "Error" msg] ∧
      ∀ e ∈ evs, ∃ y ∈ pre ++ [x], e.isRemovalOf (trash ++ "/" ++ y) = true) ∧
    (∀ e ∈ (emptyTrash trash w).2.2, (∀ p ok, e ≠ Event.rmdir p ok) ∧ e.isSound = false ∧
      (∀ t m, e ≠ Event.message MsgKind.information t m)) := by
  have hloop : emptyLoop trash { world := w, log := [] } (pre ++ x :: post)
      = (false, (removeItem trash (emptyLoop trash { world := w, log := [] } pre).2 x).2.emit
          (Event.message MsgKind.critical "Error"
            ((if (emptyLoop trash { world := w, log := [] } pre).2.world.isDir (trash ++ "/" ++ x)
              then "Failed to remove directory from Trash: "
              else "Failed to remove file from Trash: ") ++ x))) := by
    rw [emptyLoop_append trash pre (x :: post) _ hpre, emptyLoop_cons]
    simp [hfail]
  obtain ⟨evs, hlog, hevs⟩ := emptyLoop_success trash pre _ hpre
  obtain ⟨e, helog, he⟩ := removeItem_log trash (emptyLoop trash { world := w, log := [] } pre).2 x
  have hevents : ∀ e' ∈ evs ++ [e], ∃ y ∈ pre ++ [x], e'.isRemovalOf (trash ++ "/" ++ y) = true := by
    intro e' he'
    rcases List.mem_append.mp he' with he' | he'
    · obtain ⟨y, hy, hrem⟩ := hevs e' he'
      exact ⟨y, List.mem_append_left _ hy, hrem⟩
    · simp at he'
      subst he'
      exact ⟨x, by simp, he⟩
  have hrun : emptyTrash trash w
      = (false, (removeItem trash (emptyLoop trash { world := w, log := [] } pre).2 x).2.world,
          (evs ++ [e]) ++ [Event.message MsgKind.critical "Error"
            ((if (emptyLoop trash { world := w, log := [] } pre).2.world.isDir (trash ++ "/" ++ x)
              then "Failed to remove directory from Trash: "
              else "Failed to remove file from Trash: ") ++ x)]) := by
    unfold emptyTrash emptyTrashRun
    simp only [hdir, hlist, hloop]
    simp [emit_log, emit_world, helog, hlog]
  rw [hrun]
  refine ⟨rfl, rfl, ⟨evs ++ [e], _, rfl, hevents⟩, ?_⟩
  intro e' he'
  rcases List.mem_append.mp he' with he' | he'
  · obtain ⟨y, -, hrem⟩ := hevents e' he'
    cases e' <;> simp_all [Event.isRemovalOf, Event.isSound]
  · simp at he'
    subst he'
    simp [Event.isSound]

theorem emptyTrash_stops_at_failure_witness :
    (emptyTrash "/home/u/.local/share/Trash/files" lockedInTrash).1 = false ∧
    (emptyTrash "/home/u/.local/share/Trash/files" lockedInTrash).2.1
      = (removeItem "/home/u/.local/share/Trash/files"
          (emptyLoop "/home/u/.local/share/Trash/files"
            { world := lockedInTrash, log := [] } ["a"]).2 "b").2.world ∧
    (∃ evs msg, (emptyTrash "/home/u/.local/share/Trash/files" lockedInTrash).2.2
        = evs ++ [Event.message MsgKind.critical "Error" msg] ∧
      ∀ e ∈ evs, ∃ y ∈ ["a"] ++ ["b"],
        e.isRemovalOf ("/home/u/.local/share/Trash/files" ++ "/" ++ y) = true) ∧
    (∀ e ∈ (emptyTrash "/home/u/.local/share/Trash/files" lockedInTrash).2.2,
      (∀ p ok, e ≠ Event.rmdir p ok) ∧ e.isSound = false ∧
      (∀ t m, e ≠ Event.message MsgKind.information t m)) :=
  emptyTrash_stops_at_failure "/home/u/.local/share/Trash/files" lockedInTrash ["a"] "b" ["c"]
    (by decide) (by decide) (by decide) (by decide)

/-- C8. When the trash root does not exist (`QDir::exists()` is false),
`emptyTrash` returns true, leaves the world as it is, and its only action is
the notice that the trash is already empty: no sound is played. -/
theorem emptyTrash_missing_root (trash : String) (w : World) (hdir : w.isDir trash = false) :
    emptyTrash trash w
      = (true, w, [Event.message MsgKind.information "Empty Trash" "Trash is already empty."]) := by
  simp [emptyTrash, emptyTrashRun, hdir, emit_log, Run.emit]

theorem emptyTrash_missing_root_witness :
    emptyTrash "/home/u/.local/share/Trash/files" smallDisk
      = (true, smallDisk,
          [Event.message MsgKind.information "Empty Trash" "Trash is already empty."]) :=
  emptyTrash_missing_root "/home/u/.local/share/Trash/files" smallDisk (by decide)

/-- C6 fails for a dot-named entry. The trash holds `a.txt`, the directory `d`
and the hidden file `.bashrc`, and nothing is locked. `entryList` leaves
`.bashrc` out, the two listed entries are removed, `rmdir` of the trash root
then fails because `.bashrc` is still there, and `emptyTrash` returns false. -/
theorem emptyTrash_leaves_hidden_entry :
    hiddenInTrash.entryList "/home/u/.local/share/Trash/files" = ["a.txt", "d"] ∧
    emptyTrash "/home/u/.local/share/Trash/files" hiddenInTrash
      = (false,
         { hiddenInTrash with
           nodes := [("/", Node.dir), ("/home/u", Node.dir),
             ("/home/u/.local/share/Trash/files", Node.dir),
             ("/home/u/.local/share/Trash/files/.bashrc", Node.file)] },
         [Event.remove "/home/u/.local/share/Trash/files/a.txt" true,
          Event.removeRecursively "/home/u/.local/share/Trash/files/d" true,
          Event.rmdir "/home/u/.local/share/Trash/files" false,
          Event.message MsgKind.critical "Error" "Failed to remove the Trash directory."]) := by
  decide

/-! ## A successful emptying -/

/-- When the trash root exists and `emptyTrash` returns true, nothing is stored
at the trash root or below it afterwards, and the sound was played: true is
returned only if all entries and the root were removed. -/
theorem emptyTrash_true_emptied (trash : String) (w : World) (hdir : w.isDir trash = true)
    (hok : (emptyTrash trash w).1 = true) :
    (emptyTrash trash w).2.1.node (absoluteFilePath (emptyTrash trash w).2.1 trash) = none ∧
    (∀ e ∈ (emptyTrash trash w).2.1.nodes,
      isUnder (absoluteFilePath (emptyTrash trash w).2.1 trash) e.1 = false) ∧
    Event.playSound "rustle.wav" ∈ (emptyTrash trash w).2.2 := by
  unfold emptyTrash emptyTrashRun at hok ⊢
  simp only [hdir, Bool.not_true, Bool.false_eq_true, if_false] at hok ⊢
  by_cases h1 : (emptyLoop trash { world := w, log := [] } (w.entryList trash)).1 = true
  swap
  · simp [h1] at hok
  simp only [h1, Bool.not_true, Bool.false_eq_true, if_false] at hok ⊢
  by_cases h2 : ((emptyLoop trash { world := w, log := [] } (w.entryList trash)).2.rmdir trash).1
      = true
  swap
  · simp [h2] at hok
  simp only [h2, Bool.not_true, Bool.false_eq_true, if_false, emit_world, emit_log]
  have hcan := h2
  simp only [Run.rmdir] at hcan
  simp only [Run.rmdir, hcan, if_true]
  simp only [World.canRmdir, Bool.and_eq_true, Bool.not_eq_true', List.any_eq_false] at hcan
  refine ⟨?_, ?_, by simp⟩
  · simp only [World.node, absoluteFilePath]
    rw [List.lookup_eq_none_iff]
    intro p hp
    have hne : ¬p.1 = absoluteFilePath
        (emptyLoop trash { world := w, log := [] } (w.entryList trash)).2.world trash := by
      simpa using (List.mem_filter.mp hp).2
    have hne2 : ¬absoluteFilePath
        (emptyLoop trash { world := w, log := [] } (w.entryList trash)).2.world trash = p.1 :=
      fun h => hne h.symm
    simpa [absoluteFilePath] using hne2
  · intro e he
    have hmem := (List.mem_filter.mp he).1
    have := hcan.2 e hmem
    simpa [absoluteFilePath] using this

/-! ## Mount points in a batch -/

/-- While no pass returns, the loop over a batch is the loop over its first
part followed by the loop over the rest. -/
theorem moveLoop_append_next (before rest : List String) : ∀ (h : TrashHandler) (l : Locals)
    (r : Run), (moveLoop h l r before).1 = Flow.next →
    moveLoop h l r (before ++ rest)
      = moveLoop (moveLoop h l r before).2.1 (moveLoop h l r before).2.2.1
          (moveLoop h l r before).2.2.2 rest := by
  induction before with
  | nil => intro h l r _; simp [moveLoop]
  | cons p ps ih =>
    intro h l r hn
    cases hf : (processPath h l r p).1 with
    | next =>
      rw [moveLoop_cons_next h l r p _ hf] at hn
      rw [List.cons_append, moveLoop_cons_next h l r p _ hf, moveLoop_cons_next h l r p _ hf]
      exact ih _ _ _ hn
    | stop =>
      rw [moveLoop_cons_stop h l r p _ hf] at hn
      rw [hf] at hn
      cases hn

/-- C9 (amended). For every path that the loop of `moveToTrash` reaches, in
whatever state of the handler, the flags and the world it reaches it (by
`moveLoop_append_next` these are the states after the passes that did not
return), if its symlink-resolved path is at that moment the root of a mounted
volume: the pass starts exactly one unmount command (`eject-and-clean` or
`umount`) on the resolved path; its other actions are only the elevated remove
command and failure messages, so no rename is tried and the trash directory is
not created; and the loop goes on with the rest of the batch. -/
theorem mount_point_unmounted_once (h : TrashHandler) (l : Locals) (r : Run) (path : String)
    (rest : List String) (hmount : resolvedPath r.world path ∈ r.world.mounts) :
    ∃ prog tail, (prog = "eject-and-clean" ∨ prog = "umount") ∧
      (processPath h l r path).2.2.2.log
        = r.log ++ Event.start prog [resolvedPath r.world path] :: tail ∧
      (∀ e ∈ tail, e.isCommandOrFailure = true ∧ e.isUnmountCommand = false) ∧
      (∀ e ∈ Event.start prog [resolvedPath r.world path] :: tail,
        e.movesOrDeletes = false ∧ ∀ p ok, e ≠ Event.mkpath p ok) ∧
      ((Event.start prog [resolvedPath r.world path] :: tail).filter
        Event.isUnmountCommand).length = 1 ∧
      moveLoop h l r (path :: rest)
        = moveLoop (processPath h l r path).2.1 (processPath h l r path).2.2.1
            (processPath h l r path).2.2.2 rest := by
  have hpp : processPath h l r path = unmountPath h l r (resolvedPath r.world path) := by
    simp [processPath, hmount]
  obtain ⟨prog, tail, hlog, hprog, hflow, -, -, htail⟩ :=
    unmountPath_log h l r (resolvedPath r.world path)
  refine ⟨prog, tail, hprog, by rw [hpp, hlog], htail, ?_, ?_,
    moveLoop_cons_next h l r path rest (by rw [hpp, hflow])⟩
  · intro e he
    rcases List.mem_cons.mp he with rfl | he
    · exact ⟨rfl, by simp⟩
    · have := (htail e he).1
      cases e <;> simp_all [Event.isCommandOrFailure, Event.movesOrDeletes]
  · have hnone : tail.filter Event.isUnmountCommand = [] := by
      rw [List.filter_eq_nil_iff]
      intro e he
      simp [(htail e he).2]
    have hfirst : (Event.start prog [resolvedPath r.world path]).isUnmountCommand = true := by
      rcases hprog with rfl | rfl <;> rfl
    simp [List.filter_cons, hfirst, hnone]

theorem mount_point_unmounted_once_witness :
    ∃ prog tail, (prog = "eject-and-clean" ∨ prog = "umount") ∧
      (processPath userHandler { unmounted := false, filesMoved := false }
          { world := usbDisk, log := [] } "/media/usb").2.2.2.log
        = ([] : List Event) ++ Event.start prog [resolvedPath usbDisk "/media/usb"] :: tail ∧
      (∀ e ∈ tail, e.isCommandOrFailure = true ∧ e.isUnmountCommand = false) ∧
      (∀ e ∈ Event.start prog [resolvedPath usbDisk "/media/usb"] :: tail,
        e.movesOrDeletes = false ∧ ∀ p ok, e ≠ Event.mkpath p ok) ∧
      ((Event.start prog [resolvedPath usbDisk "/media/usb"] :: tail).filter
        Event.isUnmountCommand).length = 1 ∧
      moveLoop userHandler { unmounted := false, filesMoved := false }
          { world := usbDisk, log := [] } ("/media/usb" :: ["/home/u/f1"])
        = moveLoop
            (processPath userHandler { unmounted := false, filesMoved := false }
              { world := usbDisk, log := [] } "/media/usb").2.1
            (processPath userHandler { unmounted := false, filesMoved := false }
              { world := usbDisk, log := [] } "/media/usb").2.2.1
            (processPath userHandler { unmounted := false, filesMoved := false }
              { world := usbDisk, log := [] } "/media/usb").2.2.2 ["/home/u/f1"] :=
  mount_point_unmounted_once userHandler { unmounted := false, filesMoved := false }
    { world := usbDisk, log := [] } "/media/usb" ["/home/u/f1"] (by decide)

/-- C9 as stated fails for a path that the loop never reaches. In the batch
`/home/u/f1`, `/media/usb` the user declines the confirmation asked for the
first path; `moveToTrash` returns, and although `/media/usb` is the root of a
mounted volume before and after the call, no unmount command is started. -/
theorem mount_point_after_decline_not_unmounted :
    resolvedPath usbDisk "/media/usb" ∈ usbDisk.mounts ∧
    (moveToTrash userHandler usbDisk ["/home/u/f1", "/media/usb"]).events
      = [Event.mkpath "/home/u/.local/share/Trash/files" true,
         Event.confirm confirmText false] ∧
    "/media/usb" ∈ (moveToTrash userHandler usbDisk ["/home/u/f1", "/media/usb"]).world.mounts := by
  decide

/-! ## The gate is asked at most once -/

theorem filter_gate_nil (l : List Event) (h : ∀ e ∈ l, e.isGate = false) :
    l.filter Event.isGate = [] := by
  rw [List.filter_eq_nil_iff]
  intro e he
  simp [h e he]

theorem sound_not_gate (e : Event) (h : e.isSound = true) : e.isGate = false := by
  cases e <;> simp_all [Event.isSound, Event.isGate]

/-- C11. Within one `moveToTrash` invocation, for every handler, world and
batch, the confirmation "Do you want to move the selected items to the Trash?"
is asked at most once: at most one action of the call is the gate. -/
theorem gate_at_most_once (h : TrashHandler) (w : World) (paths : List String) :
    ((moveToTrash h w paths).events.filter Event.isGate).length ≤ 1 := by
  cases hs : h.m_dialogShown with
  | true =>
    obtain ⟨evs, hlog, hflow, -, hevs⟩ := moveLoop_shown paths h
      { unmounted := false, filesMoved := false } { world := w, log := [] } hs
    obtain ⟨s, hev, hsound⟩ := moveToTrash_next h w paths hflow
    rw [hev, hlog]
    simp only [List.nil_append, List.filter_append]
    rw [filter_gate_nil evs (fun e he => (hevs e he).1),
      filter_gate_nil s (fun e he => sound_not_gate e (hsound e he))]
    simp
  | false =>
    rcases moveLoop_fresh paths h { unmounted := false, filesMoved := false }
        { world := w, log := [] } hs with
      ⟨evs, hlog, hflow, -, -, hevs⟩ | ⟨pre, hlog, hflow, hpre⟩ |
      ⟨pre, post, hlog, hflow, -, hpre, hpost⟩
    · obtain ⟨s, hev, hsound⟩ := moveToTrash_next h w paths hflow
      rw [hev, hlog]
      simp only [List.nil_append, List.filter_append]
      rw [filter_gate_nil evs (fun e he => (calm_not_gate e (hevs e he)).1),
        filter_gate_nil s (fun e he => sound_not_gate e (hsound e he))]
      simp
    · rw [moveToTrash_stop h w paths hflow]
      simp only [hlog, List.nil_append, List.filter_append]
      rw [filter_gate_nil pre (fun e he => (calm_not_gate e (hpre e he)).1)]
      simp [List.filter_cons]
      split <;> simp
    · obtain ⟨s, hev, hsound⟩ := moveToTrash_next h w paths hflow
      rw [hev, hlog]
      simp only [List.nil_append, List.filter_append, List.filter_cons]
      rw [filter_gate_nil pre (fun e he => (calm_not_gate e (hpre e he)).1),
        filter_gate_nil post (fun e he => (hpost e he).1),
        filter_gate_nil s (fun e he => sound_not_gate e (hsound e he))]
      split <;> simp

/-! ## Protection is by exact match -/

theorem trashOrDelete_not_protected (h : TrashHandler) (l : Locals) (r : Run) (path dest : String)
    (isDir : Bool) :
    ∃ evs, (trashOrDelete h l r path dest isDir).2.2.2.log = r.log ++ evs ∧
      protectedError ∉ evs := by
  simp only [trashOrDelete]
  split_ifs <;>
    simp [rename_log, ask_log, remove_log, removeRecursively_log, emit_log, protectedError,
      protectedText]

/-- From the protected-path test on, the Protected error is shown exactly when
the resolved path is a member of the list. -/
theorem gateAndMove_protected_iff (h : TrashHandler) (l : Locals) (r : Run)
    (path resolved : String) (d : Bool) :
    ∃ evs, (gateAndMove h l r path resolved d).2.2.2.log = r.log ++ evs ∧
      (protectedError ∈ evs ↔ resolved ∈ criticalSystemPaths) := by
  rcases gateAndMove_shape h l r path resolved d with
    ⟨hc, hg⟩ | ⟨hc, dest, ⟨-, hg⟩ | ⟨-, -, hg⟩ | ⟨-, -, hg⟩⟩
  · rw [hg]
    exact ⟨[protectedError], by simp [emit_log], by simp [hc]⟩
  · rw [hg]
    obtain ⟨evs, hlog, hno⟩ := trashOrDelete_not_protected h l r path dest d
    exact ⟨evs, hlog, by simp [hno, hc]⟩
  · rw [hg]
    refine ⟨[Event.confirm confirmText (r.ask confirmText).1], by simp [ask_log], ?_⟩
    simp [protectedError, hc]
  · rw [hg]
    obtain ⟨evs, hlog, hno⟩ := trashOrDelete_not_protected { h with m_dialogShown := true } l
      (r.ask confirmText).2 path dest d
    refine ⟨Event.confirm confirmText (r.ask confirmText).1 :: evs, by simp [hlog, ask_log], ?_⟩
    have hne : protectedError ≠ Event.confirm confirmText (r.ask confirmText).1 := by
      simp [protectedError]
    simp [hno, hc, hne]

/-- C14. For a path that reaches the protected-path check (its resolved path is
not a mounted root, it exists, and the trash directory exists or can be
created), `moveToTrash` shows the Protected error if and only if the
symlink-resolved absolute path of lines 62-65 is a member of the compiled-in
list: the test is string equality with a member, with no prefix matching. -/
theorem protected_iff_exact_match (h : TrashHandler) (w : World) (path : String)
    (hmount : resolvedPath w path ∉ w.mounts) (hex : w.exists path = true)
    (htrash : w.isDir h.m_trashPath = true
      ∨ (Run.mkpath { world := w, log := [] } h.m_trashPath).1 = true) :
    protectedError ∈ (moveToTrash h w [path]).events
      ↔ resolvedPath w path ∈ criticalSystemPaths := by
  have hpass : ∃ evs, (processPath h { unmounted := false, filesMoved := false }
        { world := w, log := [] } path).2.2.2.log = evs ∧
      (protectedError ∈ evs ↔ resolvedPath w path ∈ criticalSystemPaths) := by
    have hm' : w.mounts.contains (resolvedPath w path) = false := by simpa using hmount
    simp only [processPath, hm', Bool.false_eq_true, if_false, trashPath, hex, Bool.not_true]
    by_cases hd : w.isDir h.m_trashPath = true
    · simp only [hd, Bool.not_true, Bool.false_eq_true, if_false]
      obtain ⟨evs, hlog, hiff⟩ := gateAndMove_protected_iff h
        { unmounted := false, filesMoved := false } { world := w, log := [] } path
        (resolvedPath w path) (w.isDir path)
      exact ⟨_, rfl, by rw [hlog]; simpa using hiff⟩
    · have hmk := htrash.resolve_left hd
      have hd' : w.isDir h.m_trashPath = false := by simpa using hd
      simp only [hd', Bool.not_false, if_true, hmk, Bool.not_true, Bool.false_eq_true, if_false]
      obtain ⟨evs, hlog, hiff⟩ := gateAndMove_protected_iff h
        { unmounted := false, filesMoved := false }
        (Run.mkpath { world := w, log := [] } h.m_trashPath).2 path
        (resolvedPath w path) (w.isDir path)
      refine ⟨_, rfl, ?_⟩
      rw [hlog, mkpath_log]
      simpa [protectedError] using hiff
  obtain ⟨evs, hlog, hiff⟩ := hpass
  cases hf : (processPath h { unmounted := false, filesMoved := false }
      { world := w, log := [] } path).1 with
  | next =>
    obtain ⟨s, hev, hs⟩ := moveToTrash_single h w path hf
    rw [hev, hlog, List.mem_append, hiff]
    constructor
    · rintro (hc | hsound)
      · exact hc
      · obtain ⟨f, hf⟩ := hs _ hsound
        simp [protectedError] at hf
    · exact Or.inl
  | stop =>
    have hloop := moveLoop_cons_stop h { unmounted := false, filesMoved := false }
      { world := w, log := [] } path [] hf
    rw [moveToTrash_stop h w [path] (by rw [hloop]; exact hf), hloop]
    simp only
    rw [hlog, hiff]

theorem protected_iff_exact_match_witness :
    protectedError ∉ (moveToTrash userHandler deepDisk ["/usr/local/lib/whatever"]).events ∧
    protectedError ∈ (moveToTrash userHandler deepDisk ["/home/u/link"]).events :=
  ⟨(protected_iff_exact_match userHandler deepDisk "/usr/local/lib/whatever"
      (by decide) (by decide) (Or.inl (by decide))).not.mpr (by decide),
   (protected_iff_exact_match userHandler deepDisk "/home/u/link"
      (by decide) (by decide) (Or.inl (by decide))).mpr (by decide)⟩

/-! ## The elevated remove command -/

/-- What the mount-point branch does after an unmount command that exits with
code 0: it starts the elevated remove command exactly when the mount-point
directory does not exist, and sets `unmounted` in both cases. -/
theorem unmountPath_remove_when_missing (h : TrashHandler) (l : Locals) (r : Run)
    (resolved prog : String)
    (hprog : prog = if r.world.exists "eject-and-clean" then "eject-and-clean" else "umount")
    (hexit : (r.startProcess prog [resolved]).1 = 0) :
    (unmountPath h l r resolved).2.2.1.unmounted = true ∧
    (sudoRemove (absoluteFilePath (r.startProcess prog [resolved]).2.world resolved)
        ∈ (unmountPath h l r resolved).2.2.2.log.drop (r.log.length + 1)
      ↔ (r.startProcess prog [resolved]).2.world.isDir resolved = false) := by
  have hu : (if r.world.exists "eject-and-clean" = true
      then r.startProcess "eject-and-clean" [resolved]
      else r.startProcess "umount" [resolved]) = r.startProcess prog [resolved] := by
    rw [hprog]
    split <;> rfl
  simp only [unmountPath, hu, hexit, if_true]
  by_cases hd : (r.startProcess prog [resolved]).2.world.isDir resolved = true
  · simp [hd, startProcess_log]
  · have hd' : (r.startProcess prog [resolved]).2.world.isDir resolved = false := by
      simpa using hd
    simp only [hd', Bool.not_false, if_true]
    split_ifs <;> simp [startProcess_log, emit_log, sudoRemove]

/-- C15 fails in both directions. With the mount-point directory `/media/usb`
still there after `umount` has exited with code 0, no elevated remove command
is started; with the directory gone, `sudo -A -E rm -r /media/usb` is started
(and its failure reported). In both cases the unmount counts as succeeded: the
unmount sound is played. -/
theorem remove_command_runs_when_directory_is_gone :
    ((moveToTrash userHandler usbDisk ["/media/usb"]).events
        = [Event.start "umount" ["/media/usb"], Event.playSound "pschiuu.wav"] ∧
      (moveToTrash userHandler usbDisk ["/media/usb"]).world.isDir "/media/usb" = true) ∧
    ((moveToTrash userHandler usbDiskCleaned ["/media/usb"]).events
        = [Event.start "umount" ["/media/usb"],
           Event.start "sudo" ["-A", "-E", "rm", "-r", "/media/usb"],
           Event.message MsgKind.critical "Error"
             "Failed to remove the mount point directory: /media/usb",
           Event.playSound "pschiuu.wav"] ∧
      (moveToTrash userHandler usbDiskCleaned ["/media/usb"]).world.isDir "/media/usb"
        = false) := by
  decide

/-! ## A path on another volume -/

theorem exists_false_of_node_none (w : World) (p : String)
    (h : w.node (absoluteFilePath w p) = none) : w.exists p = false := by
  unfold World.exists World.follow
  cases w.nodes.length with
  | zero => simp [World.followFuel]
  | succ n => simp [World.followFuel, h]

theorem lookup_filter_ne (ns : List (String × Node)) (a : String) :
    (ns.filter (fun e => e.1 != a)).lookup a = none := by
  rw [List.lookup_eq_none_iff]
  intro p hp
  have hne : ¬p.1 = a := by simpa using (List.mem_filter.mp hp).2
  have : ¬a = p.1 := fun h => hne h.symm
  simpa using this

/-- A permanent removal that succeeds leaves nothing at the path and adds no
node anywhere. -/
theorem deletePermanently_ok (r : Run) (path : String) (hok :
    (deletePermanently r path (r.world.isDir path)).1 = true) :
    (deletePermanently r path (r.world.isDir path)).2.world.exists path = false ∧
    (∀ e ∈ (deletePermanently r path (r.world.isDir path)).2.world.nodes, e ∈ r.world.nodes) ∧
    (∃ e, (deletePermanently r path (r.world.isDir path)).2.log = r.log ++ [e] ∧
      e.movesOrDeletes = true) := by
  unfold deletePermanently at hok ⊢
  by_cases hd : r.world.isDir path = true
  · simp only [hd, if_true] at hok ⊢
    refine ⟨?_, ?_, ⟨_, removeRecursively_log r path, rfl⟩⟩
    · apply exists_false_of_node_none
      unfold World.isDir at hd
      unfold Run.removeRecursively at hok ⊢
      split at hd
      · rename_i d hfollow
        simp only [hfollow] at hok ⊢
        simp only [hok, if_true]
        exact lookup_filter_ne _ _
      · cases hd
    · unfold World.isDir at hd
      unfold Run.removeRecursively at hok ⊢
      split at hd
      · rename_i d hfollow
        simp only [hfollow] at hok ⊢
        simp only [hok, if_true]
        intro e he
        exact (List.mem_filter.mp (List.mem_filter.mp he).1).1
      · cases hd
  · have hd' : r.world.isDir path = false := by simpa using hd
    simp only [hd', Bool.false_eq_true, if_false] at hok ⊢
    refine ⟨?_, ?_, ⟨_, remove_log r path, rfl⟩⟩
    · apply exists_false_of_node_none
      unfold Run.remove at hok ⊢
      simp only at hok
      simp only [hok, if_true]
      exact lookup_filter_ne _ _
    · unfold Run.remove at hok ⊢
      simp only at hok
      simp only [hok, if_true]
      intro e he
      exact (List.mem_filter.mp he).1

theorem followFuel_congr (w1 w2 : World) (hn : w1.nodes = w2.nodes) :
    ∀ (fuel : Nat) (p : String), w1.followFuel fuel p = w2.followFuel fuel p := by
  intro fuel
  induction fuel with
  | zero => intro p; rfl
  | succ n ih =>
    intro p
    simp only [World.followFuel, World.node, hn]
    split <;> simp_all

theorem ask_isDir (r : Run) (text p : String) :
    (r.ask text).2.world.isDir p = r.world.isDir p := by
  simp only [World.isDir, World.follow, absoluteFilePath, Run.ask]
  rw [followFuel_congr { r.world with answers := r.world.answers.tail } r.world rfl]

theorem ask_nodes (r : Run) (text : String) :
    (r.ask text).2.world.nodes = r.world.nodes := rfl

/-- C13. For a path that has passed the confirmation gate and whose mount root
differs from the mount root of the trash directory (lines 238-266): if the user
declines the permanent deletion, the pass ends with the question as its only
action, no error is shown and the disk is as before; if the user confirms and
the removal succeeds, the source no longer exists, no node has been added
anywhere (so none under the trash root), and the only actions are the question
and the removal. -/
theorem cross_volume_delete (h : TrashHandler) (l : Locals) (r : Run) (path dest : String)
    (hdir : r.world.isDir h.m_trashPath = true)
    (hroot : r.world.rootPath h.m_trashPath ≠ r.world.rootPath path) :
    (r.world.answers.headD false = false →
      trashOrDelete h l r path dest (r.world.isDir path)
        = (Flow.next, h, l,
            { world := { r.world with answers := r.world.answers.tail },
              log := r.log ++ [Event.confirm deleteText false] })) ∧
    (r.world.answers.headD false = true →
      (deletePermanently (r.ask deleteText).2 path (r.world.isDir path)).1 = true →
      (trashOrDelete h l r path dest (r.world.isDir path)).2.2.2.world.exists path = false ∧
      (∀ e ∈ (trashOrDelete h l r path dest (r.world.isDir path)).2.2.2.world.nodes,
        e ∈ r.world.nodes) ∧
      (trashOrDelete h l r path dest (r.world.isDir path)).2.2.1 = l ∧
      ∃ e, (trashOrDelete h l r path dest (r.world.isDir path)).2.2.2.log
          = r.log ++ [Event.confirm deleteText true, e] ∧ e.movesOrDeletes = true) := by
  have hask : (r.ask deleteText).1 = r.world.answers.headD false := rfl
  constructor
  · intro hno
    simp only [trashOrDelete, hdir, if_true, hroot, if_false, hask, hno, Bool.false_eq_true]
    simp only [Run.ask, hno]
  · intro hyes hok
    have hdel : trashOrDelete h l r path dest (r.world.isDir path)
        = (Flow.next, h, l, (deletePermanently (r.ask deleteText).2 path (r.world.isDir path)).2) := by
      unfold deletePermanently at hok ⊢
      simp only [trashOrDelete, hdir, if_true, hroot, if_false, hask, hyes]
      by_cases hd : r.world.isDir path = true
      · simp only [hd, if_true] at hok ⊢
        simp [hok]
      · have hd' : r.world.isDir path = false := by simpa using hd
        simp only [hd', Bool.false_eq_true, if_false] at hok ⊢
        simp [hok]
    rw [hdel]
    have key := deletePermanently_ok (r.ask deleteText).2 path
    rw [ask_isDir] at key
    obtain ⟨hgone, hsub, e, hlog, he⟩ := key hok
    refine ⟨hgone, fun x hx => ?_, rfl, e, ?_, he⟩
    · have := hsub x hx
      rwa [ask_nodes] at this
    · rw [hlog, ask_log, hask, hyes]
      simp

theorem cross_volume_delete_witness :
    (trashOrDelete userHandler { unmounted := false, filesMoved := false }
        { world := usbFileDisk, log := [] } "/media/usb/x.txt"
        "/home/u/.local/share/Trash/files/x.txt"
        (usbFileDisk.isDir "/media/usb/x.txt")).2.2.2.world.exists "/media/usb/x.txt" = false ∧
    (trashOrDelete userHandler { unmounted := false, filesMoved := false }
        { world := { usbFileDisk with answers := [false] }, log := [] } "/media/usb/d"
        "/home/u/.local/share/Trash/files/d"
        (usbFileDisk.isDir "/media/usb/d"))
      = (Flow.next, userHandler, { unmounted := false, filesMoved := false },
          { world := { usbFileDisk with answers := [] },
            log := [Event.confirm deleteText false] }) :=
  ⟨((cross_volume_delete userHandler { unmounted := false, filesMoved := false }
        { world := usbFileDisk, log := [] } "/media/usb/x.txt"
        "/home/u/.local/share/Trash/files/x.txt" (by decide) (by decide)).2
      (by decide) (by decide)).1,
   (cross_volume_delete userHandler { unmounted := false, filesMoved := false }
        { world := { usbFileDisk with answers := [false] }, log := [] } "/media/usb/d"
        "/home/u/.local/share/Trash/files/d" (by decide) (by decide)).1 (by decide)⟩

/-! ## The sound at the end -/

theorem unmountSucceeded_append (a : List Event) : ∀ (procs : List ProcOutcome) (b : List Event),
    unmountSucceeded procs (a ++ b)
      = (unmountSucceeded procs a
          || unmountSucceeded (procs.drop (a.countP Event.isStart)) b) := by
  induction a with
  | nil => intro procs b; simp [unmountSucceeded]
  | cons e a ih =>
    intro procs b
    by_cases he : e.isStart = true
    · simp only [List.cons_append, unmountSucceeded, he, if_true, List.countP_cons_of_pos _ _ he,
        List.append_eq]
      rw [ih]
      cases procs with
      | nil => simp [Bool.or_assoc]
      | cons o os => simp [Bool.or_assoc]
    · simp only [List.cons_append, unmountSucceeded, he, Bool.false_eq_true, if_false,
        List.countP_cons_of_neg _ _ he, List.append_eq]
      rw [ih]

theorem unmountSucceeded_no_start (procs : List ProcOutcome) (evs : List Event)
    (h : ∀ e ∈ evs, e.isStart = false) : unmountSucceeded procs evs = false := by
  induction evs with
  | nil => rfl
  | cons e evs ih =>
    have he : e.isStart = false := h e (List.mem_cons_self _ _)
    simp [unmountSucceeded, he, ih (fun x hx => h x (List.mem_cons_of_mem _ hx))]

theorem countP_no_start (evs : List Event) (h : ∀ e ∈ evs, e.isStart = false) :
    evs.countP Event.isStart = 0 := by
  rw [List.countP_eq_zero]
  intro e he
  simp [h e he]

theorem startProcess_exit (r : Run) (prog : String) (args : List String) :
    (r.startProcess prog args).1 = nextExitCode r.world.procs := by
  unfold Run.startProcess nextExitCode
  cases r.world.procs <;> rfl

theorem startProcess_procs (r : Run) (prog : String) (args : List String) :
    (r.startProcess prog args).2.world.procs = r.world.procs.tail := by
  unfold Run.startProcess
  cases h : r.world.procs <;> simp [Run.emit, h]

theorem Effects.refl (l : Locals) (r : Run) : Effects l l r r [] := by
  simp [Effects, unmountSucceeded]

theorem Effects.trans {l l1 l2 : Locals} {r r1 r2 : Run} {a b : List Event}
    (h1 : Effects l l1 r r1 a) (h2 : Effects l1 l2 r1 r2 b) : Effects l l2 r r2 (a ++ b) := by
  obtain ⟨ha1, ha2, ha3, ha4, ha5⟩ := h1
  obtain ⟨hb1, hb2, hb3, hb4, hb5⟩ := h2
  refine ⟨by rw [hb1, ha1, List.append_assoc], ?_, ?_, ?_, ?_⟩
  · rw [hb2, ha2, List.any_append, Bool.or_assoc]
  · rw [hb3, ha3, unmountSucceeded_append, ha4, Bool.or_assoc]
  · rw [hb4, ha4, List.countP_append, List.drop_drop]
  · intro e he
    rcases List.mem_append.mp he with he | he
    · exact ha5 e he
    · exact hb5 e he

/-- Actions that start no command, rename nothing and play no sound leave the
flags and the command outcomes as they are. -/
theorem Effects.quiet (l : Locals) (r r1 : Run) (evs : List Event)
    (hlog : r1.log = r.log ++ evs) (hprocs : r1.world.procs = r.world.procs)
    (hq : ∀ e ∈ evs, e.isStart = false ∧ e.isTrashMove = false ∧ e.isSound = false) :
    Effects l l r r1 evs := by
  refine ⟨hlog, ?_, ?_, ?_, fun e he => (hq e he).2.2⟩
  · have : evs.any Event.isTrashMove = false := by
      rw [List.any_eq_false]
      intro e he
      simp [(hq e he).2.1]
    simp [this]
  · simp [unmountSucceeded_no_start _ _ (fun e he => (hq e he).1)]
  · rw [countP_no_start _ (fun e he => (hq e he).1), hprocs]
    simp

theorem mkpath_procs (r : Run) (p : String) : (r.mkpath p).2.world.procs = r.world.procs := by
  unfold Run.mkpath
  simp only
  split_ifs <;> rfl

theorem rename_procs (r : Run) (a b : String) :
    (r.rename a b).2.world.procs = r.world.procs := by
  unfold Run.rename
  simp only
  split_ifs <;> rfl

theorem remove_procs (r : Run) (p : String) : (r.remove p).2.world.procs = r.world.procs := by
  unfold Run.remove
  simp only
  split_ifs <;> rfl

theorem removeRecursively_procs (r : Run) (p : String) :
    (r.removeRecursively p).2.world.procs = r.world.procs := by
  unfold Run.removeRecursively
  split
  · simp only
    split_ifs <;> rfl
  · rfl

theorem ask_procs (r : Run) (t : String) : (r.ask t).2.world.procs = r.world.procs := rfl

theorem unmountPath_eq_tail (h : TrashHandler) (l : Locals) (r : Run) (resolved : String) :
    unmountPath h l r resolved
      = unmountTail h l (if r.world.exists "eject-and-clean"
          then r.startProcess "eject-and-clean" [resolved]
          else r.startProcess "umount" [resolved]) resolved := rfl

theorem tail_tail_eq_drop {α : Type} (l : List α) : l.tail.tail = l.drop 2 := by
  cases l with
  | nil => rfl
  | cons a t => cases t <;> rfl

theorem unmountTail_effects (h : TrashHandler) (l : Locals) (r : Run) (prog resolved : String)
    (hp : (Event.start prog [resolved]).isUnmountCommand = true) :
    (unmountTail h l (r.startProcess prog [resolved]) resolved).1 = Flow.next ∧
    ∃ evs, Effects l (unmountTail h l (r.startProcess prog [resolved]) resolved).2.2.1 r
      (unmountTail h l (r.startProcess prog [resolved]) resolved).2.2.2 evs := by
  have hsudo : ∀ a, (Event.start "sudo" a).isUnmountCommand = false := by
    intro a; rfl
  simp only [unmountTail]
  by_cases h0 : (r.startProcess prog [resolved]).1 = 0
  · have hcode : nextExitCode r.world.procs = 0 := by rw [← startProcess_exit r prog [resolved]]; exact h0
    simp only [h0, if_true]
    by_cases hd : (r.startProcess prog [resolved]).2.world.isDir resolved = true
    · refine ⟨by simp [hd], [Event.start prog [resolved]], ?_⟩
      simp [hd, Effects, startProcess_log, startProcess_procs, unmountSucceeded, Event.isStart,
        Event.isTrashMove, Event.isSound, hp, hcode]
    · have hd' : (r.startProcess prog [resolved]).2.world.isDir resolved = false := by
        simpa using hd
      simp only [hd', Bool.not_false, if_true]
      split_ifs with hs
      · refine ⟨rfl, [Event.start prog [resolved], Event.start "sudo" ["-A", "-E", "rm", "-r",
          absoluteFilePath (r.startProcess prog [resolved]).2.world resolved],
          Event.message MsgKind.critical "Error" ("Failed to remove the mount point directory: "
            ++ absoluteFilePath (r.startProcess prog [resolved]).2.world resolved)], ?_⟩
        simp [Effects, startProcess_log, startProcess_procs, emit_log, emit_world,
          unmountSucceeded, Event.isStart, Event.isTrashMove, Event.isSound, hp, hcode, hsudo,
          tail_tail_eq_drop]
      · refine ⟨rfl, [Event.start prog [resolved], Event.start "sudo" ["-A", "-E", "rm", "-r",
          absoluteFilePath (r.startProcess prog [resolved]).2.world resolved]], ?_⟩
        simp [Effects, startProcess_log, startProcess_procs,
          unmountSucceeded, Event.isStart, Event.isTrashMove, Event.isSound, hp, hcode, hsudo,
          tail_tail_eq_drop]
  · have hcode : ¬nextExitCode r.world.procs = 0 := by
      rw [← startProcess_exit r prog [resolved]]; exact h0
    simp only [h0, if_false]
    refine ⟨trivial, [Event.start prog [resolved], Event.message MsgKind.critical "Error"
      ("Failed to unmount the mount point: " ++ resolved)], ?_⟩
    simp [Effects, startProcess_log, startProcess_procs, emit_log, emit_world,
      unmountSucceeded, Event.isStart, Event.isTrashMove, Event.isSound, hp, hcode]

theorem unmountPath_effects (h : TrashHandler) (l : Locals) (r : Run) (resolved : String) :
    (unmountPath h l r resolved).1 = Flow.next ∧
    ∃ evs, Effects l (unmountPath h l r resolved).2.2.1 r
      (unmountPath h l r resolved).2.2.2 evs := by
  rw [unmountPath_eq_tail]
  split_ifs
  · exact unmountTail_effects h l r "eject-and-clean" resolved rfl
  · exact unmountTail_effects h l r "umount" resolved rfl

theorem rename_failed_world (r : Run) (a b : String) (hf : (r.rename a b).1 = false) :
    (r.rename a b).2.world = r.world := by
  unfold Run.rename at hf ⊢
  simp only at hf
  simp only [hf, Bool.false_eq_true, if_false]

/-- After a failed rename of an existing source, the rename back fails too:
the source is still there. -/
theorem rename_back_fails (r : Run) (path dest : String)
    (hsrc : (r.world.node (absoluteFilePath r.world path)).isSome = true)
    (hf : (r.rename path dest).1 = false) :
    ((r.rename path dest).2.rename dest path).1 = false := by
  have hw := rename_failed_world r path dest hf
  have key : ∀ r1 : Run, r1.world = r.world → (r1.rename dest path).1 = false := by
    intro r1 h1
    have hne : r.world.node (absoluteFilePath r.world path) ≠ none := by
      intro hnone
      simp [hnone] at hsrc
    unfold Run.rename
    simp only [h1]
    simp [hne]
  exact key _ hw

theorem trashOrDelete_effects (h : TrashHandler) (l : Locals) (r : Run) (path dest : String)
    (isDir : Bool) (hsrc : (r.world.node (absoluteFilePath r.world path)).isSome = true) :
    (trashOrDelete h l r path dest isDir).1 = Flow.next ∧
    ∃ evs, Effects l (trashOrDelete h l r path dest isDir).2.2.1 r
      (trashOrDelete h l r path dest isDir).2.2.2 evs := by
  simp only [trashOrDelete]
  by_cases hd : r.world.isDir h.m_trashPath = true
  swap
  · simp only [hd, Bool.false_eq_true, if_false]
    exact ⟨trivial, [], Effects.refl l r⟩
  simp only [hd, if_true]
  by_cases hroot : r.world.rootPath h.m_trashPath = r.world.rootPath path
  · simp only [hroot, if_true]
    by_cases hmv : (r.rename path dest).1 = true
    · simp only [hmv, Bool.not_true, Bool.false_eq_true, if_false]
      refine ⟨trivial, [Event.rename path dest true], ?_⟩
      simp [Effects, rename_log, rename_procs, hmv, unmountSucceeded, Event.isStart,
        Event.isTrashMove, Event.isSound]
    · have hmv' : (r.rename path dest).1 = false := by simpa using hmv
      have hback := rename_back_fails r path dest hsrc hmv'
      simp only [hmv', Bool.not_false, if_true]
      refine ⟨trivial, [Event.rename path dest false, Event.rename dest path false,
        Event.message MsgKind.critical "Error"
          "Failed to move to Trash. Please check file permissions."], ?_⟩
      simp [Effects, rename_log, rename_procs, emit_log, emit_world, hmv', hback,
        unmountSucceeded, Event.isStart, Event.isTrashMove, Event.isSound]
  · simp only [hroot, if_false]
    split_ifs <;>
      (refine ⟨rfl, ?_⟩
       apply Exists.intro
       apply Effects.quiet
       · simp only [emit_log, removeRecursively_log, remove_log, ask_log, List.append_assoc]
         rfl
       · simp [emit_world, removeRecursively_procs, remove_procs, ask_procs]
       · simp [Event.isStart, Event.isTrashMove, Event.isSound])

theorem exists_node_isSome (w : World) (p : String) (h : w.exists p = true) :
    (w.node (absoluteFilePath w p)).isSome = true := by
  unfold World.exists World.follow at h
  cases hl : w.nodes.length with
  | zero => rw [hl] at h; simp [World.followFuel] at h
  | succ fuel =>
    rw [hl] at h
    cases hn : w.node (absoluteFilePath w p) with
    | none => simp [World.followFuel, hn] at h
    | some n => rfl

theorem mkpath_node_isSome (r : Run) (p q : String)
    (h : (r.world.node (absoluteFilePath r.world q)).isSome = true) :
    ((r.mkpath p).2.world.node (absoluteFilePath (r.mkpath p).2.world q)).isSome = true := by
  unfold Run.mkpath
  simp only
  split_ifs
  · simp only [World.node, absoluteFilePath, List.lookup_append] at h ⊢
    obtain ⟨n, hn⟩ := Option.isSome_iff_exists.mp h
    simp [hn]
  · exact h

theorem gateAndMove_effects (h : TrashHandler) (l : Locals) (r : Run) (path resolved : String)
    (d : Bool) (hsrc : (r.world.node (absoluteFilePath r.world path)).isSome = true) :
    ∃ evs, Effects l (gateAndMove h l r path resolved d).2.2.1 r
      (gateAndMove h l r path resolved d).2.2.2 evs := by
  rcases gateAndMove_shape h l r path resolved d with
    ⟨-, hg⟩ | ⟨-, dest, ⟨-, hg⟩ | ⟨-, -, hg⟩ | ⟨-, -, hg⟩⟩
  · rw [hg]
    exact ⟨[protectedError], Effects.quiet l r _ _ rfl rfl
      (by simp [protectedError, Event.isStart, Event.isTrashMove, Event.isSound])⟩
  · rw [hg]
    exact (trashOrDelete_effects h l r path dest d hsrc).2
  · rw [hg]
    exact ⟨[Event.confirm confirmText (r.ask confirmText).1],
      Effects.quiet l r _ _ (ask_log r _) rfl
        (by simp [Event.isStart, Event.isTrashMove, Event.isSound])⟩
  · rw [hg]
    have h1 : Effects l l r (r.ask confirmText).2 [Event.confirm confirmText (r.ask confirmText).1] :=
      Effects.quiet l r _ _ (ask_log r _) rfl
        (by simp [Event.isStart, Event.isTrashMove, Event.isSound])
    obtain ⟨evs, h2⟩ := (trashOrDelete_effects { h with m_dialogShown := true } l
      (r.ask confirmText).2 path dest d hsrc).2
    exact ⟨_, h1.trans h2⟩

theorem trashPath_effects (h : TrashHandler) (l : Locals) (r : Run) (path resolved : String) :
    ∃ evs, Effects l (trashPath h l r path resolved).2.2.1 r
      (trashPath h l r path resolved).2.2.2 evs := by
  by_cases hex : r.world.exists path = true
  swap
  · refine ⟨[Event.message MsgKind.warning "File not found"
      "The file or directory does not exist."], ?_⟩
    simp only [trashPath, hex, Bool.not_false, if_true]
    exact Effects.quiet l r _ _ rfl rfl
      (by simp [Event.isStart, Event.isTrashMove, Event.isSound])
  have hsrc := exists_node_isSome r.world path hex
  by_cases hd : r.world.isDir h.m_trashPath = true
  · simp only [trashPath, hex, hd, Bool.not_true, Bool.false_eq_true, if_false]
    exact gateAndMove_effects h l r path resolved _ hsrc
  · have hd' : r.world.isDir h.m_trashPath = false := by simpa using hd
    have h1 : Effects l l r (r.mkpath h.m_trashPath).2
        [Event.mkpath h.m_trashPath (r.mkpath h.m_trashPath).1] :=
      Effects.quiet l r _ _ (mkpath_log r _) (mkpath_procs r _)
        (by simp [Event.isStart, Event.isTrashMove, Event.isSound])
    by_cases hm : (r.mkpath h.m_trashPath).1 = true
    · simp only [trashPath, hex, hd', hm, Bool.not_true, Bool.not_false, Bool.false_eq_true,
        if_false, if_true]
      obtain ⟨evs, h2⟩ := gateAndMove_effects h l (r.mkpath h.m_trashPath).2 path resolved
        (r.world.isDir path) (mkpath_node_isSome r _ _ hsrc)
      exact ⟨_, h1.trans h2⟩
    · have hm' : (r.mkpath h.m_trashPath).1 = false := by simpa using hm
      simp only [trashPath, hex, hd', hm', Bool.not_true, Bool.not_false, Bool.false_eq_true,
        if_false, if_true]
      have h2 : Effects l l (r.mkpath h.m_trashPath).2
          ((r.mkpath h.m_trashPath).2.emit (Event.message MsgKind.critical "Error"
            "Failed to create the Trash directory."))
          [Event.message MsgKind.critical "Error" "Failed to create the Trash directory."] :=
        Effects.quiet l _ _ _ rfl rfl
          (by simp [Event.isStart, Event.isTrashMove, Event.isSound])
      exact ⟨_, h1.trans h2⟩

theorem processPath_effects (h : TrashHandler) (l : Locals) (r : Run) (path : String) :
    ∃ evs, Effects l (processPath h l r path).2.2.1 r (processPath h l r path).2.2.2 evs := by
  unfold processPath
  split_ifs
  · exact (unmountPath_effects h l r _).2
  · exact trashPath_effects h l r path _

theorem moveLoop_effects (paths : List String) : ∀ (h : TrashHandler) (l : Locals) (r : Run),
    ∃ evs, Effects l (moveLoop h l r paths).2.2.1 r (moveLoop h l r paths).2.2.2 evs := by
  induction paths with
  | nil => intro h l r; exact ⟨[], Effects.refl l r⟩
  | cons p ps ih =>
    intro h l r
    obtain ⟨evs, h1⟩ := processPath_effects h l r p
    cases hf : (processPath h l r p).1 with
    | next =>
      rw [moveLoop_cons_next h l r p ps hf]
      obtain ⟨evs2, h2⟩ := ih (processPath h l r p).2.1 (processPath h l r p).2.2.1
        (processPath h l r p).2.2.2
      exact ⟨_, h1.trans h2⟩
    | stop =>
      rw [moveLoop_cons_stop h l r p ps hf]
      exact ⟨evs, h1⟩

theorem moveToTrash_next_events (h : TrashHandler) (w : World) (paths : List String)
    (hs : (moveLoop h { unmounted := false, filesMoved := false }
      { world := w, log := [] } paths).1 = Flow.next) :
    (moveToTrash h w paths).events
      = (playOutcomeSound
          (moveLoop h { unmounted := false, filesMoved := false }
            { world := w, log := [] } paths).2.2.1
          (moveLoop h { unmounted := false, filesMoved := false }
            { world := w, log := [] } paths).2.2.2).log := by
  unfold moveToTrash
  rcases hx : moveLoop h { unmounted := false, filesMoved := false }
    { world := w, log := [] } paths with ⟨f, h1, l1, r1⟩
  rw [hx] at hs
  simp only at hs
  subst hs
  rfl

/-- C12. For every `moveToTrash` invocation that processes all of its paths (no
pass of the loop returns), the sounds played are determined by the outcome:
exactly `ffft.wav` if some rename succeeded, otherwise exactly `pschiuu.wav` if
some unmount command exited with code 0, otherwise none. At most one sound is
played, and a permanent removal does not count as a rename. -/
theorem sound_by_outcome (h : TrashHandler) (w : World) (paths : List String)
    (hall : (moveLoop h { unmounted := false, filesMoved := false }
      { world := w, log := [] } paths).1 = Flow.next) :
    (moveToTrash h w paths).events.filter Event.isSound
      = if (moveToTrash h w paths).events.any Event.isTrashMove
        then [Event.playSound "ffft.wav"]
        else if unmountSucceeded w.procs (moveToTrash h w paths).events
        then [Event.playSound "pschiuu.wav"]
        else [] := by
  obtain ⟨evs, hlog, hmoved, hunm, -, hquiet⟩ := moveLoop_effects paths h
    { unmounted := false, filesMoved := false } { world := w, log := [] }
  simp only [List.nil_append, Bool.false_or] at hlog hmoved hunm
  have hfilter : evs.filter Event.isSound = [] := by
    rw [List.filter_eq_nil_iff]
    intro e he
    simp [hquiet e he]
  rw [moveToTrash_next_events h w paths hall]
  have hsound : ∀ f, unmountSucceeded w.procs (evs ++ [Event.playSound f])
      = unmountSucceeded w.procs evs := by
    intro f
    rw [unmountSucceeded_append]
    simp [unmountSucceeded, Event.isStart]
  unfold playOutcomeSound
  cases hm : (moveLoop h { unmounted := false, filesMoved := false }
      { world := w, log := [] } paths).2.2.1.filesMoved <;>
    cases hu : (moveLoop h { unmounted := false, filesMoved := false }
      { world := w, log := [] } paths).2.2.1.unmounted <;>
    rw [hm] at hmoved <;> rw [hu] at hunm <;>
    simp [emit_log, hlog, List.filter_append, hfilter, Event.isSound, Event.isTrashMove,
      hsound, ← hmoved, ← hunm]

theorem sound_by_outcome_witness :
    (moveToTrash userHandler { usbDisk with answers := [true] }
        ["/media/usb", "/home/u/f1"]).events.filter Event.isSound
      = [Event.playSound "ffft.wav"] ∧
    (moveToTrash userHandler usbDisk ["/media/usb"]).events.filter Event.isSound
      = [Event.playSound "pschiuu.wav"] :=
  ⟨(sound_by_outcome userHandler { usbDisk with answers := [true] }
      ["/media/usb", "/home/u/f1"] (by decide)).trans (by decide),
   (sound_by_outcome userHandler usbDisk ["/media/usb"] (by decide)).trans (by decide)⟩

/-! ## Nodes taken away inside a directory -/

theorem pruned_refl (a : String) (w : World) : Pruned a w w :=
  ⟨fun _ => true, by simp, fun _ _ => rfl⟩

theorem pruned_trans {a : String} {w1 w2 w3 : World} (h1 : Pruned a w1 w2)
    (h2 : Pruned a w2 w3) : Pruned a w1 w3 := by
  obtain ⟨f, hf, hfo⟩ := h1
  obtain ⟨g, hg, hgo⟩ := h2
  refine ⟨fun k => f k && g k, ?_, fun k hk => by simp [hfo k hk, hgo k hk]⟩
  rw [hg, hf, List.filter_filter]
  apply List.filter_congr
  intro e _
  simp [Bool.and_comm]

theorem lookup_filter_pred (l : List (String × Node)) (f : String → Bool) (k : String) :
    (l.filter (fun e => f e.1)).lookup k = if f k = true then l.lookup k else none := by
  induction l with
  | nil => simp
  | cons x l ih =>
    obtain ⟨q, n⟩ := x
    by_cases hq : k = q
    · subst hq
      cases hf : f k with
      | true => simp [List.filter, hf]
      | false => simp [List.filter, hf, ih]
    · have hb : (k == q) = false := by simpa using hq
      cases hf : f q with
      | true => simp only [List.filter, hf, List.lookup, hb, ih]
      | false => simp only [List.filter, hf, List.lookup, hb, ih]

theorem pruned_node {a : String} {w1 w2 : World} (h : Pruned a w1 w2) (k : String) :
    w2.node k = none ∨ w2.node k = w1.node k := by
  obtain ⟨f, hf, _⟩ := h
  simp only [World.node, hf, lookup_filter_pred]
  split_ifs
  · exact Or.inr rfl
  · exact Or.inl rfl

theorem pruned_outside {a : String} {w1 w2 : World} (h : Pruned a w1 w2) :
    w2.nodes.filter (fun e => outsideOf a e.1) = w1.nodes.filter (fun e => outsideOf a e.1) := by
  obtain ⟨f, hf, hfo⟩ := h
  rw [hf, List.filter_filter]
  apply List.filter_congr
  intro e _
  cases ho : outsideOf a e.1 with
  | true => simp [hfo e.1 ho]
  | false => simp

theorem isUnder_item (trash item : String) : isUnder trash (trash ++ "/" ++ item) = true := by
  simp only [isUnder, String.data_append]
  rw [List.isPrefixOf_iff_prefix]
  exact ⟨item.data, by simp⟩

theorem isUnder_of_under_item (trash item k : String)
    (h : isUnder (trash ++ "/" ++ item) k = true) : isUnder trash k = true := by
  simp only [isUnder, String.data_append] at h ⊢
  rw [List.isPrefixOf_iff_prefix] at h ⊢
  refine List.IsPrefix.trans ?_ h
  exact ⟨item.data ++ ['/'], by simp⟩

theorem absolute_item (w : World) (trash item : String) (habs : isRelative trash = false) :
    absoluteFilePath w (trash ++ "/" ++ item) = trash ++ "/" ++ item := by
  have : isRelative (trash ++ "/" ++ item) = false := by
    simp only [isRelative, String.data_append] at habs ⊢
    cases hd : trash.data with
    | nil => rw [hd] at habs; simp at habs
    | cons c cs => rw [hd] at habs; simpa using habs
  simp [absoluteFilePath, this]

theorem outside_not_item (trash item k : String) (hk : outsideOf trash k = true) :
    k ≠ trash ++ "/" ++ item ∧ isUnder (trash ++ "/" ++ item) k = false := by
  simp only [outsideOf, Bool.not_eq_true', Bool.or_eq_false_iff, beq_eq_false_iff_ne] at hk
  constructor
  · intro h
    rw [h, isUnder_item] at hk
    exact absurd hk.2 (by simp)
  · cases h : isUnder (trash ++ "/" ++ item) k with
    | false => rfl
    | true =>
      rw [isUnder_of_under_item trash item k h] at hk
      exact absurd hk.2 (by simp)

/-! ## Emptying the trash leaves the rest of the disk -/

theorem follow_not_link (w : World) (p d : String) (n : Node)
    (hp : absoluteFilePath w p = p) (hl : w.isSymLink p = false)
    (hf : w.follow p = some (d, n)) : d = p := by
  simp only [World.follow, hp] at hf
  simp only [World.isSymLink, hp] at hl
  cases hlen : w.nodes.length with
  | zero => rw [hlen] at hf; simp [World.followFuel] at hf
  | succ k =>
    rw [hlen] at hf
    simp only [World.followFuel] at hf
    cases hn : w.node p with
    | none => rw [hn] at hf; simp at hf
    | some nd =>
      rw [hn] at hf hl
      cases nd with
      | symlink t => simp at hl
      | file => simp at hf; exact hf.1.symm
      | dir => simp at hf; exact hf.1.symm

/-- The removal of one item that is not a symbolic link takes nothing away
outside the trash directory. -/
theorem removeItem_pruned (trash : String) (r : Run) (item : String)
    (habs : isRelative trash = false)
    (hl : r.world.isSymLink (trash ++ "/" ++ item) = false) :
    Pruned trash r.world (removeItem trash r item).2.world := by
  have hp := absolute_item r.world trash item habs
  unfold removeItem
  split_ifs with hdir
  · simp only [Run.removeRecursively, hp]
    cases hf : r.world.follow (trash ++ "/" ++ item) with
    | none => exact pruned_refl _ _
    | some dn =>
      obtain ⟨d, n⟩ := dn
      have hd := follow_not_link r.world _ d n hp hl hf
      subst hd
      cases n with
      | file => exact pruned_refl _ _
      | symlink t => exact pruned_refl _ _
      | dir =>
        simp only
        split_ifs with hok
        · refine ⟨fun k => (!isUnder (trash ++ "/" ++ item) k ||
              r.world.stuck (trash ++ "/" ++ item) k) && (k != trash ++ "/" ++ item), ?_, ?_⟩
          · simp only [List.filter_filter]
            apply List.filter_congr
            intro e _
            simp [Bool.and_comm]
          · intro k hk
            obtain ⟨h1, h2⟩ := outside_not_item trash item k hk
            simp [h1, h2]
        · refine ⟨fun k => (!isUnder (trash ++ "/" ++ item) k ||
              r.world.stuck (trash ++ "/" ++ item) k), rfl, ?_⟩
          intro k hk
          obtain ⟨_, h2⟩ := outside_not_item trash item k hk
          simp [h2]
  · simp only [Run.remove, hp]
    split_ifs with hok
    · refine ⟨fun k => k != trash ++ "/" ++ item, rfl, ?_⟩
      intro k hk
      obtain ⟨h1, _⟩ := outside_not_item trash item k hk
      simp [h1]
    · exact pruned_refl _ _

theorem isSymLink_pruned {a : String} {w1 w2 : World} (h : Pruned a w1 w2)
    (p : String) (hp1 : absoluteFilePath w1 p = p) (hp2 : absoluteFilePath w2 p = p)
    (hl : w1.isSymLink p = false) : w2.isSymLink p = false := by
  simp only [World.isSymLink, hp1, hp2] at hl ⊢
  rcases pruned_node h p with hn | hn
  · rw [hn]
  · rw [hn]; exact hl

/-- The loop of `emptyTrash` over items none of which is a symbolic link takes
nothing away outside the trash directory. -/
theorem emptyLoop_pruned (trash : String) (habs : isRelative trash = false)
    (items : List String) : ∀ (r : Run),
    (∀ item ∈ items, r.world.isSymLink (trash ++ "/" ++ item) = false) →
    Pruned trash r.world (emptyLoop trash r items).2.world := by
  induction items with
  | nil => intro r _; exact pruned_refl _ _
  | cons item rest ih =>
    intro r hall
    have hstep := removeItem_pruned trash r item habs (hall item (List.mem_cons_self _ _))
    rw [emptyLoop_cons]
    by_cases hok : (removeItem trash r item).1 = true
    · rw [if_pos hok]
      refine pruned_trans hstep (ih _ ?_)
      intro x hx
      exact isSymLink_pruned hstep _ (absolute_item _ trash x habs)
        (absolute_item _ trash x habs) (hall x (List.mem_cons_of_mem _ hx))
    · rw [if_neg hok]
      exact hstep

theorem rmdir_pruned (trash : String) (r : Run) (habs : isRelative trash = false) :
    Pruned trash r.world (r.rmdir trash).2.world := by
  have ht : absoluteFilePath r.world trash = trash := by
    simp [absoluteFilePath, habs]
  simp only [Run.rmdir, ht]
  split_ifs with hok
  · refine ⟨fun k => k != trash, rfl, ?_⟩
    intro k hk
    simp only [outsideOf, Bool.not_eq_true', Bool.or_eq_false_iff, beq_eq_false_iff_ne] at hk
    simp [hk.1]
  · exact pruned_refl _ _

/-- What C22 says holds when no entry of the trash directory is a symbolic
link (the trash path being absolute): the nodes of the disk outside the trash
directory are the same after `emptyTrash` as before. -/
theorem emptyTrash_outside_unchanged (trash : String) (w : World)
    (habs : isRelative trash = false)
    (hnolink : ∀ item ∈ w.entryList trash, w.isSymLink (trash ++ "/" ++ item) = false) :
    (emptyTrash trash w).2.1.nodes.filter (fun e => outsideOf trash e.1)
      = w.nodes.filter (fun e => outsideOf trash e.1) := by
  apply pruned_outside
  have hloop := emptyLoop_pruned trash habs (w.entryList trash) { world := w, log := [] } hnolink
  have hrm := rmdir_pruned trash
    (emptyLoop trash { world := w, log := [] } (w.entryList trash)).2 habs
  simp only [emptyTrash, emptyTrashRun]
  split_ifs
  · exact pruned_refl _ _
  · exact hloop
  · exact pruned_trans hloop hrm
  · exact pruned_trans hloop hrm

/-! ## A link to a directory in the trash -/

/-- C22 fails for a link to a directory. The user moves the link
`/home/u/shortcut`, which points to `/home/u/docs`, to the trash: the link
itself is renamed into the trash. `emptyTrash` then finds `isDir()` true for
the link (line 296 follows it), `removeRecursively` removes what the directory
`/home/u/docs` holds and fails at the link, and `emptyTrash` returns false:
the files outside the trash are gone, the link is still in the trash. -/
theorem emptyTrash_empties_link_target :
    (moveToTrash userHandler shortcutDisk ["/home/u/shortcut"]).world.nodes
      = [("/", Node.dir), ("/home/u", Node.dir), ("/home/u/docs", Node.dir),
         ("/home/u/docs/report.txt", Node.file), ("/home/u/docs/old", Node.dir),
         ("/home/u/docs/old/notes", Node.file),
         ("/home/u/.local/share/Trash/files/shortcut", Node.symlink "/home/u/docs"),
         ("/home/u/.local/share/Trash/files", Node.dir)] ∧
    (emptyTrash userHandler.m_trashPath
        (moveToTrash userHandler shortcutDisk ["/home/u/shortcut"]).world).1 = false ∧
    (emptyTrash userHandler.m_trashPath
        (moveToTrash userHandler shortcutDisk ["/home/u/shortcut"]).world).2.1.nodes
      = [("/", Node.dir), ("/home/u", Node.dir), ("/home/u/docs", Node.dir),
         ("/home/u/.local/share/Trash/files/shortcut", Node.symlink "/home/u/docs"),
         ("/home/u/.local/share/Trash/files", Node.dir)] ∧
    (emptyTrash userHandler.m_trashPath
        (moveToTrash userHandler shortcutDisk ["/home/u/shortcut"]).world).2.2
      = [Event.removeRecursively "/home/u/.local/share/Trash/files/shortcut" false,
         Event.message MsgKind.critical "Error"
           "Failed to remove directory from Trash: shortcut"] := by
  decide

/-! ## Links in the trash: a taken name, a failing removal -/

/-- C3 fails for a name held by a dangling link. The trash root has the entry
`f1`, a symbolic link whose target is gone: `QFile::exists` is false for it, so
the loop of lines 196-201 ends at once with the path of that entry, and the
rename of `/home/u/f1` targets an existing entry of the trash root. The rename
fails, the file stays where it was and the error of line 232 is shown. -/
theorem destinationPath_names_dangling_link :
    danglingInTrash.node "/home/u/.local/share/Trash/files/f1"
      = some (Node.symlink "/home/u/gone") ∧
    destinationPath danglingInTrash userHandler.m_trashPath "/home/u/f1"
      = some ("/home/u/.local/share/Trash/files/f1", 1) ∧
    (moveToTrash userHandler danglingInTrash ["/home/u/f1"]).events
      = [Event.confirm confirmText true,
         Event.rename "/home/u/f1" "/home/u/.local/share/Trash/files/f1" false,
         Event.rename "/home/u/.local/share/Trash/files/f1" "/home/u/f1" false,
         Event.message MsgKind.critical "Error"
           "Failed to move to Trash. Please check file permissions."] ∧
    (moveToTrash userHandler danglingInTrash ["/home/u/f1"]).world.nodes
      = danglingInTrash.nodes := by
  decide

/-- C7 fails when the entry whose removal fails is a link to a directory. In
the first trash the enumeration is `a`, `z` and `a` is a link to `z`: the
removal of `a` fails, `emptyTrash` returns false at `a`, and the later entry
`z` has lost its file `z/x`. In the second trash `a` is a link to the parent of
the trash root: the failing removal of `a` takes the later entry `b` and the
trash root itself off the disk. -/
theorem emptyTrash_failure_reaches_later_entries :
    selfLinkInTrash.entryList userHandler.m_trashPath = ["a", "z"] ∧
    (removeItem userHandler.m_trashPath { world := selfLinkInTrash, log := [] } "a").1 = false ∧
    (emptyTrash userHandler.m_trashPath selfLinkInTrash).1 = false ∧
    (emptyTrash userHandler.m_trashPath selfLinkInTrash).2.2
      = [Event.removeRecursively "/home/u/.local/share/Trash/files/a" false,
         Event.message MsgKind.critical "Error" "Failed to remove directory from Trash: a"] ∧
    selfLinkInTrash.exists "/home/u/.local/share/Trash/files/z/x" = true ∧
    (emptyTrash userHandler.m_trashPath selfLinkInTrash).2.1.exists
      "/home/u/.local/share/Trash/files/z/x" = false ∧
    parentLinkInTrash.entryList userHandler.m_trashPath = ["a", "b"] ∧
    (emptyTrash userHandler.m_trashPath parentLinkInTrash).1 = false ∧
    (emptyTrash userHandler.m_trashPath parentLinkInTrash).2.1.nodes
      = [("/", Node.dir), ("/home/u", Node.dir), ("/home/u/.local/share/Trash", Node.dir)] := by
  decide

/-! ## The media root -/

/-- What `getMediaPath` does when `udisksd` is running: it returns
`/media/<USER>` whenever the current directory exists, and the disk is left as
it was; `/media/<USER>` is neither looked at nor created. -/
theorem getMediaPath_running (user : String) (r : Run)
    (hrun : (r.startProcess "pidof" ["udisksd"]).1 = 0) :
    (getMediaPath user r).1
      = (if (r.startProcess "pidof" ["udisksd"]).2.world.isDir
            (r.startProcess "pidof" ["udisksd"]).2.world.cwd
         then "/media/" ++ user else "/media") ∧
    (getMediaPath user r).2 = (r.startProcess "pidof" ["udisksd"]).2 := by
  simp only [getMediaPath, hrun, if_true, World.mkdir, World.dirExists]
  split_ifs <;> simp

/-- When `udisksd` is not running, `getMediaPath` returns `/media`. -/
theorem getMediaPath_not_running (user : String) (r : Run)
    (hrun : (r.startProcess "pidof" ["udisksd"]).1 ≠ 0) :
    (getMediaPath user r).1 = "/media" := by
  simp [getMediaPath, hrun]

/-- C19 fails when `/media/<USER>` does not exist and cannot be created. With
`udisksd` running and `USER` being `u`, `getMediaPath` returns `/media/u`
although `/media/u` does not exist, before or after the call: the claim says it
returns `/media`. -/
theorem getMediaPath_ignores_candidate :
    (getMediaPath "u" { world := noUserMedia, log := [] }).1 = "/media/u" ∧
    noUserMedia.exists "/media/u" = false ∧
    (getMediaPath "u" { world := noUserMedia, log := [] }).2.world.exists "/media/u" = false ∧
    (getMediaPath "u" { world := noUserMedia, log := [] }).2.log
      = [Event.start "pidof" ["udisksd"]] := by
  decide

/-! ## The name of the root disk -/

/-- Every character of a label derived from the output of the query is in the
class of line 200. -/
theorem getRootDiskName_in_class (displayName hardDiskName zfsName label : String)
    (hz : zfsName.isEmpty = false)
    (hl : getRootDiskName displayName hardDiskName zfsName = some label) :
    ∀ c ∈ label.data, inLabelClass c = true := by
  simp only [getRootDiskName, hz, Bool.not_false, if_true] at hl
  split at hl
  · exact absurd hl (by simp)
  · simp only [Option.some.injEq] at hl
    subst hl
    intro c hc
    simp only [stripLabel, List.mem_filter] at hc
    exact hc.2

/-- The class of line 200 and the characters C20 names differ: the colon is let
through, and the accented letters `Ü` and `é` are removed. -/
theorem label_class_differs :
    getRootDiskName "" "Hard Disk" "zroot/a:b/c" = some "a:b" ∧
    getRootDiskName "" "Hard Disk" "zroot/Ünïcodé/c" = some "ncod" := by
  decide

/-- C20 fails on the newline that ends the output of the query, and on a tab.
For the output `zroot/ROOT` followed by a newline the label is `ROOT` followed
by the newline, and a tab inside the name is kept as well: `\s` in the class of
line 200 lets every whitespace character through, not only the space. -/
theorem getRootDiskName_keeps_newline :
    getRootDiskName "" "Hard Disk" "zroot/ROOT\n" = some "ROOT\n" ∧
    getRootDiskName "" "Hard Disk" "zroot/my\tdisk/default\n" = some "my\tdisk" ∧
    allowedInLabel '\n' = false ∧ allowedInLabel '\t' = false := by
  decide

/-! ## Links for mounted volumes -/

theorem desktopKey_name (s : Desk) (d : String) :
    s.desktopKey (s.home ++ "/Desktop/" ++ d) = some d := by
  have hp : (s.home ++ "/Desktop/" ++ d).data
      = (s.home ++ "/Desktop/").data ++ d.data := by
    simp [String.data_append]
  have hd : List.drop (s.home ++ "/Desktop/").data.length ((s.home ++ "/Desktop/").data ++ d.data)
      = d.data := List.drop_left _ _
  rw [Desk.desktopKey, hp, hd, if_pos]
  exact List.isPrefixOf_iff_prefix.mpr (List.prefix_append _ _)

theorem exists_of_lookup_none (s : Desk) (d : String) (h : s.desktop.lookup d = none) :
    s.exists (s.home ++ "/Desktop/" ++ d) = false := by
  simp [Desk.exists, Desk.existsFuel, desktopKey_name, h]

/-- What the wait loop returns and leaves behind: the directory is among the
mount points gathered if and only if it was there before or is in one of the
polls still to come; only time has passed. -/
theorem waitForMount_spec (fullPath : String) :
    ∀ (fuel counter : Nat) (mountPoints : List String) (s : Desk), counter + fuel = 21 →
      ((waitForMount fullPath fuel counter mountPoints s).1.contains fullPath
        = (mountPoints.contains fullPath ||
            (upcomingPolls s.pending s.disk.mounts fuel).any (fun m => m.contains fullPath))) ∧
      (waitForMount fullPath fuel counter mountPoints s).2.home = s.home ∧
      (waitForMount fullPath fuel counter mountPoints s).2.disk = s.disk ∧
      (waitForMount fullPath fuel counter mountPoints s).2.created = s.created ∧
      (waitForMount fullPath fuel counter mountPoints s).2.desktop = s.desktop ∧
      (s.pending = [] → (waitForMount fullPath fuel counter mountPoints s).2.pending = []) ∧
      ∃ k, (waitForMount fullPath fuel counter mountPoints s).2.log
            = s.log ++ List.replicate k (WatchEvent.msleep 100) := by
  intro fuel
  induction fuel with
  | zero =>
    intro counter mountPoints s _
    refine ⟨by simp [waitForMount, upcomingPolls], rfl, rfl, rfl, rfl, fun h => h, 0, by simp [waitForMount]⟩
  | succ fuel ih =>
    intro counter mountPoints s hc
    have hpoll : s.mountedVolumes.2.home = s.home ∧ s.mountedVolumes.2.disk = s.disk ∧
        s.mountedVolumes.2.created = s.created ∧ s.mountedVolumes.2.desktop = s.desktop ∧
        s.mountedVolumes.2.log = s.log ∧
        (s.pending = [] → s.mountedVolumes.2.pending = []) ∧
        upcomingPolls s.pending s.disk.mounts (fuel + 1)
          = s.mountedVolumes.1 :: upcomingPolls s.mountedVolumes.2.pending s.disk.mounts fuel := by
      cases hp : s.pending with
      | nil => simp [Desk.mountedVolumes, hp, upcomingPolls]
      | cons m rest => simp [Desk.mountedVolumes, hp, upcomingPolls]
    obtain ⟨h1, h2, h3, h4, h5, h6, h7⟩ := hpoll
    simp only [waitForMount]
    by_cases hin : (mountPoints ++ s.mountedVolumes.1).contains fullPath = true
    · rw [if_pos hin]
      refine ⟨?_, h1, h2, h3, h4, h6, 0, by simp [h5]⟩
      rw [hin, h7]
      have hin1 : fullPath ∈ mountPoints ∨ fullPath ∈ s.mountedVolumes.1 := by
        simpa using hin
      rcases hin1 with hin1 | hin1
      · simp [hin1]
      · simp [hin1]
    · rw [if_neg hin]
      have hin2 : ¬ (fullPath ∈ mountPoints ∨ fullPath ∈ s.mountedVolumes.1) := by
        simpa using hin
      push_neg at hin2
      by_cases hcnt : counter + 1 > 20
      · rw [if_pos hcnt]
        have hf : fuel = 0 := by omega
        subst hf
        refine ⟨?_, h1, h2, h3, h4, h6, 1, by simp [Desk.emit, h5]⟩
        rw [h7]
        simp [upcomingPolls, hin2.1, hin2.2]
      · rw [if_neg hcnt]
        obtain ⟨i1, i2, i3, i4, i5, i6, k, i7⟩ :=
          ih (counter + 1) (mountPoints ++ s.mountedVolumes.1)
            (s.mountedVolumes.2.emit (WatchEvent.msleep 100)) (by omega)
        refine ⟨?_, i2.trans h1, i3.trans h2, i4.trans h3, i5.trans h4, fun h => i6 (h6 h),
          k + 1, ?_⟩
        · rw [i1, h7]
          simp only [Desk.emit, h2]
          simp [hin2.1, hin2.2]
        · rw [i7]
          simp [Desk.emit, h5, List.replicate_succ]

/-- C18 fails for a link whose name is not the last component of its target.
The desktop holds the link `foo` to `/media/bar`, the target starts with the
media root followed by a slash and does not exist, and a volume is mounted
at `/media/foo`: after the pass the link is still there. Line 144 looks for the
name of the link under the media root, not for its target. -/
theorem stale_link_under_other_name_stays :
    renamedLinkDesk.desktop = [("foo", Node.symlink "/media/bar")] ∧
    renamedLinkDesk.exists "/media/bar" = false ∧
    symlinkPaths mediaWatcher renamedLinkDesk = ["foo"] ∧
    (handleDirectoryChange mediaWatcher renamedLinkDesk "/media").desktop
      = [("foo", Node.symlink "/media/bar")] ∧
    (handleDirectoryChange mediaWatcher renamedLinkDesk "/media").log
      = [WatchEvent.link "/media/foo" "/home/u/Desktop/foo" false] := by
  decide

theorem filter_isLink_replicate (k : Nat) :
    (List.replicate k (WatchEvent.msleep 100)).filter WatchEvent.isLink = [] := by
  induction k with
  | zero => rfl
  | succ k ih => simp [List.replicate_succ, WatchEvent.isLink]

/-- One pass of the link loop. In every state in which the loop of lines
93-140 comes to a
subdirectory `d` of the media root that exists, is not the skipped
`/media/LIVE` and has no desktop entry named `d` (the desktop being writable):
the link `<home>/Desktop/d -> <mediaRoot>/d` is created, by exactly one
successful `QFile::link`, if `<mediaRoot>/d` is a mounted root in one of the
21 polls the wait loop can make; otherwise the desktop is left as it was and no
link is attempted. -/
theorem link_iff_mounted_in_poll (s : Desk) (path d : String)
    (hlive : skipsLive s (absoluteFilePath s.disk path ++ "/" ++ d) = false)
    (hex : s.exists (absoluteFilePath s.disk path ++ "/" ++ d) = true)
    (hnone : s.desktop.lookup d = none)
    (hfree : (s.home ++ "/Desktop/" ++ d) ∉ s.disk.locked) :
    (linkStep s path d).desktop
      = (if (upcomingPolls s.pending s.disk.mounts 21).any
              (fun m => m.contains (absoluteFilePath s.disk path ++ "/" ++ d))
         then s.desktop ++ [(d, Node.symlink (absoluteFilePath s.disk path ++ "/" ++ d))]
         else s.desktop) ∧
    (linkStep s path d).log.filter WatchEvent.isLink
      = s.log.filter WatchEvent.isLink ++
        (if (upcomingPolls s.pending s.disk.mounts 21).any
              (fun m => m.contains (absoluteFilePath s.disk path ++ "/" ++ d))
         then [WatchEvent.link (absoluteFilePath s.disk path ++ "/" ++ d)
                 (s.home ++ "/Desktop/" ++ d) true]
         else []) := by
  obtain ⟨w1, w2, w3, _, w5, _, k, w7⟩ :=
    waitForMount_spec (absoluteFilePath s.disk path ++ "/" ++ d) 21 0 [] s rfl
  have hkey : (waitForMount (absoluteFilePath s.disk path ++ "/" ++ d) 21 0 [] s).2.desktopKey
      (s.home ++ "/Desktop/" ++ d) = some d := by
    rw [← w2]; exact desktopKey_name _ d
  simp only [linkStep, hlive, hex, exists_of_lookup_none s d hnone, Bool.false_eq_true, if_false,
    if_true, Bool.not_false, w1, List.contains_nil, Bool.false_or]
  split_ifs with hany
  · simp only [Desk.link, w2, hkey, w5, hnone, w3, w7]
    simp [hfree, filter_isLink_replicate, WatchEvent.isLink]
  · simp [w5, w7, filter_isLink_replicate]

theorem link_iff_mounted_in_poll_witness :
    ((linkStep plugDesk "/media" "usb").desktop
        = plugDesk.desktop ++ [("usb", Node.symlink "/media/usb")] ∧
      (linkStep plugDesk "/media" "usb").log.filter WatchEvent.isLink
        = [WatchEvent.link "/media/usb" "/home/u/Desktop/usb" true]) ∧
    ((linkStep { plugDesk with disk := { plugDesk.disk with mounts := ["/"] } } "/media" "usb").desktop
        = plugDesk.desktop ∧
      (linkStep { plugDesk with disk := { plugDesk.disk with mounts := ["/"] } } "/media" "usb").log.filter
          WatchEvent.isLink = []) :=
  ⟨link_iff_mounted_in_poll plugDesk "/media" "usb" (by decide) (by decide) (by decide) (by decide),
   link_iff_mounted_in_poll { plugDesk with disk := { plugDesk.disk with mounts := ["/"] } }
     "/media" "usb" (by decide) (by decide) (by decide) (by decide)⟩

/-! ## One pass of each loop of the reconciliation -/

theorem desktopKey_under_media (v : VolumeWatcher) (s : Desk) (hap : mediaApart v s = true)
    (t : String) (ht : (v.m_mediaPath ++ "/").data.isPrefixOf t.data = true) :
    s.desktopKey t = none := by
  simp only [mediaApart, Bool.and_eq_true, Bool.not_eq_true', ] at hap
  obtain ⟨⟨_, h1⟩, h2⟩ := hap
  simp only [Desk.desktopKey]
  split_ifs with hpre
  · exfalso
    rw [List.isPrefixOf_iff_prefix] at ht hpre
    rcases List.prefix_or_prefix_of_prefix ht hpre with h | h
    · rw [← List.isPrefixOf_iff_prefix] at h; rw [h] at h1; exact absurd h1 (by simp)
    · rw [← List.isPrefixOf_iff_prefix] at h; rw [h] at h2; exact absurd h2 (by simp)
  · rfl

theorem desktopKey_media (v : VolumeWatcher) (s : Desk) (hap : mediaApart v s = true)
    (x : String) : s.desktopKey (v.m_mediaPath ++ "/" ++ x) = none := by
  apply desktopKey_under_media v s hap
  have hp : (v.m_mediaPath ++ "/" ++ x).data = (v.m_mediaPath ++ "/").data ++ x.data := by
    simp [String.data_append]
  rw [hp]
  exact List.isPrefixOf_iff_prefix.mpr (List.prefix_append _ _)

theorem exists_media (v : VolumeWatcher) (s : Desk) (hap : mediaApart v s = true) (x : String) :
    s.exists (v.m_mediaPath ++ "/" ++ x) = s.disk.exists (v.m_mediaPath ++ "/" ++ x) := by
  simp [Desk.exists, Desk.existsFuel, desktopKey_media v s hap]

theorem absolute_media (v : VolumeWatcher) (s : Desk) (hap : mediaApart v s = true) :
    absoluteFilePath s.disk v.m_mediaPath = v.m_mediaPath := by
  simp only [mediaApart, Bool.and_eq_true, Bool.not_eq_true'] at hap
  simp [absoluteFilePath, hap.1.1]

theorem upcomingPolls_nil_any (settled : List String) (f : List String → Bool) (n : Nat) :
    (upcomingPolls [] settled (n + 1)).any f = f settled := by
  induction n with
  | zero => simp [upcomingPolls]
  | succ n ih =>
    rw [upcomingPolls]
    simp only [List.any_cons, ih, Bool.or_self]

theorem Desk.eq_of_fields (a b : Desk) (h1 : a.home = b.home) (h2 : a.disk = b.disk)
    (h3 : a.created = b.created) (h4 : a.desktop = b.desktop) (h5 : a.pending = b.pending)
    (h6 : a.log = b.log) : a = b := by
  cases a; cases b; simp_all

theorem all_replicate_msleep (k : Nat) :
    ∀ e ∈ List.replicate k (WatchEvent.msleep 100), e.changes = false := by
  intro e he
  rw [List.eq_of_mem_replicate he]
  rfl

theorem waitForMount_pending (fullPath : String) :
    ∀ (fuel counter : Nat) (mountPoints : List String) (s : Desk),
      ∃ k, (waitForMount fullPath fuel counter mountPoints s).2.pending = s.pending.drop k := by
  intro fuel
  induction fuel with
  | zero => intro counter mountPoints s; exact ⟨0, by simp [waitForMount]⟩
  | succ fuel ih =>
    intro counter mountPoints s
    have hpoll : s.mountedVolumes.2.pending = s.pending.drop 1 := by
      cases hp : s.pending with
      | nil => simp [Desk.mountedVolumes, hp]
      | cons m rest => simp [Desk.mountedVolumes, hp]
    simp only [waitForMount]
    split_ifs
    · exact ⟨1, hpoll⟩
    · exact ⟨1, hpoll⟩
    · obtain ⟨k, hk⟩ := ih (counter + 1) (mountPoints ++ s.mountedVolumes.1)
        (s.mountedVolumes.2.emit (WatchEvent.msleep 100))
      refine ⟨1 + k, ?_⟩
      rw [hk]
      simp only [Desk.emit, hpoll, List.drop_drop]

/-- The wait loop from its start: it finds the directory exactly if it is a
mounted root in one of the next 21 polls; polls are used up and time passes,
nothing else changes. -/
theorem waitForMount_state (fullPath : String) (s : Desk) :
    ∃ k j, waitForMount fullPath 21 0 [] s
      = ((waitForMount fullPath 21 0 [] s).1,
         { s with pending := s.pending.drop k,
                  log := s.log ++ List.replicate j (WatchEvent.msleep 100) }) ∧
      (waitForMount fullPath 21 0 [] s).1.contains fullPath
        = (upcomingPolls s.pending s.disk.mounts 21).any (fun m => m.contains fullPath) := by
  obtain ⟨w1, w2, w3, w4, w5, _, j, w7⟩ := waitForMount_spec fullPath 21 0 [] s rfl
  obtain ⟨k, w6⟩ := waitForMount_pending fullPath 21 0 [] s
  refine ⟨k, j, ?_, ?_⟩
  · have h2 : (waitForMount fullPath 21 0 [] s).2
        = { s with pending := s.pending.drop k,
                   log := s.log ++ List.replicate j (WatchEvent.msleep 100) } :=
      Desk.eq_of_fields _ _ w2 w3 w4 w5 w6 w7
    exact Prod.ext_iff.mpr ⟨rfl, h2⟩
  · rw [w1]
    simp

/-- One pass of the link loop, in any state: polls are used up, and the one
change the desktop can see is the new link. -/
theorem linkStep_cases (v : VolumeWatcher) (s : Desk) (d : String)
    (hap : mediaApart v s = true) :
    ∃ k evs, linkStep s v.m_mediaPath d
        = { s with
            desktop := if wouldLink v s d = true
                       then s.desktop ++ [(d, Node.symlink (v.m_mediaPath ++ "/" ++ d))]
                       else s.desktop,
            pending := s.pending.drop k,
            log := s.log ++ evs } ∧
      (wouldLink v s d = false → ∀ e ∈ evs, e.changes = false) := by
  simp only [linkStep, absolute_media v s hap, exists_media v s hap]
  by_cases hskip : skipsLive s (v.m_mediaPath ++ "/" ++ d) = true
  · refine ⟨0, [], ?_, by simp⟩
    rw [if_pos hskip]
    simp only [wouldLink, hskip]
    simp
  rw [if_neg hskip]
  by_cases hE : s.disk.exists (v.m_mediaPath ++ "/" ++ d) = true
  swap
  · refine ⟨0, [], ?_, by simp⟩
    rw [if_neg hE]
    simp only [wouldLink, hE]
    simp
  rw [if_pos hE]
  by_cases hsym : s.exists (s.home ++ "/Desktop/" ++ d) = true
  · refine ⟨0, [], ?_, by simp⟩
    have hl : s.desktop.lookup d ≠ none := by
      intro hn
      rw [exists_of_lookup_none s d hn] at hsym
      exact absurd hsym (by simp)
    have hl2 : (s.desktop.lookup d).isNone = false := by
      cases hq : s.desktop.lookup d with
      | none => exact absurd hq hl
      | some _ => rfl
    simp only [hsym, Bool.not_true, Bool.false_eq_true, if_false, wouldLink, hl2, Bool.and_false,
      Bool.false_and]
    simp
  simp only [hsym, Bool.not_false, if_true]
  obtain ⟨k, j, hw, hc⟩ := waitForMount_state (v.m_mediaPath ++ "/" ++ d) s
  rw [hc]
  by_cases hm : (upcomingPolls s.pending s.disk.mounts 21).any
      (fun m => m.contains (v.m_mediaPath ++ "/" ++ d)) = true
  · rw [if_pos hm, hw]
    simp only [Desk.link]
    have hkey : ({ s with pending := s.pending.drop k,
                          log := s.log ++ List.replicate j (WatchEvent.msleep 100) } : Desk).desktopKey
        (s.home ++ "/Desktop/" ++ d) = some d := desktopKey_name s d
    rw [hkey]
    refine ⟨k, List.replicate j (WatchEvent.msleep 100) ++
      [WatchEvent.link (v.m_mediaPath ++ "/" ++ d) (s.home ++ "/Desktop/" ++ d)
        ((s.desktop.lookup d).isNone && !s.disk.locked.contains (s.home ++ "/Desktop/" ++ d))], ?_, ?_⟩
    · have hwl : wouldLink v s d
          = ((s.desktop.lookup d).isNone && !s.disk.locked.contains (s.home ++ "/Desktop/" ++ d)) := by
        simp only [wouldLink, hskip, hE, hm]
        simp
      simp only [hwl, List.append_assoc]
    · intro hwl e he
      have hok : ((s.desktop.lookup d).isNone && !s.disk.locked.contains (s.home ++ "/Desktop/" ++ d))
          = false := by
        rw [← hwl]
        simp only [wouldLink, hskip, hE, hm]
        simp
      rw [hok] at he
      rcases List.mem_append.mp he with h | h
      · exact all_replicate_msleep j e h
      · rw [List.mem_singleton.mp h]; rfl
  · rw [if_neg hm, hw]
    refine ⟨k, List.replicate j (WatchEvent.msleep 100), ?_, fun _ => all_replicate_msleep j⟩
    have hwl : wouldLink v s d = false := by
      simp only [wouldLink, hm]
      simp
    simp [hwl]

/-- One pass of the clean-up loop. -/
theorem cleanStep_cases (v : VolumeWatcher) (s : Desk) (n : String)
    (hap : mediaApart v s = true) :
    ∃ evs, cleanStep v s n
        = { s with
            desktop := if wouldRemove v s n = true
                       then s.desktop.filter (fun e => e.1 != n)
                       else s.desktop,
            log := s.log ++ evs } ∧
      (wouldRemove v s n = false → ∀ e ∈ evs, e.changes = false) := by
  simp only [cleanStep, exists_media v s hap]
  by_cases hE : s.disk.exists (v.m_mediaPath ++ "/" ++ n) = true
  · refine ⟨[], ?_, by simp⟩
    simp only [hE, Bool.not_true, Bool.false_eq_true, if_false, wouldRemove, Bool.false_and]
    simp
  · have hE2 : s.disk.exists (v.m_mediaPath ++ "/" ++ n) = false := by simpa using hE
    refine ⟨[WatchEvent.remove (s.home ++ "/Desktop/" ++ n) (wouldRemove v s n)], ?_, ?_⟩
    · simp only [hE2, Bool.not_false, if_true, Desk.remove, desktopKey_name, wouldRemove,
        Bool.true_and]
    · intro hwr e he
      rw [hwr] at he
      rw [List.mem_singleton.mp he]; rfl

/-! ## The two loops of a pass -/

theorem lookup_append_single (l : List (String × Node)) (d x : String) (n : Node) :
    (l ++ [(d, n)]).lookup x
      = match l.lookup x with
        | some y => some y
        | none => if x = d then some n else none := by
  induction l with
  | nil =>
    by_cases h : x = d
    · simp [List.lookup, h]
    · have : (x == d) = false := by simpa using h
      simp [List.lookup, h, this]
  | cons a l ih =>
    obtain ⟨k, m⟩ := a
    by_cases h : x = k
    · simp [List.lookup, h]
    · have : (x == k) = false := by simpa using h
      simp only [List.cons_append, List.lookup, this, List.append_eq, ih]

theorem lookup_filter_key (l : List (String × Node)) (n x : String) :
    (l.filter (fun e => e.1 != n)).lookup x = if x = n then none else l.lookup x := by
  induction l with
  | nil => simp
  | cons a l ih =>
    obtain ⟨k, m⟩ := a
    by_cases hk : k = n
    · subst hk
      have hkk : (k != k) = false := by simp
      simp only [List.filter, hkk, ih]
      by_cases hx : x = k
      · simp [hx]
      · have : (x == k) = false := by simpa using hx
        simp [hx, List.lookup, this]
    · have hkn : (k != n) = true := by simpa using hk
      simp only [List.filter, hkn, List.lookup]
      by_cases hx : x = k
      · subst hx
        simp [hk]
      · have : (x == k) = false := by simpa using hx
        simp only [this, ih]

theorem grows_refl (v : VolumeWatcher) (s : Desk) : Grows v s s :=
  ⟨rfl, rfl, rfl, ⟨0, by simp⟩, fun _ => Or.inl rfl⟩

theorem grows_trans {v : VolumeWatcher} {a b c : Desk} (h1 : Grows v a b) (h2 : Grows v b c) :
    Grows v a c := by
  obtain ⟨a1, a2, a3, ⟨k, a4⟩, a5⟩ := h1
  obtain ⟨b1, b2, b3, ⟨j, b4⟩, b5⟩ := h2
  refine ⟨b1.trans a1, b2.trans a2, b3.trans a3, ⟨k + j, by rw [b4, a4, List.drop_drop]⟩,
    fun x => ?_⟩
  rcases b5 x with hb | ⟨hb1, hb2, hb3⟩
  · rcases a5 x with ha | ⟨ha1, ha2, ha3⟩
    · exact Or.inl (hb.trans ha)
    · exact Or.inr ⟨ha1, hb.trans ha2, ha3⟩
  · rcases a5 x with ha | ⟨ha1, ha2, ha3⟩
    · exact Or.inr ⟨ha ▸ hb1, hb2, a2 ▸ hb3⟩
    · rw [ha2] at hb1; exact absurd hb1 (by simp)

theorem shrinks_refl (v : VolumeWatcher) (s : Desk) : Shrinks v s s :=
  ⟨rfl, rfl, rfl, rfl, fun _ => Or.inl rfl⟩

theorem shrinks_trans {v : VolumeWatcher} {a b c : Desk} (h1 : Shrinks v a b)
    (h2 : Shrinks v b c) : Shrinks v a c := by
  obtain ⟨a1, a2, a3, a4, a5⟩ := h1
  obtain ⟨b1, b2, b3, b4, b5⟩ := h2
  refine ⟨b1.trans a1, b2.trans a2, b3.trans a3, b4.trans a4, fun x => ?_⟩
  rcases b5 x with hb | ⟨hb1, hb2⟩
  · rcases a5 x with ha | ⟨ha1, ha2⟩
    · exact Or.inl (hb.trans ha)
    · exact Or.inr ⟨hb.trans ha1, ha2⟩
  · exact Or.inr ⟨hb1, a2 ▸ hb2⟩

theorem mediaApart_congr (v : VolumeWatcher) (s f : Desk) (h : f.home = s.home) :
    mediaApart v f = mediaApart v s := by
  simp [mediaApart, h]

theorem wouldLink_congr (v : VolumeWatcher) (s f : Desk) (x : String) (h1 : f.home = s.home)
    (h2 : f.disk = s.disk) (h3 : f.created = s.created)
    (h4 : f.desktop.lookup x = s.desktop.lookup x) (h5 : f.pending = s.pending) :
    wouldLink v f x = wouldLink v s x := by
  simp [wouldLink, skipsLive, h1, h2, h3, h4, h5]

/-- When the mount table settles within `n` polls, the next `n + 1` polls show
every table still to come. -/
theorem upcomingPolls_any_short (settled : List String) (f : List String → Bool) :
    ∀ (n : Nat) (pending : List (List String)), pending.length ≤ n →
      (upcomingPolls pending settled (n + 1)).any f = (pending.any f || f settled) := by
  intro n
  induction n with
  | zero =>
    intro pending hlen
    have : pending = [] := List.length_eq_zero.mp (by omega)
    subst this
    simp [upcomingPolls]
  | succ n ih =>
    intro pending hlen
    cases pending with
    | nil =>
      rw [upcomingPolls]
      simp only [List.any_cons, ih [] (by simp), List.any_nil, Bool.false_or, Bool.or_self]
    | cons m rest =>
      rw [upcomingPolls]
      simp only [List.any_cons, ih rest (by simpa using hlen), Bool.or_assoc]

theorem any_of_any_drop (l : List (List String)) (f : List String → Bool) (k : Nat)
    (h : (l.drop k).any f = true) : l.any f = true := by
  rw [List.any_eq_true] at h ⊢
  obtain ⟨m, hm, hf⟩ := h
  exact ⟨m, List.mem_of_mem_drop hm, hf⟩

theorem wouldRemove_congr (v : VolumeWatcher) (s f : Desk) (x : String) (h1 : f.home = s.home)
    (h2 : f.disk = s.disk)
    (h4 : f.desktop.lookup x = s.desktop.lookup x) : wouldRemove v f x = wouldRemove v s x := by
  simp [wouldRemove, h1, h2, h4]

theorem wouldLink_of_grows {v : VolumeWatcher} {s f : Desk} (h : Grows v s f)
    (hlen : s.pending.length ≤ 20) (x : String)
    (hx : wouldLink v s x = false) : wouldLink v f x = false := by
  obtain ⟨h1, h2, h3, ⟨k, h4⟩, h5⟩ := h
  rcases h5 x with he | ⟨_, he, _⟩
  · have hlenf : f.pending.length ≤ 20 := by
      rw [h4, List.length_drop]; omega
    cases hf : wouldLink v f x with
    | false => rfl
    | true =>
      simp only [wouldLink, upcomingPolls_any_short _ _ 20 _ hlenf, Bool.and_eq_true,
        Bool.or_eq_true] at hf
      obtain ⟨⟨⟨⟨c1, c2⟩, c3⟩, c4⟩, c5⟩ := hf
      have c3s : (s.pending.any (fun m => m.contains (v.m_mediaPath ++ "/" ++ x)) = true
          ∨ s.disk.mounts.contains (v.m_mediaPath ++ "/" ++ x) = true) := by
        rcases c3 with c | c
        · rw [h4] at c
          exact Or.inl (any_of_any_drop _ _ k c)
        · rw [h2] at c
          exact Or.inr c
      have : wouldLink v s x = true := by
        simp only [wouldLink, upcomingPolls_any_short _ _ 20 _ hlen, Bool.and_eq_true,
          Bool.or_eq_true]
        refine ⟨⟨⟨⟨?_, ?_⟩, c3s⟩, ?_⟩, ?_⟩
        · simpa [skipsLive, h3] using c1
        · rw [← h2]; exact c2
        · rw [← he]; exact c4
        · rw [← h1, ← h2]; exact c5
      rw [this] at hx
      exact absurd hx (by simp)
  · simp [wouldLink, he]

theorem wouldLink_of_shrinks {v : VolumeWatcher} {s f : Desk} (h : Shrinks v s f) (x : String)
    (hx : wouldLink v s x = false) : wouldLink v f x = false := by
  obtain ⟨h1, h2, h3, h4, h5⟩ := h
  rcases h5 x with he | ⟨_, he⟩
  · rw [wouldLink_congr v s f x h1 h2 h3 he h4]; exact hx
  · simp [wouldLink, h2, he]

theorem wouldRemove_of_shrinks {v : VolumeWatcher} {s f : Desk} (h : Shrinks v s f) (x : String)
    (hx : wouldRemove v s x = false) : wouldRemove v f x = false := by
  obtain ⟨h1, h2, _, _, h5⟩ := h
  rcases h5 x with he | ⟨he, _⟩
  · rw [wouldRemove_congr v s f x h1 h2 he]; exact hx
  · simp [wouldRemove, he]

theorem linkStep_grows (v : VolumeWatcher) (s : Desk) (d : String)
    (hap : mediaApart v s = true) :
    Grows v s (linkStep s v.m_mediaPath d) ∧
    (s.pending.length ≤ 20 → wouldLink v (linkStep s v.m_mediaPath d) d = false) := by
  obtain ⟨k, evs, heq, _⟩ := linkStep_cases v s d hap
  rw [heq]
  by_cases hw : wouldLink v s d = true
  · have hw2 := hw
    simp only [wouldLink, Bool.and_eq_true, Bool.not_eq_true', Option.isNone_iff_eq_none] at hw2
    obtain ⟨⟨⟨⟨_, hE⟩, _⟩, hnone⟩, _⟩ := hw2
    simp only [hw, if_true]
    constructor
    · refine ⟨rfl, rfl, rfl, ⟨k, rfl⟩, fun x => ?_⟩
      simp only [lookup_append_single]
      cases hl : s.desktop.lookup x with
      | some y => exact Or.inl rfl
      | none =>
        by_cases hx : x = d
        · subst hx
          exact Or.inr ⟨rfl, by simp, hE⟩
        · exact Or.inl (by simp [hx])
    · intro _
      simp [wouldLink, lookup_append_single, hnone]
  · have hw2 : wouldLink v s d = false := by simpa using hw
    simp only [hw2, Bool.false_eq_true, if_false]
    have hg : Grows v s
        { s with desktop := s.desktop, pending := s.pending.drop k, log := s.log ++ evs } :=
      ⟨rfl, rfl, rfl, ⟨k, rfl⟩, fun _ => Or.inl rfl⟩
    exact ⟨hg, fun hlen => wouldLink_of_grows hg hlen d hw2⟩

theorem cleanStep_shrinks (v : VolumeWatcher) (s : Desk) (n : String)
    (hap : mediaApart v s = true) :
    Shrinks v s (cleanStep v s n) ∧ wouldRemove v (cleanStep v s n) n = false := by
  obtain ⟨evs, heq, _⟩ := cleanStep_cases v s n hap
  rw [heq]
  by_cases hw : wouldRemove v s n = true
  · have hw2 := hw
    simp only [wouldRemove, Bool.and_eq_true, Bool.not_eq_true'] at hw2
    obtain ⟨hE, _⟩ := hw2
    simp only [hw, if_true]
    constructor
    · refine ⟨rfl, rfl, rfl, rfl, fun x => ?_⟩
      simp only [lookup_filter_key]
      by_cases hx : x = n
      · subst hx
        exact Or.inr ⟨by simp, hE⟩
      · exact Or.inl (by simp [hx])
    · simp [wouldRemove, lookup_filter_key]
  · have hw2 : wouldRemove v s n = false := by simpa using hw
    simp only [hw2, Bool.false_eq_true, if_false]
    constructor
    · exact ⟨rfl, rfl, rfl, rfl, fun _ => Or.inl rfl⟩
    · rw [← hw2]; exact wouldRemove_congr v s _ n rfl rfl rfl

theorem grows_pending_length {v : VolumeWatcher} {s f : Desk} (h : Grows v s f) :
    f.pending.length ≤ s.pending.length := by
  obtain ⟨_, _, _, ⟨k, h4⟩, _⟩ := h
  rw [h4, List.length_drop]
  omega

/-- The link loop: it only makes polls and adds links. -/
theorem linkLoop_grows (v : VolumeWatcher) :
    ∀ (l : List String) (s : Desk), mediaApart v s = true →
      Grows v s (l.foldl (fun st dirName => linkStep st v.m_mediaPath dirName) s) := by
  intro l
  induction l with
  | nil => intro s _; exact grows_refl v s
  | cons a l ih =>
    intro s hap
    obtain ⟨g1, _⟩ := linkStep_grows v s a hap
    have hap1 : mediaApart v (linkStep s v.m_mediaPath a) = true := by
      rw [mediaApart_congr v s _ g1.1]; exact hap
    simp only [List.foldl_cons]
    exact grows_trans g1 (ih _ hap1)

/-- The link loop when the mount table settles within 20 polls: after it no
listed name would get a link any more. -/
theorem linkLoop_done (v : VolumeWatcher) :
    ∀ (l : List String) (s : Desk), mediaApart v s = true → s.pending.length ≤ 20 →
      ∀ d ∈ l, wouldLink v (l.foldl (fun st dirName => linkStep st v.m_mediaPath dirName) s) d
        = false := by
  intro l
  induction l with
  | nil => intro s _ _; simp
  | cons a l ih =>
    intro s hap hlen
    obtain ⟨g1, g2⟩ := linkStep_grows v s a hap
    have hap1 : mediaApart v (linkStep s v.m_mediaPath a) = true := by
      rw [mediaApart_congr v s _ g1.1]; exact hap
    have hlen1 : (linkStep s v.m_mediaPath a).pending.length ≤ 20 :=
      Nat.le_trans (grows_pending_length g1) hlen
    have i1 := linkLoop_grows v l _ hap1
    have i2 := ih (linkStep s v.m_mediaPath a) hap1 hlen1
    simp only [List.foldl_cons]
    intro d hd
    rcases List.mem_cons.mp hd with h | h
    · subst h; exact wouldLink_of_grows i1 hlen1 _ (g2 hlen)
    · exact i2 d h

/-- The clean-up loop: it only removes entries, and after it no listed name
would be removed any more. -/
theorem cleanLoop_shrinks (v : VolumeWatcher) :
    ∀ (l : List String) (s : Desk), mediaApart v s = true →
      Shrinks v s (l.foldl (fun st symlinkPath => cleanStep v st symlinkPath) s) ∧
      ∀ n ∈ l, wouldRemove v (l.foldl (fun st symlinkPath => cleanStep v st symlinkPath) s) n
        = false := by
  intro l
  induction l with
  | nil => intro s _; exact ⟨shrinks_refl v s, by simp⟩
  | cons a l ih =>
    intro s hap
    obtain ⟨g1, g2⟩ := cleanStep_shrinks v s a hap
    have hap1 : mediaApart v (cleanStep v s a) = true := by
      rw [mediaApart_congr v s _ g1.1]; exact hap
    obtain ⟨i1, i2⟩ := ih (cleanStep v s a) hap1
    simp only [List.foldl_cons]
    refine ⟨shrinks_trans g1 i1, fun d hd => ?_⟩
    rcases List.mem_cons.mp hd with h | h
    · subst h; exact wouldRemove_of_shrinks i1 _ g2
    · exact i2 d h

/-- The link loop changes nothing on the desktop when no listed name would get
a link and the mount table settles within 20 polls. -/
theorem linkLoop_stable (v : VolumeWatcher) :
    ∀ (l : List String) (s : Desk), mediaApart v s = true → s.pending.length ≤ 20 →
      (∀ d ∈ l, wouldLink v s d = false) →
      ∃ k evs, l.foldl (fun st dirName => linkStep st v.m_mediaPath dirName) s
          = { s with pending := s.pending.drop k, log := s.log ++ evs } ∧
        ∀ e ∈ evs, e.changes = false := by
  intro l
  induction l with
  | nil => intro s _ _ _; exact ⟨0, [], by simp, by simp⟩
  | cons a l ih =>
    intro s hap hlen hall
    obtain ⟨k, evs, heq, hcalm⟩ := linkStep_cases v s a hap
    have ha : wouldLink v s a = false := hall a (List.mem_cons_self _ _)
    simp only [ha, Bool.false_eq_true, if_false] at heq
    have hg : Grows v s
        { s with desktop := s.desktop, pending := s.pending.drop k, log := s.log ++ evs } :=
      ⟨rfl, rfl, rfl, ⟨k, rfl⟩, fun _ => Or.inl rfl⟩
    obtain ⟨k2, evs2, heq2, hcalm2⟩ := ih
      { s with desktop := s.desktop, pending := s.pending.drop k, log := s.log ++ evs } hap
      (Nat.le_trans (grows_pending_length hg) hlen)
      (fun d hd => wouldLink_of_grows hg hlen d (hall d (List.mem_cons_of_mem _ hd)))
    refine ⟨k + k2, evs ++ evs2, ?_, ?_⟩
    · simp only [List.foldl_cons, heq, heq2, List.append_assoc, List.drop_drop]
    · intro e he
      rcases List.mem_append.mp he with h | h
      · exact hcalm ha e h
      · exact hcalm2 e h

/-- The clean-up loop changes nothing when no listed name would be removed. -/
theorem cleanLoop_stable (v : VolumeWatcher) :
    ∀ (l : List String) (s : Desk), mediaApart v s = true →
      (∀ n ∈ l, wouldRemove v s n = false) →
      ∃ evs, l.foldl (fun st symlinkPath => cleanStep v st symlinkPath) s
          = { s with log := s.log ++ evs } ∧ ∀ e ∈ evs, e.changes = false := by
  intro l
  induction l with
  | nil => intro s _ _; exact ⟨[], by simp, by simp⟩
  | cons a l ih =>
    intro s hap hall
    obtain ⟨evs, heq, hcalm⟩ := cleanStep_cases v s a hap
    have ha : wouldRemove v s a = false := hall a (List.mem_cons_self _ _)
    simp only [ha, Bool.false_eq_true, if_false] at heq
    obtain ⟨evs2, heq2, hcalm2⟩ := ih { s with log := s.log ++ evs } hap
      (fun d hd => hall d (List.mem_cons_of_mem _ hd))
    refine ⟨evs ++ evs2, ?_, ?_⟩
    · simp only [List.foldl_cons, heq, heq2, List.append_assoc]
    · intro e he
      rcases List.mem_append.mp he with h | h
      · exact hcalm ha e h
      · exact hcalm2 e h

/-! ## A second pass changes nothing -/

theorem exists_media_link (v : VolumeWatcher) (s : Desk) (hap : mediaApart v s = true)
    (n t : String) (hl : s.desktop.lookup n = some (Node.symlink t))
    (ht : (v.m_mediaPath ++ "/").data.isPrefixOf t.data = true) :
    s.exists (s.home ++ "/Desktop/" ++ n) = s.disk.exists t := by
  have hlen : ∃ k, s.desktop.length = k + 1 := by
    cases hd : s.desktop with
    | nil => rw [hd] at hl; simp at hl
    | cons a l => exact ⟨l.length, rfl⟩
  obtain ⟨k, hk⟩ := hlen
  simp only [Desk.exists, hk, Desk.existsFuel, desktopKey_name, hl,
    desktopKey_under_media v s hap t ht]

theorem lookup_mem_keys (l : List (String × Node)) (x : String) (y : Node)
    (h : l.lookup x = some y) : x ∈ l.map Prod.fst := by
  induction l with
  | nil => simp at h
  | cons a l ih =>
    obtain ⟨k, m⟩ := a
    by_cases hx : x = k
    · simp [hx]
    · have : (x == k) = false := by simpa using hx
      simp only [List.lookup, this] at h
      simp [ih h]

theorem mem_symlinkPaths (v : VolumeWatcher) (s : Desk) (n : String) :
    n ∈ symlinkPaths v s ↔
      n ∈ s.desktop.map Prod.fst ∧ n.data.contains '/' = false ∧ s.isSymLink n = true ∧
      (v.m_mediaPath ++ "/").data.isPrefixOf (s.symLinkTarget n).data = true ∧
      s.exists (s.home ++ "/Desktop/" ++ n) = false := by
  simp only [symlinkPaths, Desk.entryInfoList, List.mem_filter, Bool.and_eq_true,
    Bool.or_eq_true, Bool.not_eq_true']
  constructor
  · rintro ⟨⟨h1, h2, h3⟩, h4, h5⟩
    refine ⟨h1, h2, h4, h5, ?_⟩
    rcases h3 with h3 | h3
    · rw [h4] at h3; exact absurd h3 (by simp)
    · exact h3
  · rintro ⟨h1, h2, h3, h4, h5⟩
    exact ⟨⟨h1, h2, Or.inr h5⟩, h3, h4⟩

/-- C16 fails when the mount table changes during the first pass after the
wait has given up. The directory `/media/a` exists, the first 21 polls of the
mount table do not list it, and from then on the table lists it: the first
pass gives up and creates no link. After it the disk and the mount table are
what they stay, and the second pass, with nothing changed in between, creates
the link `a`. -/
theorem second_pass_links_after_late_mount :
    (handleDirectoryChange mediaWatcher raceDesk "/media").desktop = [] ∧
    (handleDirectoryChange mediaWatcher raceDesk "/media").pending = [] ∧
    (handleDirectoryChange mediaWatcher raceDesk "/media").disk = raceDesk.disk ∧
    (handleDirectoryChange mediaWatcher
        (handleDirectoryChange mediaWatcher raceDesk "/media") "/media").desktop
      = [("a", Node.symlink "/media/a")] := by
  decide

/-- C16, amended. When the mount table stops changing within the first 20
polls of the first pass (in particular when it does not change at all), the
media root being an absolute path apart from the desktop directory: a second
pass of `handleDirectoryChange` right after a first one leaves the desktop
directory exactly as the first pass left it, and none of its actions creates
or removes anything. -/
theorem reconciliation_idempotent (v : VolumeWatcher) (s : Desk)
    (hap : mediaApart v s = true) (hlen : s.pending.length ≤ 20) :
    (handleDirectoryChange v (handleDirectoryChange v s v.m_mediaPath) v.m_mediaPath).desktop
      = (handleDirectoryChange v s v.m_mediaPath).desktop ∧
    ∃ evs,
      (handleDirectoryChange v (handleDirectoryChange v s v.m_mediaPath) v.m_mediaPath).log
        = (handleDirectoryChange v s v.m_mediaPath).log ++ evs ∧
      ∀ e ∈ evs, e.changes = false := by
  have G := linkLoop_grows v (s.disk.dirList v.m_mediaPath) s hap
  have hd := linkLoop_done v (s.disk.dirList v.m_mediaPath) s hap hlen
  have hap1 := (mediaApart_congr v s _ G.1).trans hap
  obtain ⟨Sh, hr⟩ := cleanLoop_shrinks v (symlinkPaths v s) _ hap1
  have hpass : handleDirectoryChange v s v.m_mediaPath
      = (symlinkPaths v s).foldl (fun st symlinkPath => cleanStep v st symlinkPath)
          ((s.disk.dirList v.m_mediaPath).foldl
            (fun st dirName => linkStep st v.m_mediaPath dirName) s) := rfl
  rw [← hpass] at Sh hr
  generalize handleDirectoryChange v s v.m_mediaPath = s2 at Sh hr
  generalize (s.disk.dirList v.m_mediaPath).foldl
    (fun st dirName => linkStep st v.m_mediaPath dirName) s = s1 at G hd Sh hap1
  have hhome : s2.home = s.home := Sh.1.trans G.1
  have hdisk : s2.disk = s.disk := Sh.2.1.trans G.2.1
  have hap2 : mediaApart v s2 = true := (mediaApart_congr v s _ hhome).trans hap
  have hlen2 : s2.pending.length ≤ 20 := by
    rw [Sh.2.2.2.1]
    exact Nat.le_trans (grows_pending_length G) hlen
  have hstab_a : ∀ d ∈ s2.disk.dirList v.m_mediaPath, wouldLink v s2 d = false := by
    intro d hdm
    rw [hdisk] at hdm
    exact wouldLink_of_shrinks Sh d (hd d hdm)
  have hstab_b : ∀ n ∈ symlinkPaths v s2, wouldRemove v s2 n = false := by
    intro n hn
    by_cases hE : s.disk.exists (v.m_mediaPath ++ "/" ++ n) = true
    · simp [wouldRemove, hdisk, hE]
    have hE2 : s.disk.exists (v.m_mediaPath ++ "/" ++ n) = false := by simpa using hE
    obtain ⟨_, hslash, hsym, hpre, hbroken⟩ := (mem_symlinkPaths v s2 n).mp hn
    have hl2 : ∃ t, s2.desktop.lookup n = some (Node.symlink t) := by
      simp only [Desk.isSymLink] at hsym
      split at hsym
      · exact ⟨_, by assumption⟩
      · exact absurd hsym (by simp)
    obtain ⟨t, hl2⟩ := hl2
    have hpre2 : (v.m_mediaPath ++ "/").data.isPrefixOf t.data = true := by
      simpa [Desk.symLinkTarget, hl2] using hpre
    have hl1 : s1.desktop.lookup n = some (Node.symlink t) := by
      rcases Sh.2.2.2.2 n with h | ⟨h, _⟩
      · rw [← h]; exact hl2
      · rw [h] at hl2; exact absurd hl2 (by simp)
    have hl : s.desktop.lookup n = some (Node.symlink t) := by
      rcases G.2.2.2.2 n with h | ⟨_, _, h⟩
      · rw [← h]; exact hl1
      · rw [h] at hE2; exact absurd hE2 (by simp)
    have hb2 := exists_media_link v s2 hap2 n t hl2 hpre2
    rw [hbroken, hdisk] at hb2
    have hmem : n ∈ symlinkPaths v s := by
      rw [mem_symlinkPaths]
      refine ⟨lookup_mem_keys _ n _ hl, hslash, by simp [Desk.isSymLink, hl],
        by simpa [Desk.symLinkTarget, hl] using hpre2, ?_⟩
      rw [exists_media_link v s hap n t hl hpre2]
      exact hb2.symm
    exact hr n hmem
  obtain ⟨k, evs, heq, hcalm⟩ := linkLoop_stable v _ s2 hap2 hlen2 hstab_a
  obtain ⟨evs2, heq2, hcalm2⟩ := cleanLoop_stable v (symlinkPaths v s2)
    { s2 with pending := s2.pending.drop k, log := s2.log ++ evs } hap2
    (fun n hn => (wouldRemove_congr v s2 _ n rfl rfl rfl).trans (hstab_b n hn))
  have hpass2 : handleDirectoryChange v s2 v.m_mediaPath
      = (symlinkPaths v s2).foldl (fun st symlinkPath => cleanStep v st symlinkPath)
          ((s2.disk.dirList v.m_mediaPath).foldl
            (fun st dirName => linkStep st v.m_mediaPath dirName) s2) := rfl
  rw [hpass2, heq, heq2]
  refine ⟨rfl, evs ++ evs2, by simp, ?_⟩
  intro e he
  rcases List.mem_append.mp he with h | h
  · exact hcalm e h
  · exact hcalm2 e h

theorem reconciliation_idempotent_witness :
    mediaApart mediaWatcher plugDesk = true ∧ plugDesk.pending.length ≤ 20 ∧
    (handleDirectoryChange mediaWatcher plugDesk "/media").desktop
      = [("notes.txt", Node.file), ("Trash", Node.symlink "/home/u/.local/share/Trash/files"),
         ("usb", Node.symlink "/media/usb")] ∧
    ((handleDirectoryChange mediaWatcher
        (handleDirectoryChange mediaWatcher plugDesk mediaWatcher.m_mediaPath)
        mediaWatcher.m_mediaPath).desktop
      = (handleDirectoryChange mediaWatcher plugDesk mediaWatcher.m_mediaPath).desktop ∧
    ∃ evs,
      (handleDirectoryChange mediaWatcher
        (handleDirectoryChange mediaWatcher plugDesk mediaWatcher.m_mediaPath)
        mediaWatcher.m_mediaPath).log
        = (handleDirectoryChange mediaWatcher plugDesk mediaWatcher.m_mediaPath).log ++ evs ∧
      ∀ e ∈ evs, e.changes = false) :=
  ⟨by decide, by decide, by decide,
   reconciliation_idempotent mediaWatcher plugDesk (by decide) (by decide)⟩

/-! ## The length of the wait, and a pool name without a slash -/

/-- The wait loop when the directory is in none of the polls: it sleeps once
for every pass it is allowed, 21 times from the start. -/
theorem waitForMount_gives_up (fullPath : String) :
    ∀ (fuel counter : Nat) (mountPoints : List String) (s : Desk), counter + fuel = 21 →
      fullPath ∉ mountPoints →
      (∀ m ∈ upcomingPolls s.pending s.disk.mounts fuel, fullPath ∉ m) →
      (waitForMount fullPath fuel counter mountPoints s).2.log
        = s.log ++ List.replicate fuel (WatchEvent.msleep 100) := by
  intro fuel
  induction fuel with
  | zero => intro counter mountPoints s _ _ _; simp [waitForMount]
  | succ fuel ih =>
    intro counter mountPoints s hc hmp hnever
    have hpoll : s.mountedVolumes.2.log = s.log ∧ s.mountedVolumes.2.disk = s.disk ∧
        upcomingPolls s.pending s.disk.mounts (fuel + 1)
          = s.mountedVolumes.1 :: upcomingPolls s.mountedVolumes.2.pending s.disk.mounts fuel := by
      cases hp : s.pending with
      | nil => simp [Desk.mountedVolumes, hp, upcomingPolls]
      | cons m rest => simp [Desk.mountedVolumes, hp, upcomingPolls]
    obtain ⟨h1, h2, h3⟩ := hpoll
    rw [h3] at hnever
    have hfirst : fullPath ∉ s.mountedVolumes.1 := hnever _ (List.mem_cons_self _ _)
    have hin : ¬ (mountPoints ++ s.mountedVolumes.1).contains fullPath = true := by
      simp [hmp, hfirst]
    simp only [waitForMount]
    rw [if_neg hin]
    by_cases hcnt : counter + 1 > 20
    · rw [if_pos hcnt]
      have hf : fuel = 0 := by omega
      subst hf
      simp [Desk.emit, h1]
    · rw [if_neg hcnt]
      have hrec := ih (counter + 1) (mountPoints ++ s.mountedVolumes.1)
        (s.mountedVolumes.2.emit (WatchEvent.msleep 100)) (by omega)
        (by simp [hmp, hfirst])
        (by
          intro m hm
          simp only [Desk.emit, h2] at hm
          exact hnever m (List.mem_cons_of_mem _ hm))
      rw [hrec]
      simp [Desk.emit, h1, List.replicate_succ]

/-- C21 fails by one sleep. The directory `/media/usb` exists and is in none
of the polls of the mount table: the pass sleeps 21 times for 100 ms, that is
2100 ms, before it gives up (and creates no link). The counter is compared
with `> 20` after it has been raised, so the loop ends at 21, not at 20. -/
theorem wait_loop_sleeps_21_times :
    (∀ m ∈ upcomingPolls unmountedDesk.pending unmountedDesk.disk.mounts 21, "/media/usb" ∉ m) ∧
    (handleDirectoryChange mediaWatcher unmountedDesk "/media").log
      = List.replicate 21 (WatchEvent.msleep 100) ∧
    ((handleDirectoryChange mediaWatcher unmountedDesk "/media").log.map WatchEvent.sleptMs).sum
      = 2100 ∧
    (handleDirectoryChange mediaWatcher unmountedDesk "/media").desktop = [] := by
  decide

theorem splitChars_length (sep : Char) (l : List Char) :
    (splitChars sep l).length = l.count sep + 1 := by
  induction l with
  | nil => simp [splitChars]
  | cons c cs ih =>
    by_cases h : c = sep
    · subst h
      simp [splitChars, ih]
    · have hne : (c == sep) = false := by simpa using h
      simp only [splitChars, if_neg h, List.count_cons, hne]
      cases hs : splitChars sep cs with
      | nil => rw [hs] at ih; simp at ih
      | cons part parts =>
        rw [hs] at ih
        simpa using ih

/-- For a non-empty output of the query, `getRootDiskName` has a second part to
take exactly if the output contains a `/`. -/
theorem getRootDiskName_none_iff (displayName hardDiskName zfsName : String)
    (hz : zfsName.isEmpty = false) :
    getRootDiskName displayName hardDiskName zfsName = none ↔ '/' ∉ zfsName.data := by
  have hlen := splitChars_length '/' zfsName.data
  simp only [getRootDiskName, hz, Bool.not_false, if_true]
  constructor
  · intro h
    split at h
    · rename_i hg
      rw [List.get?_eq_none] at hg
      have : zfsName.data.count '/' = 0 := by omega
      exact List.count_eq_zero.mp this
    · exact absurd h (by simp)
  · intro h
    have hc : zfsName.data.count '/' = 0 := List.count_eq_zero.mpr h
    have hg : (splitChars '/' zfsName.data).get? 1 = none := by
      rw [List.get?_eq_none]; omega
    rw [hg]

/-- C23 fails for a dataset name without a slash. When the root file system
is the pool itself the query prints `zroot` and a newline: splitting at `/`
gives one part, and `.at(1)` of line 198 is out of range. -/
theorem getRootDiskName_out_of_range :
    "zroot\n".isEmpty = false ∧
    (splitChars '/' "zroot\n".data).length = 1 ∧
    getRootDiskName "" "Hard Disk" "zroot\n" = none ∧
    getRootDiskName "/" "Hard Disk" "tank\n" = none := by
  decide

/-! ## The icon of a desktop file -/

/-- What the loop returns: nothing when no line starts with `Icon`, else the
trimmed second part of the first such line, if it has one. -/
theorem iconLoop_first (lines : List (List Char)) :
    iconLoop lines
      = match lines.find? (fun line => "Icon".data.isPrefixOf line) with
        | none => some ""
        | some line => ((splitChars '=' line).get? 1).map (fun part => ⟨trimmed part⟩) := by
  induction lines with
  | nil => rfl
  | cons line rest ih =>
    cases h : "Icon".data.isPrefixOf line with
    | true =>
      simp only [iconLoop, h, if_true, List.find?_cons_of_pos]
      cases (splitChars '=' line).get? 1 <;> rfl
    | false =>
      simp only [iconLoop, h, Bool.false_eq_true, if_false, ih]
      rw [List.find?_cons_of_neg]
      simp [h]

/-- A line has a second part exactly if it contains `=`. -/
theorem second_part_iff (line : List Char) :
    ((splitChars '=' line).get? 1).isSome = true ↔ '=' ∈ line := by
  have hlen := splitChars_length '=' line
  constructor
  · intro h
    by_contra hc
    have h0 : line.count '=' = 0 := List.count_eq_zero.mpr hc
    have hg : (splitChars '=' line).get? 1 = none := by
      rw [List.get?_eq_none]; omega
    rw [hg] at h
    exact absurd h (by simp)
  · intro h
    have hpos : 0 < line.count '=' := List.count_pos_iff.mpr h
    cases hg : (splitChars '=' line).get? 1 with
    | none => rw [List.get?_eq_none] at hg; omega
    | some _ => rfl

/-- C24 fails for a line that starts with `Icon` and has no `=`. In a file
with the line `Icon` (or `IconTheme`), line 48 takes the line, splitting it at
`=` gives one part, and `.at(1)` of line 50 is out of range. Line 43 speaks of a line starting with `Icon=`; line 48 tests `Icon`. -/
theorem getIcon_out_of_range :
    getIcon (some "[Desktop Entry]\nName=Editor\nIcon\nExec=ed\n") = none ∧
    getIcon (some "# Icons of this entry\nIconTheme\nIcon=editor\n") = none ∧
    (splitChars '=' "Icon".data).length = 1 := by
  decide

/-! ## Links made by a whole pass -/

theorem filter_key_of_lookup_none (l : List (String × Node)) (d : String)
    (h : l.lookup d = none) : l.filter (fun e => e.1 == d) = [] := by
  rw [List.filter_eq_nil_iff]
  intro p hp
  rw [List.lookup_eq_none_iff] at h
  have := h p hp
  intro hc
  have hpd : p.1 = d := by simpa using hc
  rw [hpd] at this
  simp at this

theorem lookup_none_of_filter_key (l : List (String × Node)) (d : String)
    (h : l.filter (fun e => e.1 == d) = []) : l.lookup d = none := by
  rw [List.lookup_eq_none_iff]
  intro p hp
  rw [List.filter_eq_nil_iff] at h
  have hne : ¬ p.1 = d := by simpa using h p hp
  have : ¬ d = p.1 := fun hc => hne hc.symm
  simpa using this

theorem isDir_exists (w : World) (p : String) (h : w.isDir p = true) : w.exists p = true := by
  simp only [World.isDir] at h
  simp only [World.exists]
  cases hf : w.follow p with
  | none => rw [hf] at h; simp at h
  | some _ => rfl

theorem mem_dirList_isDir (w : World) (dir d : String) (h : d ∈ w.dirList dir) :
    w.isDir (dir ++ "/" ++ d) = true := by
  simp only [World.dirList, List.mem_filter, Bool.and_eq_true] at h
  exact h.2.2

/-- One pass of the link loop for another name leaves the entries named `d`
as they are. -/
theorem linkStep_other (v : VolumeWatcher) (s : Desk) (a d : String)
    (hap : mediaApart v s = true) (hne : a ≠ d) :
    (linkStep s v.m_mediaPath a).desktop.filter (fun e => e.1 == d)
      = s.desktop.filter (fun e => e.1 == d) := by
  obtain ⟨k, evs, heq, _⟩ := linkStep_cases v s a hap
  rw [heq]
  have hb : (a == d) = false := by simpa using hne
  simp only
  split_ifs
  · simp [List.filter_append, List.filter, hb]
  · rfl

theorem linkLoop_other (v : VolumeWatcher) (d : String) :
    ∀ (l : List String) (s : Desk), mediaApart v s = true → d ∉ l →
      (l.foldl (fun st dirName => linkStep st v.m_mediaPath dirName) s).desktop.filter
          (fun e => e.1 == d)
        = s.desktop.filter (fun e => e.1 == d) := by
  intro l
  induction l with
  | nil => intro s _ _; rfl
  | cons a l ih =>
    intro s hap hd
    have hne : a ≠ d := fun h => hd (h ▸ List.mem_cons_self _ _)
    have hd2 : d ∉ l := fun h => hd (List.mem_cons_of_mem _ h)
    have hap1 : mediaApart v (linkStep s v.m_mediaPath a) = true := by
      rw [mediaApart_congr v s _ (linkStep_grows v s a hap).1.1]; exact hap
    simp only [List.foldl_cons]
    rw [ih _ hap1 hd2, linkStep_other v s a d hap hne]

/-- One pass of the clean-up loop for another name leaves the entries named `d`
as they are. -/
theorem cleanStep_other (v : VolumeWatcher) (s : Desk) (n d : String)
    (hap : mediaApart v s = true) (hne : n ≠ d) :
    (cleanStep v s n).desktop.filter (fun e => e.1 == d)
      = s.desktop.filter (fun e => e.1 == d) := by
  obtain ⟨evs, heq, _⟩ := cleanStep_cases v s n hap
  rw [heq]
  simp only
  split_ifs
  · rw [List.filter_filter]
    apply List.filter_congr
    intro e _
    by_cases he : e.1 = d
    · have : e.1 ≠ n := fun h => hne (h ▸ he)
      simp [he, this]
      exact fun h => hne h.symm
    · simp [he]
  · rfl

theorem cleanLoop_other (v : VolumeWatcher) (d : String) :
    ∀ (l : List String) (s : Desk), mediaApart v s = true → d ∉ l →
      (l.foldl (fun st symlinkPath => cleanStep v st symlinkPath) s).desktop.filter
          (fun e => e.1 == d)
        = s.desktop.filter (fun e => e.1 == d) := by
  intro l
  induction l with
  | nil => intro s _ _; rfl
  | cons a l ih =>
    intro s hap hd
    have hne : a ≠ d := fun h => hd (h ▸ List.mem_cons_self _ _)
    have hd2 : d ∉ l := fun h => hd (List.mem_cons_of_mem _ h)
    have hap1 : mediaApart v (cleanStep v s a) = true := by
      rw [mediaApart_congr v s _ (cleanStep_shrinks v s a hap).1.1]; exact hap
    simp only [List.foldl_cons]
    rw [ih _ hap1 hd2, cleanStep_other v s a d hap hne]

/-- C17 fails as stated for the pass. On a desk with the subdirectories `a`,
`b`, `c` and `.vol` of the media root, none with a desktop entry, the first
poll of the pass lists all four as mounted roots and the later polls only `c`
and `.vol`. The pass links `a` and nothing else: `b` was in a poll, but in one
made while the pass waited for `a`; `.vol` is in every poll, but line 72 does
not list a name that starts with a dot; `c` is found, but its desktop path is
locked and `QFile::link` fails. -/
theorem pass_links_only_what_it_waited_for :
    transientDesk.desktop = [] ∧
    transientDesk.disk.isDir "/media/b" = true ∧ transientDesk.disk.isDir "/media/.vol" = true ∧
    transientDesk.disk.isDir "/media/c" = true ∧
    transientDesk.pending = [["/", "/media/a", "/media/b", "/media/c", "/media/.vol"]] ∧
    transientDesk.disk.dirList "/media" = ["a", "b", "c"] ∧
    (handleDirectoryChange mediaWatcher transientDesk "/media").desktop
      = [("a", Node.symlink "/media/a")] ∧
    (handleDirectoryChange mediaWatcher transientDesk "/media").log.filter WatchEvent.isLink
      = [WatchEvent.link "/media/a" "/home/u/Desktop/a" true,
         WatchEvent.link "/media/c" "/home/u/Desktop/c" false] := by
  decide

/-- C17, amended. Let the listing of line 72 return the name `d` once, after
the names `pre`; let `d` have no desktop entry and not be the skipped
`/media/LIVE`, the desktop path of `d` not be locked, and the media root be an
absolute path apart from the desktop directory. Then after the pass the
desktop holds the one entry `d -> <mediaRoot>/d` if `<mediaRoot>/d` is a
mounted root in one of the 21 polls the pass can make while it waits for `d`,
that is from the state it has reached after `pre`; otherwise it holds no entry
named `d`. -/
theorem link_iff_mounted_while_waiting (v : VolumeWatcher) (s : Desk) (pre post : List String)
    (d : String)
    (hap : mediaApart v s = true)
    (hlist : s.disk.dirList v.m_mediaPath = pre ++ d :: post)
    (hpre : d ∉ pre) (hpost : d ∉ post)
    (hlive : skipsLive s (v.m_mediaPath ++ "/" ++ d) = false)
    (hnone : s.desktop.lookup d = none)
    (hfree : (s.home ++ "/Desktop/" ++ d) ∉ s.disk.locked) :
    (handleDirectoryChange v s v.m_mediaPath).desktop.filter (fun e => e.1 == d)
      = if (upcomingPolls (linkLoopState s v.m_mediaPath pre).pending s.disk.mounts 21).any
            (fun m => m.contains (v.m_mediaPath ++ "/" ++ d))
        then [(d, Node.symlink (v.m_mediaPath ++ "/" ++ d))] else [] := by
  have hE : s.disk.exists (v.m_mediaPath ++ "/" ++ d) = true := by
    apply isDir_exists
    apply mem_dirList_isDir
    rw [hlist]
    simp
  have hnotin : d ∉ symlinkPaths v s := by
    intro hmem
    have hk := ((mem_symlinkPaths v s d).mp hmem).1
    rw [List.lookup_eq_none_iff] at hnone
    obtain ⟨p, hp, hpd⟩ := List.mem_map.mp hk
    have := hnone p hp
    rw [hpd] at this
    simp at this
  have G : Grows v s (linkLoopState s v.m_mediaPath pre) := linkLoop_grows v pre s hap
  have hapd : mediaApart v (linkLoopState s v.m_mediaPath pre) = true := by
    rw [mediaApart_congr v s _ G.1]; exact hap
  have hfd : (linkLoopState s v.m_mediaPath pre).desktop.filter (fun e => e.1 == d) = [] := by
    rw [linkLoopState, linkLoop_other v d pre s hap hpre]
    exact filter_key_of_lookup_none _ _ hnone
  have hnoned := lookup_none_of_filter_key _ _ hfd
  obtain ⟨k, evs, heq, _⟩ := linkStep_cases v (linkLoopState s v.m_mediaPath pre) d hapd
  have hw : wouldLink v (linkLoopState s v.m_mediaPath pre) d
      = (upcomingPolls (linkLoopState s v.m_mediaPath pre).pending s.disk.mounts 21).any
          (fun m => m.contains (v.m_mediaPath ++ "/" ++ d)) := by
    have hl : skipsLive (linkLoopState s v.m_mediaPath pre) (v.m_mediaPath ++ "/" ++ d) = false := by
      simpa [skipsLive, G.2.2.1] using hlive
    simp only [wouldLink, hl, hnoned]
    rw [G.1, G.2.1]
    simp [hE, hfree]
  have hapd1 : mediaApart v (linkStep (linkLoopState s v.m_mediaPath pre) v.m_mediaPath d) = true := by
    rw [mediaApart_congr v _ _ (linkStep_grows v _ d hapd).1.1]; exact hapd
  have hapd2 : mediaApart v (post.foldl (fun st dirName => linkStep st v.m_mediaPath dirName)
      (linkStep (linkLoopState s v.m_mediaPath pre) v.m_mediaPath d)) = true := by
    rw [mediaApart_congr v _ _ (linkLoop_grows v post _ hapd1).1]; exact hapd1
  have hpass : handleDirectoryChange v s v.m_mediaPath
      = (symlinkPaths v s).foldl (fun st symlinkPath => cleanStep v st symlinkPath)
          (post.foldl (fun st dirName => linkStep st v.m_mediaPath dirName)
            (linkStep (linkLoopState s v.m_mediaPath pre) v.m_mediaPath d)) := by
    simp only [handleDirectoryChange, hlist, List.foldl_append, List.foldl_cons, linkLoopState]
  rw [hpass, cleanLoop_other v d _ _ hapd2 hnotin, linkLoop_other v d post _ hapd1 hpost, heq, hw]
  simp only
  split_ifs
  · simp [List.filter_append, hfd, List.filter]
  · exact hfd

theorem link_iff_mounted_while_waiting_witness :
    (twoVolumesDesk.disk.dirList mediaWatcher.m_mediaPath = ["a"] ++ "b" :: [] ∧
      twoVolumesDesk.desktop.lookup "b" = none ∧
      (handleDirectoryChange mediaWatcher twoVolumesDesk mediaWatcher.m_mediaPath).desktop.filter
          (fun e => e.1 == "b") = [("b", Node.symlink "/media/b")]) ∧
    ((linkLoopState { twoVolumesDesk with
            disk := { twoVolumesDesk.disk with mounts := ["/", "/media/a"] } }
          mediaWatcher.m_mediaPath ["a"]).pending = [] ∧
      (handleDirectoryChange mediaWatcher
          { twoVolumesDesk with disk := { twoVolumesDesk.disk with mounts := ["/", "/media/a"] } }
          mediaWatcher.m_mediaPath).desktop.filter (fun e => e.1 == "b") = []) :=
  ⟨⟨by decide, by decide,
    link_iff_mounted_while_waiting mediaWatcher twoVolumesDesk ["a"] [] "b" (by decide)
      (by decide) (by decide) (by decide) (by decide) (by decide) (by decide)⟩,
   ⟨by decide,
    link_iff_mounted_while_waiting mediaWatcher
      { twoVolumesDesk with disk := { twoVolumesDesk.disk with mounts := ["/", "/media/a"] } }
      ["a"] [] "b" (by decide) (by decide) (by decide) (by decide) (by decide) (by decide)
      (by decide)⟩⟩

end Filer
